import Mathlib

/-!
# Verification log generator (`vlogging_tool_sr.c`)

A shallow embedding of the log session of `src/iamf_dec/vlogging_tool_sr.c`:
the process-wide `log_file` object, the per-category doubly linked chains of
`VLOG_DATA` cells that `vlog_print` maintains, and the drain performed by
`vlog_file_close`.

A C string is modelled by a `String` whose characters stand for its bytes, so
`strlen` is `String.length`.

Memory is modelled explicitly.  A heap is a list of cells, an address is an
index into it, and `malloc` returns the next unused index.  Every pointer
assignment of the C code is one heap update, performed in the order of the
source.  Reading through a null, dangling or uninitialised pointer, and a loop
that does not finish, make an operation return `none`.
-/

namespace Vlog

/-! ## Data model -/

/-- Modelled from the spec: the enumeration `LOG_TYPE` is declared in the header
`vlogging_tool_sr.h`, which is not part of the sources at hand.  The spec names
three categories (record trace, container trace, decoder-operation trace); the
code indexes `head[MAX_LOG_TYPE]` with them and drains `LOG_MP4BOX`, `LOG_OBU`,
`LOG_DECOP`. -/
inductive LOG_TYPE where
  | LOG_OBU
  | LOG_MP4BOX
  | LOG_DECOP
  deriving DecidableEq, Repr

/-- A C pointer to a `VLOG_DATA` cell: `NULL`, the address of a cell, or the
indeterminate content of a field that `malloc` returned and nobody wrote. -/
inductive Ptr where
  | null
  | undef
  | addr (a : Nat)
  deriving DecidableEq, Repr

/-- The cell `struct vlogdata`.  `ltext` is the heap buffer (`none` is `NULL`),
`text` the inline buffer read as a C string. -/
structure VLOG_DATA where
  log_type : LOG_TYPE
  key : Nat
  prev : Ptr
  next : Ptr
  is_longtext : Bool
  ltext : Option String
  text : String
  deriving DecidableEq, Repr

/-- A stream handle as returned by `fopen`. -/
structure FILE where
  fd : Nat
  deriving DecidableEq, Repr

/-- The object `struct vlog_file`; `head` is spelled out per category. -/
structure VLOG_FILE where
  f : Option FILE
  file_name : String
  is_open : Bool
  head_obu : Ptr
  head_mp4box : Ptr
  head_decop : Ptr
  deriving DecidableEq, Repr

/-- The whole mutable state the file works on: the static `log_file`, the cells
allocated so far, and the static counter `obu_count` of `vlog_obu`. -/
structure State where
  log_file : VLOG_FILE
  heap : List VLOG_DATA
  obu_count : Nat
  deriving DecidableEq, Repr

/-- The read `log_file.head[type]`. -/
def getHead (lf : VLOG_FILE) : LOG_TYPE → Ptr
  | LOG_TYPE.LOG_OBU => lf.head_obu
  | LOG_TYPE.LOG_MP4BOX => lf.head_mp4box
  | LOG_TYPE.LOG_DECOP => lf.head_decop

/-- The write `log_file.head[type] = p`. -/
def setHead (lf : VLOG_FILE) (ty : LOG_TYPE) (p : Ptr) : VLOG_FILE :=
  match ty with
  | LOG_TYPE.LOG_OBU => { lf with head_obu := p }
  | LOG_TYPE.LOG_MP4BOX => { lf with head_mp4box := p }
  | LOG_TYPE.LOG_DECOP => { lf with head_decop := p }

/-- The zero-initialised static state of the program at start. -/
def init : State :=
  { log_file :=
      { f := none, file_name := "", is_open := false,
        head_obu := Ptr.null, head_mp4box := Ptr.null, head_decop := Ptr.null },
    heap := [],
    obu_count := 0 }

/-! ## Heap access -/

/-- Following a pointer: only the address of a cell can be followed. -/
def deref : Ptr → Option Nat
  | Ptr.addr a => some a
  | _ => none

/-- The read of the cell at address `a`. -/
def load (heap : List VLOG_DATA) (a : Nat) : Option VLOG_DATA :=
  heap[a]?

/-- The assignment `a->next = p`. -/
def store_next (heap : List VLOG_DATA) (a : Nat) (p : Ptr) : Option (List VLOG_DATA) :=
  match heap[a]? with
  | some n => some (heap.set a { n with next := p })
  | none => none

/-- The assignment `a->prev = p`. -/
def store_prev (heap : List VLOG_DATA) (a : Nat) (p : Ptr) : Option (List VLOG_DATA) :=
  match heap[a]? with
  | some n => some (heap.set a { n with prev := p })
  | none => none

/-! ## `vlog_file_open`, `vlog_file_close`, `is_vlog_file_open` -/

/-- The function `vlog_file_open`.  The outcomes of the file-system calls are
inputs: `file_exists` says whether `access` found the file, `remove_ok` whether
`remove` succeeded, `stream` is what `fopen` returned. -/
def vlog_file_open (s : State) (log_file_name : String)
    (file_exists remove_ok : Bool) (stream : Option FILE) : State × Int :=
  if s.log_file.is_open && decide (log_file_name = s.log_file.file_name) then
    (s, 0)
  else if file_exists && !remove_ok then
    (s, -1)
  else
    ({ s with
        log_file :=
          { f := stream, file_name := log_file_name, is_open := true,
            head_obu := Ptr.null, head_mp4box := Ptr.null, head_decop := Ptr.null } },
      0)

/-- The function `is_vlog_file_open`. -/
def is_vlog_file_open (s : State) : Int :=
  if s.log_file.f.isNone || !s.log_file.is_open then 0 else 1

/-- The inner `while (t_logdata)` loop of `vlog_file_close`: walks the chain from
`t`, appending to `out` what `fprintf(log_file.f, "%s", ...)` writes for each
cell.  `fuel` bounds the number of iterations. -/
def drain : Nat → List VLOG_DATA → Ptr → String → Option String
  | 0, _, _, _ => none
  | _ + 1, _, Ptr.null, out => some out
  | _ + 1, _, Ptr.undef, _ => none
  | fuel + 1, heap, Ptr.addr a, out =>
    match load heap a with
    | none => none
    | some n =>
      if n.is_longtext then
        match n.ltext with
        | none => none
        | some l => drain fuel heap n.next (out ++ l)
      else
        drain fuel heap n.next (out ++ n.text)

/-- The array `print_order` of `vlog_file_close`. -/
def print_order : List LOG_TYPE :=
  [LOG_TYPE.LOG_MP4BOX, LOG_TYPE.LOG_OBU, LOG_TYPE.LOG_DECOP]

/-- The outer `for` loop of `vlog_file_close` over `print_order`: drains one
category after the other and resets its head. -/
def close_loop (heap : List VLOG_DATA) : List LOG_TYPE → VLOG_FILE → String →
    Option (VLOG_FILE × String)
  | [], lf, out => some (lf, out)
  | ty :: rest, lf, out =>
    match drain (heap.length + 1) heap (getHead lf ty) out with
    | none => none
    | some out1 => close_loop heap rest (setHead lf ty Ptr.null) out1

/-- The function `vlog_file_close`.  The result holds the new state, the
returned value and the bytes written to the stream `log_file.f` by this call.
The release of the cells with `free` is not tracked: addresses are never
reused in this model. -/
def vlog_file_close (s : State) : Option (State × Int × String) :=
  if s.log_file.f.isSome && s.log_file.is_open then
    match close_loop s.heap print_order s.log_file "" with
    | none => none
    | some (lf, out) =>
      some ({ s with log_file := { lf with f := none, file_name := "", is_open := false } },
        0, out)
  else
    some (s, -1, "")

/-! ## `vlog_print` -/

/-- The `while (t_logdata)` scan of `vlog_print` ("body or tail is needed to
update"), with the cell `new` already allocated and `t` the cursor. -/
def insert_scan : Nat → List VLOG_DATA → Nat → Nat → Option (List VLOG_DATA)
  | 0, _, _, _ => none
  | fuel + 1, heap, new, t => do
    let nn ← load heap new
    let tn ← load heap t
    if nn.key < tn.key then
      -- add new logdata into body
      let h1 ← store_next heap new (Ptr.addr t)
      let t1 ← load h1 t
      let p ← deref t1.prev
      let h2 ← store_next h1 p (Ptr.addr new)
      let t2 ← load h2 t
      let h3 ← store_prev h2 new t2.prev
      store_prev h3 t (Ptr.addr new)
    else
      match tn.next with
      | Ptr.addr n => insert_scan fuel heap new n
      | Ptr.undef => none
      | Ptr.null =>
        -- add new logdata into tail
        let h1 ← store_prev heap new (Ptr.addr t)
        let h2 ← store_next h1 t (Ptr.addr new)
        store_next h2 new Ptr.null

/-- The cell `vlog_print` sets up for a formatted text: inline when the text
with its terminator fits `text[256]`, in the heap buffer otherwise.  The links
are not written here. -/
def new_logdata (type : LOG_TYPE) (key : Nat) (text : String) : VLOG_DATA :=
  if text.length + 1 < 256 then
    { log_type := type, key := key, prev := Ptr.undef, next := Ptr.undef,
      is_longtext := false, ltext := none, text := text }
  else
    { log_type := type, key := key, prev := Ptr.undef, next := Ptr.undef,
      is_longtext := true, ltext := some text, text := "" }

/-- The part "add new logdata into logdata chain" of `vlog_print`: links the
freshly allocated cell `logdata_new` into the chain of `type`. -/
def link_logdata (s : State) (type : LOG_TYPE) (logdata_new : VLOG_DATA) :
    Option (State × Int) :=
  let new := s.heap.length
  let heap0 := s.heap ++ [logdata_new]
  match getHead s.log_file type with
  | Ptr.undef => none
  | Ptr.null => do
    -- head is empty
    let h1 ← store_prev heap0 new Ptr.null
    let h2 ← store_next h1 new Ptr.null
    some ({ s with heap := h2, log_file := setHead s.log_file type (Ptr.addr new) }, 0)
  | Ptr.addr t => do
    let nn ← load heap0 new
    let tn ← load heap0 t
    if nn.key < tn.key then
      -- head is needed to update
      let h1 ← store_next heap0 new tn.next
      let h2 ← store_prev h1 t (Ptr.addr new)
      some ({ s with heap := h2, log_file := setHead s.log_file type (Ptr.addr new) }, 0)
    else
      -- body or tail is needed to update
      let h ← insert_scan (heap0.length + 1) heap0 new t
      some ({ s with heap := h }, 0)

/-- The function `vlog_print` from the point at which the formatting buffer is
allocated and holds `text`, for the case that the length of `text` with its
terminator is the measured `len` (as it is when no conversion reads an
argument): `text` is the content of `buffer` after line 167, and `alloc` says
whether `malloc(sizeof(VLOG_DATA))` returned a cell.  How `buffer` gets its
content from the format and the variable arguments, and what happens when
`buffer` is not allocated, is in `vlog_print_va` below; `vlog_print_va_eq` relates
the two.  The copy of the text that the Linux build sends to the standard
output while it measures the length is not part of the state. -/
def vlog_print (s : State) (type : LOG_TYPE) (key : Nat) (text : String)
    (alloc : Bool) : Option (State × Int) :=
  if s.log_file.f.isNone || !s.log_file.is_open then
    some (s, -1)
  else if !alloc then
    some (s, 0)
  else
    link_logdata s type (new_logdata type key text)

/-- A variable argument of a call. -/
inductive Arg where
  | int (v : Int)
  | uint (v : Nat)
  | str (v : String)
  deriving DecidableEq, Repr

/-- The text a `printf`-family function produces for the format `fmt` with the
`va_list` `ap`, which is the list of the arguments not read yet, and the
`va_list` as the function leaves it: `%%` gives `%`, `%d` reads an `int`, `%u`
an `unsigned`, `%s` a string, and the other characters are copied.  A conversion
that finds no argument, or one of another type, and any other conversion have
no defined outcome (`none`). -/
def vformat : List Char → List Arg → Option (List Char × List Arg)
  | [], ap => some ([], ap)
  | '%' :: '%' :: rest, ap => (vformat rest ap).map (fun r => ('%' :: r.1, r.2))
  | '%' :: 'd' :: rest, Arg.int v :: ap =>
    (vformat rest ap).map (fun r => ((toString v).data ++ r.1, r.2))
  | '%' :: 'u' :: rest, Arg.uint v :: ap =>
    (vformat rest ap).map (fun r => ((toString v).data ++ r.1, r.2))
  | '%' :: 's' :: rest, Arg.str v :: ap => (vformat rest ap).map (fun r => (v.data ++ r.1, r.2))
  | '%' :: _, _ => none
  | c :: rest, ap => (vformat rest ap).map (fun r => (c :: r.1, r.2))

/-- The part of `vlog_print` after `va_end` (lines 173-226): `len` is the measured
length with the terminator, `buffer` the formatting buffer (`none` when
`malloc(len)` returned `NULL`) and `alloc` says whether
`malloc(sizeof(VLOG_DATA))` returned a cell.  `strcpy` from a buffer that is
`NULL` has no defined outcome. -/
def vlog_print_store (s : State) (type : LOG_TYPE) (key : Nat) (len : Nat)
    (buffer : Option String) (alloc : Bool) : Option (State × Int) :=
  if !alloc then
    some (s, 0)
  else if len < 256 then
    -- short text log
    match buffer with
    | none => none
    | some b =>
      link_logdata s type
        { log_type := type, key := key, prev := Ptr.undef, next := Ptr.undef,
          is_longtext := false, ltext := none, text := b }
  else
    -- longtext log
    link_logdata s type
      { log_type := type, key := key, prev := Ptr.undef, next := Ptr.undef,
        is_longtext := true, ltext := buffer, text := "" }

/-- The function `vlog_print` with its format and its variable arguments, as the
Linux build compiles it.  `args` is the `va_list` after `va_start`.  `vprintf`
reads the arguments from it to measure the length and leaves it advanced; the
code passes the same `va_list` to `vsnprintf` without a second `va_start` (as
`write_yaml_form` has), so `vsnprintf` reads on from where `vprintf` stopped, and
it writes at most `len - 1` characters.  `buffer_alloc` says whether
`malloc(len)` returned the buffer and `alloc` whether
`malloc(sizeof(VLOG_DATA))` returned a cell.  A length that is no `int` has no
defined outcome. -/
def vlog_print_va (s : State) (type : LOG_TYPE) (key : Nat) (format : List Char)
    (args : List Arg) (buffer_alloc alloc : Bool) : Option (State × Int) :=
  if s.log_file.f.isNone || !s.log_file.is_open then
    some (s, -1)
  else
    -- len = vprintf(format, args) + 1
    match vformat format args with
    | none => none
    | some (out, args) =>
      let len := out.length + 1
      if 2 ^ 31 ≤ len then
        none
      else if buffer_alloc then
        -- vsnprintf(buffer, len, format, args)
        match vformat format args with
        | none => none
        | some (out2, _) =>
          vlog_print_store s type key len (some (String.mk (out2.take (len - 1)))) alloc
      else
        vlog_print_store s type key len none alloc

/-! ## The line formatter and the record serializers -/

/-- The size `LOG_BUFFER_SIZE` of the static buffer of `vlog_obu`. -/
def LOG_BUFFER_SIZE : Nat := 100000

/-- The function `get_4cc_codec_id` on character codes, with `uint32_t` result. -/
def get_4cc_codec_id (a b c d : Nat) : Nat :=
  (a ||| (b <<< 8) ||| (c <<< 16) ||| (d <<< 24)) % 2 ^ 32

/-- The function `swapByteOrder` on a `uint32_t`. -/
def swapByteOrder (x : Nat) : Nat :=
  ((x >>> 24) ||| ((x >>> 8) &&& 0x0000FF00) ||| ((x <<< 8) &&& 0x00FF0000) |||
    ((x <<< 24) % 2 ^ 32)) % 2 ^ 32

/-- The function `write_prefix`: the text written at the cursor and the returned
length.  `none` stands for a category value outside the enumeration (the
`default` label). -/
def write_prefix : Option LOG_TYPE → String × Nat
  | some LOG_TYPE.LOG_OBU => ("#0\n", 3)
  | some LOG_TYPE.LOG_MP4BOX => ("#1\n", 3)
  | some LOG_TYPE.LOG_DECOP => ("$0\n", 3)
  | none => ("", 0)

/-- The function `write_postfix`, as `write_prefix`. -/
def write_postfix : Option LOG_TYPE → String × Nat
  | some LOG_TYPE.LOG_OBU => ("##\n", 3)
  | some LOG_TYPE.LOG_MP4BOX => ("##\n", 3)
  | some LOG_TYPE.LOG_DECOP => ("$$\n", 3)
  | none => ("", 0)

/-- The indentation loop of `write_yaml_form`: `i` iterations left, `log` the text
written so far and `ret` the running count. -/
def indent_loop : Nat → String → Nat → String × Nat
  | 0, log, ret => (log, ret)
  | i + 1, log, ret => indent_loop i (log ++ "  ") (ret + 2)

/-- The function `write_yaml_form`.  `indent` is a `uint8_t`; `s` is the result of
formatting the template with its arguments.  The result is the text written at
the cursor and the returned count. -/
def write_yaml_form (indent : Nat) (s : String) : String × Nat :=
  let r := indent_loop (indent % 256) "" 0
  let len := s.length + 1
  let ret := r.2 + (len - 1)
  (r.1 ++ s ++ "\n", ret + 1)

/-- The statement `log += w(log, ...)`: the text `w.1` is written at the cursor and
the cursor moves on by the returned count `w.2`; what lies before the cursor is
kept by the later writes. -/
def advance (log : String) (w : String × Nat) : String :=
  String.mk ((log.data ++ w.1.data).take (log.length + w.2))

/-- The statement `log += write_yaml_form(log, indent, ...)`. -/
def yaml (log : String) (indent : Nat) (s : String) : String :=
  advance log (write_yaml_form indent s)

/-- The final `write_postfix(LOG_OBU, log)` of a serializer: the text is written at
the cursor and ends the C string. -/
def finish (log : String) : String :=
  log ++ ( write_postfix (some LOG_TYPE.LOG_OBU)).1

/-- The first statement `log += write_prefix(LOG_OBU, log)` of a serializer. -/
def start : String :=
  advance "" ( write_prefix (some LOG_TYPE.LOG_OBU))

/-! ### The decoded records

Modelled from the spec: the record structures are declared in the header
`IAMF_OBU.h`, which is not part of the sources at hand.  Each structure below
holds the fields its serializer reads.  An array with its count field is a list
(the count is the length of the list), and a numeric tag that selects the
layout of the data behind a pointer comes with that data as a sum type.
Unsigned fields are natural numbers in the range of their C type. -/

/-- Modelled from the spec: `IAMF_Version` of `IAMF_OBU.h`, the fields read by
`write_magic_code_log`. -/
structure IAMF_Version where
  iamf_code : Nat
  version : Nat
  profile_version : Nat
  deriving DecidableEq, Repr

/-- Modelled from the spec: `IAMF_CodecConf` of `IAMF_OBU.h`, the fields read by
`write_codec_config_log`; `decoder_conf` is the byte buffer. -/
structure IAMF_CodecConf where
  codec_conf_id : Nat
  codec_id : Nat
  nb_samples_per_frame : Nat
  roll_distance : Int
  decoder_conf : List Nat
  deriving DecidableEq, Repr

/-- Modelled from the spec: `ChannelLayerConf` of `IAMF_OBU.h`. -/
structure ChannelLayerConf where
  loudspeaker_layout : Nat
  output_gain_flag : Nat
  recon_gain_flag : Nat
  nb_substreams : Nat
  nb_coupled_substreams : Nat
  deriving DecidableEq, Repr

/-- Modelled from the spec: the value of `ambisonics_mode` as the serializer
tells it apart (`AMBISONICS_MONO`, `AMBISONICS_PROJECTION`, anything else). -/
inductive AmbisonicsKind where
  | mono
  | projection
  | other
  deriving DecidableEq, Repr

/-- Modelled from the spec: `AmbisonicsConf` of `IAMF_OBU.h`; `mapping` has
`mapping_size` bytes. -/
structure AmbisonicsConf where
  ambisonics_mode : Nat
  kind : AmbisonicsKind
  output_channel_count : Nat
  substream_count : Nat
  coupled_substream_count : Nat
  mapping : List Nat
  deriving DecidableEq, Repr

/-- Modelled from the spec: the configuration behind an audio element, selected by
`element_type` (`AUDIO_ELEMENT_TYPE_CHANNEL_BASED`, `AUDIO_ELEMENT_TYPE_SCENE_BASED`,
anything else). -/
inductive ElementConf where
  | channel_based (layer_conf_s : List ChannelLayerConf)
  | scene_based (ambisonics_conf : AmbisonicsConf)
  | other
  deriving DecidableEq, Repr

/-- Modelled from the spec: `IAMF_Element` of `IAMF_OBU.h`. -/
structure IAMF_Element where
  element_id : Nat
  element_type : Nat
  codec_config_id : Nat
  substream_ids : List Nat
  nb_parameters : Nat
  conf : ElementConf
  deriving DecidableEq, Repr

/-- Modelled from the spec: `ParameterBase` of `IAMF_OBU.h`; `segment_interval` is
the field read through `segments->segment_interval`. -/
structure ParameterBase where
  id : Nat
  rate : Nat
  mode : Nat
  duration : Nat
  nb_segments : Nat
  constant_segment_interval : Nat
  segment_interval : Nat
  deriving DecidableEq, Repr

/-- Modelled from the spec: `MixGainConf`, a parameter base with a default gain. -/
structure MixGainConf where
  base : ParameterBase
  mix_gain : Int
  deriving DecidableEq, Repr

/-- Modelled from the spec: `ElementMixRenderConf` of `IAMF_OBU.h`. -/
structure ElementMixRenderConf where
  element_id : Nat
  audio_element_friendly_label : String
  gain : MixGainConf
  deriving DecidableEq, Repr

/-- Modelled from the spec: a layout, selected by its `type`
(`IAMF_LAYOUT_TYPE_LOUDSPEAKERS_SP_LABEL`, `IAMF_LAYOUT_TYPE_LOUDSPEAKERS_SS_CONVENTION`,
anything else). -/
inductive LayoutKind where
  | sp_label (sp_labels : List Nat)
  | ss_convention (sound_system : Nat)
  | other
  deriving DecidableEq, Repr

/-- Modelled from the spec: one entry of `layouts[]` with the entry of
`loudness[]` at the same index. -/
structure LayoutLoudness where
  type : Nat
  kind : LayoutKind
  info_type : Nat
  integrated_loudness : Int
  digital_peak : Int
  deriving DecidableEq, Repr

/-- Modelled from the spec: `SubMixPresentation` of `IAMF_OBU.h`. -/
structure SubMixPresentation where
  conf_s : List ElementMixRenderConf
  output_mix_config : MixGainConf
  layouts : List LayoutLoudness
  deriving DecidableEq, Repr

/-- Modelled from the spec: `IAMF_MixPresentation` of `IAMF_OBU.h`. -/
structure IAMF_MixPresentation where
  mix_presentation_id : Nat
  mix_presentation_friendly_label : String
  sub_mixes : List SubMixPresentation
  deriving DecidableEq, Repr

/-- Modelled from the spec: the value of `animated_type` as the serializer tells
it apart. -/
inductive AnimatedKind where
  | step
  | linear
  | bezier
  | other
  deriving DecidableEq, Repr

/-- Modelled from the spec: `MixGainSegment` of `IAMF_OBU.h`. -/
structure MixGainSegment where
  segment_interval : Nat
  animated_type : Nat
  kind : AnimatedKind
  start : Int
  «end» : Int
  control : Int
  control_relative_time : Nat
  deriving DecidableEq, Repr

/-- Modelled from the spec: `DemixingSegment` of `IAMF_OBU.h`. -/
structure DemixingSegment where
  segment_interval : Nat
  demixing_mode : Nat
  deriving DecidableEq, Repr

/-- Modelled from the spec: the segments of a parameter block, selected by
`para->type`; for a recon-gain block and for any other type only the number of
segments matters. -/
inductive ParameterSegments where
  | mix_gain (segments : List MixGainSegment)
  | demixing (segments : List DemixingSegment)
  | recon_gain (nb_segments : Nat)
  | other (nb_segments : Nat)
  deriving DecidableEq, Repr

/-- Modelled from the spec: `IAMF_Parameter` of `IAMF_OBU.h`. -/
structure IAMF_Parameter where
  id : Nat
  duration : Nat
  constant_segment_interval : Nat
  segments : ParameterSegments
  deriving DecidableEq, Repr

/-- Modelled from the spec: `IAMF_Frame` of `IAMF_OBU.h`. -/
structure IAMF_Frame where
  id : Nat
  size : Nat
  deriving DecidableEq, Repr

/-- Modelled from the spec: one entry of `IAMF_Sync.objs`. -/
structure SyncObj where
  obu_id : Nat
  obu_data_type : Nat
  reinitialize_decoder : Nat
  relative_offset : Int
  deriving DecidableEq, Repr

/-- Modelled from the spec: `IAMF_Sync` of `IAMF_OBU.h`. -/
structure IAMF_Sync where
  global_offset : Nat
  objs : List SyncObj
  deriving DecidableEq, Repr

/-- Modelled from the spec: the pair of arguments `obu_type`, `obu` of `vlog_obu`.
The numeric values of the `IAMF_OBU_*` constants are in the missing header; the
constructor says which label of the `switch` the type matches, `audio_frame`
being the range `IAMF_OBU_AUDIO_FRAME .. IAMF_OBU_AUDIO_FRAME_ID21` and `other`
any type that matches nothing. -/
inductive OBU where
  | codec_config (obu : IAMF_CodecConf)
  | audio_element (obu : IAMF_Element)
  | mix_presentation (obu : IAMF_MixPresentation)
  | parameter_block (obu : IAMF_Parameter)
  | temporal_delimiter
  | sync (obu : IAMF_Sync)
  | magic_code (obu : IAMF_Version)
  | audio_frame (obu : IAMF_Frame)
  | other
  deriving DecidableEq, Repr

/-! ### The serializers -/

/-- Modelled from the spec: `get_uint8` of the missing header `bitstreamrw.h`, the
byte at offset `i` (0 past the end of the buffer). -/
def get_uint8 (b : List Nat) (i : Nat) : Nat :=
  b.getD i 0 % 256

/-- Modelled from the spec: `get_uint16be` of `bitstreamrw.h`, a big-endian read. -/
def get_uint16be (b : List Nat) (i : Nat) : Nat :=
  get_uint8 b i * 256 + get_uint8 b (i + 1)

/-- Modelled from the spec: `get_uint32be` of `bitstreamrw.h`, a big-endian read. -/
def get_uint32be (b : List Nat) (i : Nat) : Nat :=
  get_uint16be b i * 65536 + get_uint16be b (i + 2)

/-- The conversion to `int16_t` of a value computed in `int`. -/
def to_int16 (v : Nat) : Int :=
  if v % 65536 < 32768 then (v % 65536 : Nat) else ((v % 65536 : Nat) : Int) - 65536

/-- The function `write_magic_code_log`. -/
def write_magic_code_log (idx : Nat) (mc_obu : IAMF_Version) : String :=
  let log := start
  let log := yaml log 0 ("MagicCodeOBU_" ++ toString idx ++ ":")
  let log := yaml log 0 ("- ia_code: " ++ toString (swapByteOrder mc_obu.iamf_code))
  let log := yaml log 1 ("version: " ++ toString mc_obu.version)
  let log := yaml log 1 ("profile_version: " ++ toString mc_obu.profile_version)
  finish log

/-- The function `write_codec_config_log`. -/
def write_codec_config_log (idx : Nat) (cc_obu : IAMF_CodecConf) : String :=
  let log := start
  let log := yaml log 0 ("CodecConfigOBU_" ++ toString idx ++ ":")
  let log := yaml log 0 ("- codec_config_id: " ++ toString cc_obu.codec_conf_id)
  let log := yaml log 1 "codec_config:"
  let log := yaml log 2 ("codec_id: " ++ toString (swapByteOrder cc_obu.codec_id))
  let log := yaml log 2 ("num_samples_per_frame: " ++ toString cc_obu.nb_samples_per_frame)
  let log := yaml log 2 ("roll_distance: " ++ toString cc_obu.roll_distance)
  let log :=
    if cc_obu.codec_id = get_4cc_codec_id 'm'.toNat 'p'.toNat '4'.toNat 'a'.toNat ∨
        cc_obu.codec_id = get_4cc_codec_id 'e'.toNat 's'.toNat 'd'.toNat 's'.toNat then
      log
    else if cc_obu.codec_id = get_4cc_codec_id 'O'.toNat 'p'.toNat 'u'.toNat 's'.toNat ∨
        cc_obu.codec_id = get_4cc_codec_id 'd'.toNat 'O'.toNat 'p'.toNat 's'.toNat then
      let version := get_uint8 cc_obu.decoder_conf 0
      let output_channel_count := get_uint8 cc_obu.decoder_conf 1
      let pre_skip := get_uint16be cc_obu.decoder_conf 2
      let input_sample_rate := get_uint32be cc_obu.decoder_conf 4
      let output_gain := get_uint16be cc_obu.decoder_conf 8
      let channel_mapping_family := get_uint8 cc_obu.decoder_conf 10
      let log := yaml log 2 "decoder_config_opus:"
      let log := yaml log 3 ("version: " ++ toString version)
      let log := yaml log 3 ("output_channel_count: " ++ toString output_channel_count)
      let log := yaml log 3 ("pre_skip: " ++ toString pre_skip)
      let log := yaml log 3 ("input_sample_rate: " ++ toString input_sample_rate)
      let log := yaml log 3 ("output_gain: " ++ toString output_gain)
      yaml log 3 ("mapping_family: " ++ toString channel_mapping_family)
    else if cc_obu.codec_id = get_4cc_codec_id 'i'.toNat 'p'.toNat 'c'.toNat 'm'.toNat then
      let sample_format_flags := get_uint8 cc_obu.decoder_conf 0
      let sample_size := get_uint8 cc_obu.decoder_conf 1
      let sample_rate := get_uint32be cc_obu.decoder_conf 2
      let log := yaml log 2 "decoder_config_lpcm:"
      let log := yaml log 3 ("sample_format_flags: " ++ toString sample_format_flags)
      let log := yaml log 3 ("sample_size: " ++ toString sample_size)
      yaml log 3 ("sample_rate: " ++ toString sample_rate)
    else
      log
  finish log

/-- The loop over `layer_conf_s` of `write_audio_element_log`. -/
def write_layer_conf (log : String) (layer_conf : ChannelLayerConf) : String :=
  let log := yaml log 2 ("- loudspeaker_layout: " ++ toString layer_conf.loudspeaker_layout)
  let log := yaml log 3
    ("output_gain_is_present_flag: " ++ toString layer_conf.output_gain_flag)
  let log := yaml log 3 ("recon_gain_is_present_flag: " ++ toString layer_conf.recon_gain_flag)
  let log := yaml log 3 ("substream_count: " ++ toString layer_conf.nb_substreams)
  yaml log 3 ("coupled_substream_count: " ++ toString layer_conf.nb_coupled_substreams)

/-- The loop `for (i = 0; i < mapping_size; i += 2)` over the demixing matrix:
`n` iterations from index `i`. -/
def write_demixing_matrix (mapping : List Nat) : Nat → Nat → String → String
  | 0, _, log => log
  | n + 1, i, log =>
    let value := to_int16 ((get_uint8 mapping i <<< 8) ||| get_uint8 mapping (i + 1))
    write_demixing_matrix mapping n (i + 2) (yaml log 3 ("- " ++ toString value))

/-- The function `write_audio_element_log`. -/
def write_audio_element_log (idx : Nat) (ae_obu : IAMF_Element) : String :=
  let log := start
  let log := yaml log 0 ("AudioElementOBU_" ++ toString idx ++ ":")
  let log := yaml log 0 ("- audio_element_id: " ++ toString ae_obu.element_id)
  let log := yaml log 1 ("audio_element_type: " ++ toString ae_obu.element_type)
  let log := yaml log 1 ("codec_config_id: " ++ toString ae_obu.codec_config_id)
  let log := yaml log 1 ("num_substreams: " ++ toString ae_obu.substream_ids.length)
  let log := yaml log 1 "audio_substream_ids:"
  let log := ae_obu.substream_ids.foldl (fun log id => yaml log 1 ("- " ++ toString id)) log
  let log := yaml log 1 ("num_parameters: " ++ toString ae_obu.nb_parameters)
  let log :=
    match ae_obu.conf with
    | ElementConf.channel_based layer_conf_s =>
      let log := yaml log 1 "scalable_channel_layout_config:"
      let log := yaml log 2 ("num_layers: " ++ toString layer_conf_s.length)
      let log := yaml log 2 "channel_audio_layer_configs:"
      layer_conf_s.foldl write_layer_conf log
    | ElementConf.scene_based ambisonics_conf =>
      let log := yaml log 1 "ambisonics_config:"
      let log := yaml log 2 ("ambisonics_mode: " ++ toString ambisonics_conf.ambisonics_mode)
      match ambisonics_conf.kind with
      | AmbisonicsKind.mono =>
        let log := yaml log 2 "ambisonics_mono_config:"
        let log := yaml log 3
          ("output_channel_count: " ++ toString ambisonics_conf.output_channel_count)
        let log := yaml log 3 ("substream_count: " ++ toString ambisonics_conf.substream_count)
        let log := yaml log 3 "channel_mapping:"
        ambisonics_conf.mapping.foldl (fun log m => yaml log 3 ("- " ++ toString m)) log
      | AmbisonicsKind.projection =>
        let log := yaml log 2 "ambisonics_projection_config:"
        let log := yaml log 3
          ("output_channel_count: " ++ toString ambisonics_conf.output_channel_count)
        let log := yaml log 3 ("substream_count: " ++ toString ambisonics_conf.substream_count)
        let log := yaml log 3
          ("coupled_substream_count: " ++ toString ambisonics_conf.coupled_substream_count)
        let log := yaml log 3 "demixing_matrix:"
        write_demixing_matrix ambisonics_conf.mapping
          ((ambisonics_conf.mapping.length + 1) / 2) 0 log
      | AmbisonicsKind.other => log
    | ElementConf.other => log
  finish log

/-- The lines of a `param_definition` group in `write_mix_presentation_log`, at
indentation `d`; the sub-block loop prints `segments->segment_interval` once per
segment. -/
def write_param_definition (log : String) (d : Nat) (base : ParameterBase) : String :=
  let log := yaml log d ("parameter_id: " ++ toString base.id)
  let log := yaml log d ("parameter_rate: " ++ toString base.rate)
  let log := yaml log d ("param_definition_mode: " ++ toString base.mode)
  if base.mode = 0 then
    let log := yaml log 6 ("duration: " ++ toString base.duration)
    let log := yaml log 6 ("num_subblocks: " ++ toString base.nb_segments)
    let log := yaml log 6
      ("constant_subblock_duration: " ++ toString base.constant_segment_interval)
    if base.constant_segment_interval = 0 then
      let log := yaml log 6 "subblock_durations:"
      (List.range base.nb_segments).foldl
        (fun log _ => yaml log 6 ("- " ++ toString base.segment_interval)) log
    else
      log
  else
    log

/-- The loop over `conf_s` of `write_mix_presentation_log`. -/
def write_element_mix (log : String) (conf_s : ElementMixRenderConf) : String :=
  let log := yaml log 2 ("- audio_element_id: " ++ toString conf_s.element_id)
  let log := yaml log 3 "mix_presentation_element_annotations:"
  let log := yaml log 4
    ("audio_element_friendly_label: \"" ++ conf_s.audio_element_friendly_label ++ "\"")
  let log := yaml log 3 "element_mix_config:"
  let log := yaml log 4 "mix_gain:"
  let log := yaml log 5 "param_definition:"
  let log := write_param_definition log 6 conf_s.gain.base
  yaml log 5 ("default_mix_gain: " ++ toString conf_s.gain.mix_gain)

/-- The loop over `layouts` of `write_mix_presentation_log`. -/
def write_layout (log : String) (l : LayoutLoudness) : String :=
  let log := yaml log 2 "- loudness_layout:"
  let log := yaml log 4 ("layout_type: " ++ toString l.type)
  let log :=
    match l.kind with
    | LayoutKind.sp_label sp_labels =>
      let log := yaml log 4 "sp_layout:"
      let log := yaml log 5 ("num_loudspeakers: " ++ toString sp_labels.length)
      let log := yaml log 5 "sp_labels:"
      sp_labels.foldl (fun log k => yaml log 5 ("- " ++ toString k)) log
    | LayoutKind.ss_convention sound_system =>
      let log := yaml log 4 "ss_layout:"
      yaml log 5 ("sound_system: " ++ toString sound_system)
    | LayoutKind.other => log
  let log := yaml log 3 "loudness:"
  let log := yaml log 4 ("info_type: " ++ toString l.info_type)
  let log := yaml log 4 ("integrated_loudness: " ++ toString l.integrated_loudness)
  yaml log 4 ("digital_peak: " ++ toString l.digital_peak)

/-- The loop over `sub_mixes` of `write_mix_presentation_log`. -/
def write_sub_mix (log : String) (submix : SubMixPresentation) : String :=
  let log := yaml log 1 ("- num_audio_elements: " ++ toString submix.conf_s.length)
  let log := yaml log 2 "audio_elements:"
  let log := submix.conf_s.foldl write_element_mix log
  let log := yaml log 2 "output_mix_config:"
  let log := yaml log 3 "output_mix_gain:"
  let log := yaml log 4 "param_definition:"
  let log := write_param_definition log 5 submix.output_mix_config.base
  let log := yaml log 4 ("default_mix_gain: " ++ toString submix.output_mix_config.mix_gain)
  let log := yaml log 2 ("num_layouts: " ++ toString submix.layouts.length)
  let log := yaml log 2 "layouts:"
  submix.layouts.foldl write_layout log

/-- The function `write_mix_presentation_log`. -/
def write_mix_presentation_log (idx : Nat) (mp_obu : IAMF_MixPresentation) : String :=
  let log := start
  let log := yaml log 0 ("MixPresentationOBU_" ++ toString idx ++ ":")
  let log := yaml log 0 ("- mix_presentation_id: " ++ toString mp_obu.mix_presentation_id)
  let log := yaml log 1 "mix_presentation_annotations:"
  let log := yaml log 2
    ("mix_presentation_friendly_label: \"" ++ mp_obu.mix_presentation_friendly_label ++ "\"")
  let log := yaml log 1 ("num_sub_mixes: " ++ toString mp_obu.sub_mixes.length)
  let log := yaml log 1 "sub_mixes:"
  let log := mp_obu.sub_mixes.foldl write_sub_mix log
  finish log

/-- The body of the segment loop of `write_parameter_block_log` for a mix-gain
segment. -/
def write_mix_gain_segment (log : String) (mg : MixGainSegment) : String :=
  let log := yaml log 1 "- mix_gain_parameter_data:"
  let log := yaml log 3 ("subblock_duration: " ++ toString mg.segment_interval)
  let log := yaml log 3 ("animation_type: " ++ toString mg.animated_type)
  let log := yaml log 3 "param_data:"
  match mg.kind with
  | AnimatedKind.step =>
    let log := yaml log 4 "step:"
    yaml log 5 ("start_point_value: " ++ toString mg.start)
  | AnimatedKind.linear =>
    let log := yaml log 4 "linear:"
    let log := yaml log 5 ("start_point_value: " ++ toString mg.start)
    yaml log 5 ("end_point_value: " ++ toString mg.«end»)
  | AnimatedKind.bezier =>
    let log := yaml log 4 "bezier:"
    let log := yaml log 5 ("start_point_value: " ++ toString mg.start)
    let log := yaml log 5 ("end_point_value: " ++ toString mg.«end»)
    let log := yaml log 5 ("control_point_value: " ++ toString mg.control)
    yaml log 5
      ("control_point_relative_time: " ++ toString (mg.control_relative_time &&& 0xFF))
  | AnimatedKind.other => log

/-- The body of the segment loop of `write_parameter_block_log` for a demixing
segment. -/
def write_demixing_segment (log : String) (mode : DemixingSegment) : String :=
  let log := yaml log 1 "- demixing_info_parameter_data:"
  let log := yaml log 3 ("subblock_duration: " ++ toString mode.segment_interval)
  yaml log 3 ("dmixp_mode: " ++ toString mode.demixing_mode)

/-- The field `nb_segments` of a parameter block. -/
def nb_segments : ParameterSegments → Nat
  | ParameterSegments.mix_gain segments => segments.length
  | ParameterSegments.demixing segments => segments.length
  | ParameterSegments.recon_gain n => n
  | ParameterSegments.other n => n

/-- The function `write_parameter_block_log`. -/
def write_parameter_block_log (idx : Nat) (para : IAMF_Parameter) : String :=
  let log := start
  let log := yaml log 0 ("ParameterBlockOBU_" ++ toString idx ++ ":")
  let log := yaml log 0 ("- parameter_id: " ++ toString para.id)
  let log := yaml log 1 ("duration: " ++ toString para.duration)
  let log := yaml log 1 ("num_subblocks: " ++ toString (nb_segments para.segments))
  let log := yaml log 1
    ("constant_subblock_duration: " ++ toString para.constant_segment_interval)
  let log := yaml log 1 "subblocks:"
  let log :=
    match para.segments with
    | ParameterSegments.mix_gain segments => segments.foldl write_mix_gain_segment log
    | ParameterSegments.demixing segments => segments.foldl write_demixing_segment log
    | ParameterSegments.recon_gain n =>
      (List.range n).foldl (fun log _ => yaml log 1 "- recon_gain_parameter_data:") log
    | ParameterSegments.other _ => log
  finish log

/-- The function `write_audio_frame_log`. -/
def write_audio_frame_log (idx : Nat) (af_obu : IAMF_Frame)
    (num_samples_to_trim_at_start num_samples_to_trim_at_end : Nat) : String :=
  let log := start
  let log := yaml log 0 ("AudioFrameOBU_" ++ toString idx ++ ":")
  let log := yaml log 0 ("- audio_substream_id: " ++ toString af_obu.id)
  let log := yaml log 1
    ("num_samples_to_trim_at_start: " ++ toString num_samples_to_trim_at_start)
  let log := yaml log 1 ("num_samples_to_trim_at_end: " ++ toString num_samples_to_trim_at_end)
  let log := yaml log 1 ("size_of(audio_frame): " ++ toString af_obu.size)
  finish log

/-- The function `write_temporal_delimiter_block_log`. -/
def write_temporal_delimiter_block_log (idx : Nat) : String :=
  let log := start
  let log := yaml log 0 ("TemporalDelimiterOBU_" ++ toString idx ++ ":")
  finish log

/-- The loop over `objs` of `write_sync_log`. -/
def write_sync_obj (log : String) (o : SyncObj) : String :=
  let log := yaml log 1 ("- obu_id: " ++ toString o.obu_id)
  let log := yaml log 2 ("obu_data_type: " ++ toString o.obu_data_type)
  let log := yaml log 2 ("reinitialize_decoder: " ++ toString o.reinitialize_decoder)
  yaml log 2 ("relative_offset: " ++ toString o.relative_offset)

/-- The function `write_sync_log`. -/
def write_sync_log (idx : Nat) (sc_obu : IAMF_Sync) : String :=
  let log := start
  let log := yaml log 0 ("SyncOBU_" ++ toString idx ++ ":")
  let log := yaml log 0 ("- global_offset: " ++ toString sc_obu.global_offset)
  let log := yaml log 1 ("num_obu_ids: " ++ toString sc_obu.objs.length)
  let log := yaml log 1 "sync_array:"
  let log := sc_obu.objs.foldl write_sync_obj log
  finish log

/-! ## `vlog_obu` -/

/-- The text a `printf`-family function produces for the format `fmt` when no
argument follows it: `%%` gives `%`, the other characters are copied, and a `%`
that starts anything else reads an argument that is not there (`none`). -/
def format_no_args : List Char → Option (List Char)
  | [] => some []
  | '%' :: '%' :: rest => (format_no_args rest).map (fun r => '%' :: r)
  | '%' :: _ => none
  | c :: rest => (format_no_args rest).map (fun r => c :: r)

/-- The `switch (obu_type)` of `vlog_obu`: the text rendered into the static
buffer `log` (emptied by `log[0] = 0`) and the counter `obu_count` after it. -/
def render_obu (obu_count : Nat) (obu : OBU)
    (num_samples_to_trim_at_start num_samples_to_trim_at_end : Nat) : String × Nat :=
  match obu with
  | OBU.codec_config o => (write_codec_config_log obu_count o, (obu_count + 1) % 2 ^ 64)
  | OBU.audio_element o => (write_audio_element_log obu_count o, (obu_count + 1) % 2 ^ 64)
  | OBU.mix_presentation o =>
    (write_mix_presentation_log obu_count o, (obu_count + 1) % 2 ^ 64)
  | OBU.parameter_block o => (write_parameter_block_log obu_count o, (obu_count + 1) % 2 ^ 64)
  | OBU.temporal_delimiter =>
    (write_temporal_delimiter_block_log obu_count, (obu_count + 1) % 2 ^ 64)
  | OBU.sync o => (write_sync_log obu_count o, (obu_count + 1) % 2 ^ 64)
  | OBU.magic_code o => (write_magic_code_log obu_count o, (obu_count + 1) % 2 ^ 64)
  | OBU.audio_frame o =>
    (write_audio_frame_log obu_count o num_samples_to_trim_at_start
      num_samples_to_trim_at_end, (obu_count + 1) % 2 ^ 64)
  | OBU.other => ("", obu_count)

/-- The function `vlog_obu`.  The rendered text is passed to `vlog_print` as its
format, without arguments; `alloc` is the outcome of the allocation in
`vlog_print`.  A text that does not fit the buffer `log` gives `none`. -/
def vlog_obu (s : State) (obu : OBU)
    (num_samples_to_trim_at_start num_samples_to_trim_at_end : Nat) (alloc : Bool) :
    Option (State × Int) :=
  if is_vlog_file_open s = 0 then
    some (s, -1)
  else
    let key := s.obu_count
    let r := render_obu s.obu_count obu num_samples_to_trim_at_start num_samples_to_trim_at_end
    if LOG_BUFFER_SIZE < r.1.length + 1 then
      none
    else
      match format_no_args r.1.data with
      | none => none
      | some text =>
        vlog_print { s with obu_count := r.2 } LOG_TYPE.LOG_OBU key (String.mk text) alloc

/-! ## Sessions -/

/-- A call of the interface, with the outcomes of the system calls it makes. -/
inductive Call where
  | file_open (log_file_name : String) (file_exists remove_ok : Bool) (stream : Option FILE)
  | file_close
  | print (type : LOG_TYPE) (key : Nat) (text : String) (alloc : Bool)
  | obu (obu : OBU) (num_samples_to_trim_at_start num_samples_to_trim_at_end : Nat)
      (alloc : Bool)
  deriving DecidableEq, Repr

/-- The state after one call. -/
def step (s : State) : Call → Option State
  | Call.file_open name file_exists remove_ok stream =>
    some (vlog_file_open s name file_exists remove_ok stream).1
  | Call.file_close => (vlog_file_close s).map (fun r => r.1)
  | Call.print type key text alloc => (vlog_print s type key text alloc).map (fun r => r.1)
  | Call.obu obu t0 t1 alloc => (vlog_obu s obu t0 t1 alloc).map (fun r => r.1)

/-- The state after a sequence of calls. -/
def run (s : State) : List Call → Option State
  | [] => some s
  | c :: cs =>
    match step s c with
    | none => none
    | some s1 => run s1 cs

/-- The states the program can be in: those a sequence of calls leads to from the
initial state. -/
def Reachable (s : State) : Prop :=
  ∃ calls, run init calls = some s

/-! ## Observing a bucket -/

/-- The cells of the chain that starts at `p`, followed through `next`: the
cells the drain of `vlog_file_close` visits, in its order. -/
def chain : Nat → List VLOG_DATA → Ptr → Option (List VLOG_DATA)
  | 0, _, _ => none
  | _ + 1, _, Ptr.null => some []
  | _ + 1, _, Ptr.undef => none
  | fuel + 1, heap, Ptr.addr a =>
    match load heap a with
    | none => none
    | some n =>
      match chain fuel heap n.next with
      | none => none
      | some l => some (n :: l)

/-- The chain of category `ty` in state `s`. -/
def bucket (s : State) (ty : LOG_TYPE) : Option (List VLOG_DATA) :=
  chain (s.heap.length + 1) s.heap (getHead s.log_file ty)

/-- The text `vlog_file_close` writes for a cell. -/
def payload (n : VLOG_DATA) : String :=
  if n.is_longtext then n.ltext.getD "" else n.text

/-- A record as the specification speaks of it: its key and its text. -/
def record (n : VLOG_DATA) : Nat × String :=
  (n.key, payload n)

/-- The records of category `ty` in drain order. -/
def records (s : State) (ty : LOG_TYPE) : Option (List (Nat × String)) :=
  (bucket s ty).map (List.map record)

/-! ## Invariants of the linked structure -/

/-- Following `next` from `p` visits exactly the addresses `l` and arrives at `q`. -/
def IsSeg (H : List VLOG_DATA) : Ptr → List Nat → Ptr → Prop
  | p, [], q => p = q
  | p, a :: l, q => p = Ptr.addr a ∧ ∃ n, H[a]? = some n ∧ IsSeg H n.next l q

/-- The key stored at address `a` (0 when there is no such cell). -/
def keyAt (H : List VLOG_DATA) (a : Nat) : Nat :=
  match H[a]? with
  | some n => n.key
  | none => 0

/-- The cells at the addresses `l`. -/
def cells (H : List VLOG_DATA) (l : List Nat) : List VLOG_DATA :=
  l.filterMap (fun a => H[a]?)

/-- The fields of a cell that no pointer assignment touches. -/
def static (n : VLOG_DATA) : LOG_TYPE × Nat × Bool × Option String × String :=
  (n.log_type, n.key, n.is_longtext, n.ltext, n.text)

/-- The well-formedness of one bucket: `l` lists the addresses of the chain from
`hd`; they are distinct, hold cells of category `ty` with non-decreasing keys;
and the `prev` field of every cell but the first holds the address of a cell of
the same category which, if it lies on the chain, is the predecessor. -/
structure BInv (H : List VLOG_DATA) (hd : Ptr) (ty : LOG_TYPE) (l : List Nat) : Prop where
  seg : IsSeg H hd l Ptr.null
  nodup : l.Nodup
  typed : ∀ a ∈ l, ∀ n, H[a]? = some n → n.log_type = ty
  sorted : (l.map (keyAt H)).Pairwise (fun x y => x ≤ y)
  links : ∀ b ∈ l, hd ≠ Ptr.addr b →
    ∃ g gn bn, H[b]? = some bn ∧ bn.prev = Ptr.addr g ∧
      H[g]? = some gn ∧ gn.log_type = ty ∧ (g ∈ l → gn.next = Ptr.addr b)

/-- What a `vlog_print` call of category `ty` may change in the heap: every cell
stays allocated with its category, key and text, and the cells of the other
categories stay as they are. -/
def HeapFrame (ty : LOG_TYPE) (H K : List VLOG_DATA) : Prop :=
  ∀ (a : Nat) (n : VLOG_DATA), H[a]? = some n →
    ∃ k, K[a]? = some k ∧ static k = static n ∧ (n.log_type ≠ ty → k = n)

/-- The outcome of the scan of `vlog_print` on a chain `l`: the bucket stays well
formed, the heap grows by the new cell, and the chain either is unchanged (the
new cell was linked to a cell off the chain) or has the new cell after the cells
with a key not above its key and before the cells with a greater key. -/
def ScanPost (H : List VLOG_DATA) (hd : Ptr) (ty : LOG_TYPE) (nn : VLOG_DATA)
    (l : List Nat) (K : List VLOG_DATA) (l2 : List Nat) : Prop :=
  BInv K hd ty l2 ∧ K.length = H.length + 1 ∧
  (∃ m, K[H.length]? = some m ∧ static m = static nn) ∧
  HeapFrame ty H K ∧
  ((l2 = l ∧ ∃ u ∈ l, nn.key < keyAt H u) ∨
    ∃ A B, l = A ++ B ∧ l2 = A ++ H.length :: B ∧
      (∀ a ∈ A, keyAt H a ≤ nn.key) ∧ ∀ b ∈ B, nn.key < keyAt H b)

/-- The three ways a `vlog_print` call changes the chain `l` of its category into
`l2`, `N` being the address of the new cell: the new cell replaces the first
cell (its key is below the key of the first cell), the chain is unchanged (the
new cell was linked to a cell off the chain), or the new cell stands after the
cells with a key not above its key and before the cells with a greater key. -/
def ChainStep (H : List VLOG_DATA) (key N : Nat) (l l2 : List Nat) : Prop :=
  (∃ c rest, l = c :: rest ∧ key < keyAt H c ∧ l2 = N :: rest) ∨
  (l2 = l ∧
    ∃ c rest, l = c :: rest ∧ keyAt H c ≤ key ∧ ∃ u ∈ rest, key < keyAt H u) ∨
  (∃ A B, l = A ++ B ∧ l2 = A ++ N :: B ∧
    (∀ a ∈ A, keyAt H a ≤ key) ∧ ∀ b ∈ B, key < keyAt H b)

/-- The outcome of linking the new cell `nn` into the chain `l` of category `ty`. -/
def PrintPost (s : State) (ty : LOG_TYPE) (nn : VLOG_DATA) (l : List Nat)
    (s2 : State) (l2 : List Nat) : Prop :=
  BInv s2.heap (getHead s2.log_file ty) ty l2 ∧
  s2.heap.length = s.heap.length + 1 ∧
  (∃ m, s2.heap[s.heap.length]? = some m ∧ static m = static nn) ∧
  HeapFrame ty s.heap s2.heap ∧
  (∀ ty2, ty2 ≠ ty → getHead s2.log_file ty2 = getHead s.log_file ty2) ∧
  s2.log_file.f = s.log_file.f ∧ s2.log_file.file_name = s.log_file.file_name ∧
  s2.log_file.is_open = s.log_file.is_open ∧ s2.obu_count = s.obu_count ∧
  ChainStep s.heap nn.key s.heap.length l l2

/-- The invariant of the session state: every bucket is well formed, a cell
flagged as long text has its heap buffer, and a session that reports closed has
no chain. -/
structure Inv (s : State) : Prop where
  buckets : ∀ ty, ∃ l, BInv s.heap (getHead s.log_file ty) ty l
  texts : ∀ (a : Nat) (n : VLOG_DATA), s.heap[a]? = some n → n.is_longtext = true →
    n.ltext.isSome = true
  closed : is_vlog_file_open s = 0 → ∀ ty, getHead s.log_file ty = Ptr.null

/-- A session right after a successful `vlog_file_open("t.log")` from the initial
state. -/
def opened : State :=
  (vlog_file_open init "t.log" false true (some { fd := 3 })).1

/-- The state after the calls `calls` made from the initial state (the initial
state itself if a call has no defined outcome). -/
def after (calls : List Call) : State :=
  (run init calls).getD init

/-- The call `vlog_file_open("t.log")` on a fresh name, `fopen` succeeding. -/
def open_ok : Call :=
  Call.file_open "t.log" false true (some { fd := 3 })

/-- The arguments of one `vlog_print` call and the outcome of its allocation. -/
structure PrintArgs where
  type : LOG_TYPE
  key : Nat
  text : String
  alloc : Bool
  deriving DecidableEq, Repr

/-- A sequence of `vlog_print` calls. -/
def print_calls (ps : List PrintArgs) : List Call :=
  ps.map (fun p => Call.print p.type p.key p.text p.alloc)

/-! ## Notions used to state the properties of the formatter and of `vlog_obu` -/

/-- The string `x` begins with `p`. -/
def StartsWith (p x : String) : Prop :=
  ∃ rest, x = p ++ rest

/-- The string `x` ends with `p`. -/
def EndsWith (p x : String) : Prop :=
  ∃ front, x = front ++ p

/-- The text of `d` indentation steps: `d` copies of two spaces. -/
def indent_text (d : Nat) : String :=
  String.join (List.replicate d "  ")

/-- Whether the `switch` of `vlog_obu` serializes the record: every kind but
`other`. -/
def recognised : OBU → Bool
  | OBU.other => false
  | _ => true

/-- The header line the serializer of the kind of `o` writes for the index `n`
(the first template of each serializer, without the newline). -/
def header_line (o : OBU) (n : Nat) : String :=
  match o with
  | OBU.codec_config _ => "CodecConfigOBU_" ++ toString n ++ ":"
  | OBU.audio_element _ => "AudioElementOBU_" ++ toString n ++ ":"
  | OBU.mix_presentation _ => "MixPresentationOBU_" ++ toString n ++ ":"
  | OBU.parameter_block _ => "ParameterBlockOBU_" ++ toString n ++ ":"
  | OBU.temporal_delimiter => "TemporalDelimiterOBU_" ++ toString n ++ ":"
  | OBU.sync _ => "SyncOBU_" ++ toString n ++ ":"
  | OBU.magic_code _ => "MagicCodeOBU_" ++ toString n ++ ":"
  | OBU.audio_frame _ => "AudioFrameOBU_" ++ toString n ++ ":"
  | OBU.other => ""

/-- The number of `vlog_obu` calls of a recognised kind made on an open session in
the course of the calls `calls` from the state `s`. -/
def serialized : State → List Call → Nat
  | _, [] => 0
  | s, c :: cs =>
    (match c with
      | Call.obu o _ _ _ => if is_vlog_file_open s ≠ 0 ∧ recognised o = true then 1 else 0
      | _ => 0) +
    (match step s c with
      | some s1 => serialized s1 cs
      | none => 0)

/-- A sequence of `vlog_obu` calls, given by the record and the two trim arguments
of each, every allocation succeeding. -/
def obu_calls (os : List (OBU × Nat × Nat)) : List Call :=
  os.map (fun o => Call.obu o.1 o.2.1 o.2.2 true)

/-- The keys and the rendered texts of a sequence of `vlog_obu` calls that starts
at the counter value `n`. -/
def keyed_blocks : Nat → List (OBU × Nat × Nat) → List (Nat × String)
  | _, [] => []
  | n, o :: os => (n, (render_obu n o.1 o.2.1 o.2.2).1) :: keyed_blocks (n + 1) os

/-- The rendered texts of a sequence of `vlog_obu` calls that starts at the counter
value `n`. -/
def blocks (n : Nat) (os : List (OBU × Nat × Nat)) : List String :=
  (keyed_blocks n os).map Prod.snd

/-- A session used as an example: two records are serialized, the session is
closed, a call is made on the closed session, and the session is opened
again. -/
def sample_session : List Call :=
  [open_ok, Call.obu OBU.temporal_delimiter 0 0 true,
    Call.obu (OBU.audio_frame { id := 7, size := 120 }) 0 0 true, Call.file_close,
    Call.obu OBU.temporal_delimiter 0 0 true, open_ok]

/-- The four-character code "Opus" as packed by `get_4cc_codec_id`. -/
def opus_id : Nat :=
  get_4cc_codec_id 'O'.toNat 'p'.toNat 'u'.toNat 's'.toNat

/-- A codec configuration with the codec "Opus" and a roll distance of -4. -/
def opus_conf : IAMF_CodecConf :=
  { codec_conf_id := 0, codec_id := opus_id, nb_samples_per_frame := 960,
    roll_distance := -4, decoder_conf := [] }

/-! ## Notions used to state the properties of the payload and of the ordering -/

/-- A mix presentation without sub-mixes whose friendly label is `label`. -/
def labelled_mix (label : String) : IAMF_MixPresentation :=
  { mix_presentation_id := 1, mix_presentation_friendly_label := label, sub_mixes := [] }

/-- The `prev` field of every cell of the chain `l` but the first holds the address
of a cell of the chain. -/
def Tight (H : List VLOG_DATA) (hd : Ptr) (l : List Nat) : Prop :=
  ∀ b ∈ l, hd ≠ Ptr.addr b → ∃ bn g, H[b]? = some bn ∧ bn.prev = Ptr.addr g ∧ g ∈ l

/-- Every bucket is well formed and its `prev` fields stay on the chain: the chains
are doubly linked lists. -/
def TInv (s : State) : Prop :=
  ∀ ty, ∃ l, BInv s.heap (getHead s.log_file ty) ty l ∧ Tight s.heap (getHead s.log_file ty) l

/-- The records `R` with the record `r` placed where the scan of `vlog_print` stops
on a doubly linked chain: after the leading records with a key not above the
key of `r`. -/
def stable_insert (r : Nat × String) (R : List (Nat × String)) : List (Nat × String) :=
  R.takeWhile (fun x => decide (x.1 ≤ r.1)) ++ r :: R.dropWhile (fun x => decide (x.1 ≤ r.1))

/-- The records that the calls `ps` insert into the category `ty`: key and text of
the calls of that category whose cell is allocated, in call order. -/
def inserted (ty : LOG_TYPE) (ps : List PrintArgs) : List (Nat × String) :=
  (ps.filter (fun p => p.alloc && decide (p.type = ty))).map (fun p => (p.key, p.text))

/-- The stable sort by key of a sequence of records, as the specification speaks of
it: insertion sort on the keys, which keeps records with equal keys in the order
of the sequence. -/
def stable_sort (R : List (Nat × String)) : List (Nat × String) :=
  R.insertionSort (fun a b => a.1 ≤ b.1)

/-- The condition on the key of one call: the bucket of the category is empty, or
the key is not below the key of its first record. -/
def above_first (s : State) (ty : LOG_TYPE) (key : Nat) : Bool :=
  match records s ty with
  | some (c :: _) => decide (c.1 ≤ key)
  | _ => true

/-- The condition on a sequence of `vlog_print` calls made from the state `s`: the
key of every call satisfies `above_first` in the state in which the call is
made. -/
def keys_above_first : State → List PrintArgs → Bool
  | _, [] => true
  | s, p :: ps =>
    above_first s p.type p.key &&
      match vlog_print s p.type p.key p.text p.alloc with
      | some (s1, _) => keys_above_first s1 ps
      | none => true

/-- A sequence of `vlog_print` calls used as an example: keys that are not below
the first key of their bucket, out of order and with ties, in three
categories, one call without a cell. -/
def sample_prints : List PrintArgs :=
  [⟨LOG_TYPE.LOG_OBU, 3, "a", true⟩, ⟨LOG_TYPE.LOG_OBU, 5, "b", true⟩,
    ⟨LOG_TYPE.LOG_MP4BOX, 1, "c", true⟩, ⟨LOG_TYPE.LOG_OBU, 4, "d", true⟩,
    ⟨LOG_TYPE.LOG_OBU, 3, "e", true⟩, ⟨LOG_TYPE.LOG_DECOP, 9, "f", false⟩,
    ⟨LOG_TYPE.LOG_OBU, 5, "g", true⟩, ⟨LOG_TYPE.LOG_DECOP, 2, "h", true⟩]

/-- A session used as an example: after the open, `vlog_print` puts two records in
the record bucket under the keys 5 and 7, and one temporal delimiter is
serialized. -/
def print_then_obu : List Call :=
  [open_ok, Call.print LOG_TYPE.LOG_OBU 5 "a" true, Call.print LOG_TYPE.LOG_OBU 7 "b" true,
    Call.obu OBU.temporal_delimiter 0 0 true]

/-! ## Segments and chains -/

theorem isSeg_append (H : List VLOG_DATA) (l1 l2 : List Nat) (p q : Ptr) :
    IsSeg H p (l1 ++ l2) q ↔ ∃ m, IsSeg H p l1 m ∧ IsSeg H m l2 q := by
  induction l1 generalizing p with
  | nil => simp [IsSeg]
  | cons a l1 ih =>
    constructor
    · rintro ⟨hp, n, hn, hrest⟩
      obtain ⟨m, h1, h2⟩ := (ih n.next).mp hrest
      exact ⟨m, ⟨hp, n, hn, h1⟩, h2⟩
    · rintro ⟨m, ⟨hp, n, hn, h1⟩, h2⟩
      exact ⟨hp, n, hn, (ih n.next).mpr ⟨m, h1, h2⟩⟩

theorem isSeg_frame {H K : List VLOG_DATA} {l : List Nat} {p q : Ptr}
    (hf : ∀ a ∈ l, ∀ n, H[a]? = some n → ∃ m, K[a]? = some m ∧ m.next = n.next)
    (h : IsSeg H p l q) : IsSeg K p l q := by
  induction l generalizing p with
  | nil => exact h
  | cons a l ih =>
    obtain ⟨hp, n, hn, hrest⟩ := h
    obtain ⟨m, hm, hmn⟩ := hf a (List.mem_cons_self a l) n hn
    refine ⟨hp, m, hm, ?_⟩
    rw [hmn]
    exact ih (fun b hb => hf b (List.mem_cons_of_mem a hb)) hrest

theorem isSeg_valid {H : List VLOG_DATA} {l : List Nat} {p q : Ptr}
    (h : IsSeg H p l q) : ∀ a ∈ l, ∃ n, H[a]? = some n := by
  induction l generalizing p with
  | nil => intro a ha; cases ha
  | cons b l ih =>
    obtain ⟨_, n, hn, hrest⟩ := h
    intro a ha
    rcases List.mem_cons.mp ha with rfl | ha
    · exact ⟨n, hn⟩
    · exact ih hrest a ha

theorem isSeg_lt {H : List VLOG_DATA} {l : List Nat} {p q : Ptr}
    (h : IsSeg H p l q) : ∀ a ∈ l, a < H.length := by
  intro a ha
  obtain ⟨n, hn⟩ := isSeg_valid h a ha
  exact (List.getElem?_eq_some.mp hn).1

theorem isSeg_length_le {H : List VLOG_DATA} {l : List Nat} {p q : Ptr}
    (h : IsSeg H p l q) (hnd : l.Nodup) : l.length ≤ H.length := by
  have hsub : l ⊆ List.range H.length := by
    intro a ha
    exact List.mem_range.mpr (isSeg_lt h a ha)
  have := (List.subperm_of_subset hnd hsub).length_le
  simpa using this

theorem isSeg_unique {H : List VLOG_DATA} {l1 l2 : List Nat} {p : Ptr}
    (h1 : IsSeg H p l1 Ptr.null) (h2 : IsSeg H p l2 Ptr.null) : l1 = l2 := by
  induction l1 generalizing p l2 with
  | nil =>
    cases l2 with
    | nil => rfl
    | cons b l2 =>
      have h1 : p = Ptr.null := h1
      obtain ⟨hp, _⟩ := h2
      rw [h1] at hp
      cases hp
  | cons a l1 ih =>
    obtain ⟨hp, n, hn, hrest⟩ := h1
    cases l2 with
    | nil =>
      have h2 : p = Ptr.null := h2
      rw [h2] at hp
      cases hp
    | cons b l2 =>
      obtain ⟨hp2, m, hm, hrest2⟩ := h2
      rw [hp] at hp2
      cases hp2
      rw [hn] at hm
      cases hm
      rw [ih hrest hrest2]

theorem chain_of_isSeg {H : List VLOG_DATA} {l : List Nat} {p : Ptr} (fuel : Nat)
    (h : IsSeg H p l Ptr.null) (hf : l.length < fuel) :
    chain fuel H p = some (cells H l) := by
  induction l generalizing p fuel with
  | nil =>
    have hp : p = Ptr.null := h
    subst hp
    cases fuel with
    | zero => simp at hf
    | succ fuel => simp [chain, cells]
  | cons a l ih =>
    obtain ⟨hp, n, hn, hrest⟩ := h
    subst hp
    cases fuel with
    | zero => simp at hf
    | succ fuel =>
      have hf2 : l.length < fuel := by simpa using hf
      simp [chain, load, hn, ih fuel hrest hf2, cells]

/-! ## Pointer assignments -/

theorem store_next_some {H : List VLOG_DATA} {a : Nat} {n : VLOG_DATA} (p : Ptr)
    (h : H[a]? = some n) : store_next H a p = some (H.set a { n with next := p }) := by
  simp [store_next, h]

theorem store_prev_some {H : List VLOG_DATA} {a : Nat} {n : VLOG_DATA} (p : Ptr)
    (h : H[a]? = some n) : store_prev H a p = some (H.set a { n with prev := p }) := by
  simp [store_prev, h]

theorem keyAt_eq {H : List VLOG_DATA} {a : Nat} {n : VLOG_DATA} (h : H[a]? = some n) :
    keyAt H a = n.key := by
  simp [keyAt, h]

/-! ## Preservation of the bucket invariant -/

/-- A heap change that keeps the `next`, key and category of the chain cells,
keeps every cell of the category allocated, and either keeps the `prev` of a
chain cell or points it to a cell off the chain, keeps the bucket well formed. -/
theorem binv_update {H K : List VLOG_DATA} {hd : Ptr} {ty : LOG_TYPE} {l : List Nat}
    (inv : BInv H hd ty l)
    (hchain : ∀ a ∈ l, ∀ n, H[a]? = some n → ∃ m, K[a]? = some m ∧ m.next = n.next ∧
      m.key = n.key ∧ m.log_type = n.log_type ∧
      (hd ≠ Ptr.addr a → m.prev = n.prev ∨
        ∃ x xm, m.prev = Ptr.addr x ∧ x ∉ l ∧ K[x]? = some xm ∧ xm.log_type = ty))
    (hoff : ∀ g gn, H[g]? = some gn → gn.log_type = ty → g ∉ l →
      ∃ gm, K[g]? = some gm ∧ gm.log_type = ty) :
    BInv K hd ty l := by
  have hkey : ∀ a ∈ l, keyAt K a = keyAt H a := by
    intro a ha
    obtain ⟨n, hn⟩ := isSeg_valid inv.seg a ha
    obtain ⟨m, hm, _, hk, _⟩ := hchain a ha n hn
    rw [keyAt_eq hm, keyAt_eq hn, hk]
  refine ⟨?_, inv.nodup, ?_, ?_, ?_⟩
  · refine isSeg_frame ?_ inv.seg
    intro a ha n hn
    obtain ⟨m, hm, hnx, _⟩ := hchain a ha n hn
    exact ⟨m, hm, hnx⟩
  · intro a ha m hm
    obtain ⟨n, hn⟩ := isSeg_valid inv.seg a ha
    obtain ⟨m2, hm2, _, _, hty, _⟩ := hchain a ha n hn
    rw [hm] at hm2
    cases hm2
    rw [hty]
    exact inv.typed a ha n hn
  · rw [List.map_congr_left hkey]
    exact inv.sorted
  · intro b hb hne
    obtain ⟨g, gn, bn, hbn, hprev, hgn, hgty, hlink⟩ := inv.links b hb hne
    obtain ⟨m, hm, _, _, _, hpr⟩ := hchain b hb bn hbn
    rcases hpr hne with hsame | ⟨x, xm, hx, hxl, hxm, hxty⟩
    · by_cases hg : g ∈ l
      · obtain ⟨gm, hgm, hgnx, _, hgt, _⟩ := hchain g hg gn hgn
        refine ⟨g, gm, m, hm, by rw [hsame, hprev], hgm, by rw [hgt, hgty], ?_⟩
        intro _
        rw [hgnx]
        exact hlink hg
      · obtain ⟨gm, hgm, hgt⟩ := hoff g gn hgn hgty hg
        exact ⟨g, gm, m, hm, by rw [hsame, hprev], hgm, hgt, fun h => absurd h hg⟩
    · exact ⟨x, xm, m, hm, hx, hxm, hxty, fun h => absurd h hxl⟩

/-- A single cell whose `next` is null is a well-formed bucket. -/
theorem binv_single {K : List VLOG_DATA} {ty : LOG_TYPE} {N : Nat} {m : VLOG_DATA}
    (hm : K[N]? = some m) (hnext : m.next = Ptr.null) (hty : m.log_type = ty) :
    BInv K (Ptr.addr N) ty [N] := by
  refine ⟨⟨rfl, m, hm, ?_⟩, List.nodup_singleton N, ?_, ?_, ?_⟩
  · rw [hnext]; rfl
  · intro a ha n hn
    rw [List.mem_singleton.mp ha, hm] at hn
    cases hn
    exact hty
  · simp
  · intro b hb hne
    rw [List.mem_singleton.mp hb] at hne
    exact absurd rfl hne

/-- The head update of `vlog_print`: the new cell takes the `next` of the old
first cell, which leaves the chain. -/
theorem binv_head {H K : List VLOG_DATA} {ty : LOG_TYPE} {c N : Nat} {rest : List Nat}
    {cn m : VLOG_DATA}
    (inv : BInv H (Ptr.addr c) ty (c :: rest))
    (hN : H[N]? = none) (hc : H[c]? = some cn)
    (hm : K[N]? = some m) (hmnext : m.next = cn.next) (hmty : m.log_type = ty)
    (hmkey : m.key ≤ cn.key)
    (hKc : ∃ cm, K[c]? = some cm ∧ cm.log_type = cn.log_type)
    (hK : ∀ b, b ≠ N → b ≠ c → K[b]? = H[b]?) :
    BInv K (Ptr.addr N) ty (N :: rest) := by
  obtain ⟨_, cn2, hcn2, hrest⟩ := inv.seg
  rw [hc] at hcn2
  cases hcn2
  have hnd := List.nodup_cons.mp inv.nodup
  have hvalid : ∀ a ∈ rest, ∃ n, H[a]? = some n := isSeg_valid hrest
  have hneN : ∀ a ∈ rest, a ≠ N := by
    intro a ha h
    obtain ⟨n, hn⟩ := hvalid a ha
    rw [h, hN] at hn
    cases hn
  have hnec : ∀ a ∈ rest, a ≠ c := fun a ha h => hnd.1 (h ▸ ha)
  have hsame : ∀ a ∈ rest, K[a]? = H[a]? := fun a ha => hK a (hneN a ha) (hnec a ha)
  have hkeys : rest.map (keyAt K) = rest.map (keyAt H) := by
    apply List.map_congr_left
    intro a ha
    simp [keyAt, hsame a ha]
  have hsorted := inv.sorted
  simp only [List.map_cons, List.pairwise_cons] at hsorted
  refine ⟨⟨rfl, m, hm, ?_⟩, ?_, ?_, ?_, ?_⟩
  · rw [hmnext]
    exact isSeg_frame (fun a ha n hn => ⟨n, by rw [hsame a ha]; exact hn, rfl⟩) hrest
  · exact List.nodup_cons.mpr ⟨fun h => hneN N h rfl, hnd.2⟩
  · intro a ha n hn
    rcases List.mem_cons.mp ha with rfl | ha
    · rw [hm] at hn
      cases hn
      exact hmty
    · rw [hsame a ha] at hn
      exact inv.typed a (List.mem_cons_of_mem c ha) n hn
  · simp only [List.map_cons, List.pairwise_cons, hkeys]
    refine ⟨?_, hsorted.2⟩
    intro x hx
    rw [keyAt_eq hm]
    have := hsorted.1 x hx
    rw [keyAt_eq hc] at this
    omega
  · intro b hb hne
    rcases List.mem_cons.mp hb with rfl | hb
    · exact absurd rfl hne
    · have hbc : Ptr.addr c ≠ Ptr.addr b := by
        intro h
        cases h
        exact hnd.1 hb
      obtain ⟨g, gn, bn, hbn, hprev, hgn, hgty, hlink⟩ :=
        inv.links b (List.mem_cons_of_mem c hb) hbc
      have hgN : g ≠ N := by
        intro h
        rw [h, hN] at hgn
        cases hgn
      by_cases hgc : g = c
      · obtain ⟨cm, hcm, hcty⟩ := hKc
        rw [hgc, hc] at hgn
        cases hgn
        refine ⟨c, cm, bn, by rw [hsame b hb]; exact hbn, by rw [hprev, hgc], hcm,
          by rw [hcty]; exact hgty, ?_⟩
        intro hmem
        rcases List.mem_cons.mp hmem with h | h
        · exact absurd h (fun h => hgN (hgc.trans h))
        · exact absurd h hnd.1
      · refine ⟨g, gn, bn, by rw [hsame b hb]; exact hbn, hprev,
          by rw [hK g hgN hgc]; exact hgn, hgty, ?_⟩
        intro hmem
        rcases List.mem_cons.mp hmem with h | h
        · exact absurd h hgN
        · exact hlink (List.mem_cons_of_mem c h)

/-- The tail update of `vlog_print`: the new cell is linked after the last cell
of the chain. -/
theorem binv_tail {H K : List VLOG_DATA} {hd : Ptr} {ty : LOG_TYPE} {t N : Nat}
    {l0 : List Nat} {tn m : VLOG_DATA}
    (inv : BInv H hd ty (l0 ++ [t]))
    (hN : H[N]? = none) (ht : H[t]? = some tn)
    (hm : K[N]? = some m) (hmprev : m.prev = Ptr.addr t) (hmnext : m.next = Ptr.null)
    (hmty : m.log_type = ty) (hmkey : ∀ a ∈ l0 ++ [t], keyAt H a ≤ m.key)
    (hKt : K[t]? = some { tn with next := Ptr.addr N })
    (hK : ∀ b, b ≠ N → b ≠ t → K[b]? = H[b]?) :
    BInv K hd ty (l0 ++ [t] ++ [N]) := by
  obtain ⟨mid, h1, h2⟩ := (isSeg_append H l0 [t] hd Ptr.null).mp inv.seg
  obtain ⟨hmid, tn2, htn2, htnext⟩ := h2
  rw [ht] at htn2
  cases htn2
  have htnull : tn.next = Ptr.null := htnext
  subst hmid
  have hnd := List.nodup_append.mp inv.nodup
  have ht0 : t ∉ l0 := fun h => hnd.2.2 h (List.mem_singleton_self t) 
  have hvalid : ∀ a ∈ l0 ++ [t], ∃ n, H[a]? = some n := isSeg_valid inv.seg
  have hneN : ∀ a ∈ l0 ++ [t], a ≠ N := by
    intro a ha h
    obtain ⟨n, hn⟩ := hvalid a ha
    rw [h, hN] at hn
    cases hn
  have hsame : ∀ a ∈ l0, K[a]? = H[a]? := fun a ha =>
    hK a (hneN a (List.mem_append_left _ ha)) (fun h => ht0 (h ▸ ha))
  have hkey : ∀ a ∈ l0 ++ [t], keyAt K a = keyAt H a := by
    intro a ha
    rcases List.mem_append.mp ha with ha | ha
    · simp [keyAt, hsame a ha]
    · rw [List.mem_singleton.mp ha, keyAt_eq hKt, keyAt_eq ht]
  refine ⟨?_, ?_, ?_, ?_, ?_⟩
  · rw [List.append_assoc]
    refine (isSeg_append K l0 ([t] ++ [N]) hd Ptr.null).mpr ⟨Ptr.addr t, ?_, ?_⟩
    · exact isSeg_frame (fun a ha n hn => ⟨n, by rw [hsame a ha]; exact hn, rfl⟩) h1
    · exact ⟨rfl, _, hKt, rfl, m, hm, by rw [hmnext]; rfl⟩
  · refine List.nodup_append.mpr ⟨inv.nodup, List.nodup_singleton N, ?_⟩
    intro a ha hb
    exact hneN a ha (List.mem_singleton.mp hb)
  · intro a ha n hn
    rcases List.mem_append.mp ha with ha | ha
    · rcases List.mem_append.mp ha with ha0 | ha0
      · rw [hsame a ha0] at hn
        exact inv.typed a ha n hn
      · rw [List.mem_singleton.mp ha0, hKt] at hn
        cases hn
        exact inv.typed t (List.mem_append_right _ (List.mem_singleton_self t)) tn ht
    · rw [List.mem_singleton.mp ha, hm] at hn
      cases hn
      exact hmty
  · rw [List.map_append, List.pairwise_append, List.map_congr_left hkey]
    refine ⟨inv.sorted, by simp, ?_⟩
    intro x hx y hy
    obtain ⟨a, ha, rfl⟩ := List.mem_map.mp hx
    simp only [List.map_cons, List.map_nil, List.mem_singleton] at hy
    rw [hy, keyAt_eq hm]
    exact hmkey a ha
  · intro b hb hne
    rcases List.mem_append.mp hb with hb | hb
    · obtain ⟨g, gn, bn, hbn, hprev, hgn, hgty, hlink⟩ := inv.links b hb hne
      have hgN : g ≠ N := by
        intro h
        rw [h, hN] at hgn
        cases hgn
      have hKb : ∃ bm, K[b]? = some bm ∧ bm.prev = Ptr.addr g := by
        by_cases hbt : b = t
        · rw [hbt, ht] at hbn
          cases hbn
          exact ⟨{ tn with next := Ptr.addr N }, by rw [hbt]; exact hKt, hprev⟩
        · exact ⟨bn, by rw [hK b (hneN b hb) hbt]; exact hbn, hprev⟩
      obtain ⟨bm, hbm, hbmprev⟩ := hKb
      by_cases hgt : g = t
      · rw [hgt, ht] at hgn
        cases hgn
        refine ⟨t, { tn with next := Ptr.addr N }, bm, hbm, by rw [hbmprev, hgt], hKt, hgty, ?_⟩
        intro _
        have := hlink (by rw [hgt]; exact List.mem_append_right _ (List.mem_singleton_self t))
        rw [htnull] at this
        cases this
      · refine ⟨g, gn, bm, hbm, hbmprev, by rw [hK g hgN hgt]; exact hgn, hgty, ?_⟩
        intro hmem
        rcases List.mem_append.mp hmem with h | h
        · exact hlink h
        · exact absurd (List.mem_singleton.mp h) hgN
    · rw [List.mem_singleton.mp hb]
      exact ⟨t, _, m, hm, hmprev, hKt,
        inv.typed t (List.mem_append_right _ (List.mem_singleton_self t)) tn ht, fun _ => rfl⟩

/-- The body update of `vlog_print` when the `prev` of the cursor is its
predecessor on the chain: the new cell is linked between the two. -/
theorem binv_body {H K : List VLOG_DATA} {hd : Ptr} {ty : LOG_TYPE} {g t N : Nat}
    {pre post : List Nat} {gn tn m : VLOG_DATA}
    (inv : BInv H hd ty (pre ++ g :: t :: post))
    (hN : H[N]? = none) (hg : H[g]? = some gn) (ht : H[t]? = some tn)
    (hm : K[N]? = some m) (hmnext : m.next = Ptr.addr t) (hmprev : m.prev = Ptr.addr g)
    (hmty : m.log_type = ty) (hle : ∀ a ∈ pre ++ [g], keyAt H a ≤ m.key)
    (hlt : m.key ≤ tn.key)
    (hKg : K[g]? = some { gn with next := Ptr.addr N })
    (hKt : K[t]? = some { tn with prev := Ptr.addr N })
    (hK : ∀ b, b ≠ N → b ≠ g → b ≠ t → K[b]? = H[b]?) :
    BInv K hd ty (pre ++ g :: N :: t :: post) := by
  obtain ⟨mid, h1, h2⟩ := (isSeg_append H pre (g :: t :: post) hd Ptr.null).mp inv.seg
  obtain ⟨hmid, gn2, hgn2, h2⟩ := h2
  rw [hg] at hgn2
  cases hgn2
  obtain ⟨hgnext, tn2, htn2, h3⟩ := h2
  rw [ht] at htn2
  cases htn2
  subst hmid
  have hl : pre ++ g :: t :: post = (pre ++ [g]) ++ (t :: post) := by simp
  have hl2 : pre ++ g :: N :: t :: post = (pre ++ [g]) ++ N :: (t :: post) := by simp
  have hmem : ∀ a,
      a ∈ pre ++ g :: N :: t :: post ↔ a = N ∨ a ∈ pre ++ g :: t :: post := by
    intro a
    simp only [List.mem_append, List.mem_cons]
    tauto
  have hnd := inv.nodup
  have hgpre : g ∉ pre := fun h =>
    (List.nodup_append.mp hnd).2.2 h (List.mem_cons_self g _)
  have htpre : t ∉ pre := fun h =>
    (List.nodup_append.mp hnd).2.2 h (List.mem_cons_of_mem g (List.mem_cons_self t _))
  have hnd2 := (List.nodup_cons.mp (List.nodup_append.mp hnd).2.1)
  have hgt : g ≠ t := fun h => hnd2.1 (h ▸ List.mem_cons_self g post)
  have hgpost : g ∉ post := fun h => hnd2.1 (List.mem_cons_of_mem t h)
  have htpost : t ∉ post := (List.nodup_cons.mp hnd2.2).1
  have hvalid : ∀ a ∈ pre ++ g :: t :: post, ∃ n, H[a]? = some n := isSeg_valid inv.seg
  have hNl : N ∉ pre ++ g :: t :: post := by
    intro h
    obtain ⟨n, hn⟩ := hvalid N h
    rw [hN] at hn
    cases hn
  have hKold : ∀ a n, H[a]? = some n → ∃ k, K[a]? = some k ∧ k.log_type = n.log_type ∧
      k.key = n.key ∧ (a ≠ g → k.next = n.next) ∧ (a ≠ t → k.prev = n.prev) := by
    intro a n hn
    by_cases hag : a = g
    · subst hag
      rw [hg] at hn
      cases hn
      exact ⟨_, hKg, rfl, rfl, fun h => absurd rfl h, fun _ => rfl⟩
    · by_cases hat : a = t
      · subst hat
        rw [ht] at hn
        cases hn
        exact ⟨_, hKt, rfl, rfl, fun _ => rfl, fun h => absurd rfl h⟩
      · have haN : a ≠ N := by
          intro h
          rw [h, hN] at hn
          cases hn
        exact ⟨n, by rw [hK a haN hag hat]; exact hn, rfl, rfl, fun _ => rfl, fun _ => rfl⟩
  have hkey : ∀ a ∈ pre ++ g :: t :: post, keyAt K a = keyAt H a := by
    intro a ha
    obtain ⟨n, hn⟩ := hvalid a ha
    obtain ⟨k, hk, _, hkk, _⟩ := hKold a n hn
    rw [keyAt_eq hk, keyAt_eq hn, hkk]
  refine ⟨?_, ?_, ?_, ?_, ?_⟩
  · refine (isSeg_append K pre (g :: N :: t :: post) hd Ptr.null).mpr
      ⟨Ptr.addr g, ?_, ?_⟩
    · refine isSeg_frame ?_ h1
      intro a ha n hn
      obtain ⟨k, hk, _, _, hnx, _⟩ := hKold a n hn
      exact ⟨k, hk, hnx (fun h => hgpre (h ▸ ha))⟩
    · refine ⟨rfl, _, hKg, rfl, m, hm, ?_⟩
      rw [hmnext]
      refine ⟨rfl, _, hKt, ?_⟩
      refine isSeg_frame ?_ h3
      intro a ha n hn
      obtain ⟨k, hk, _, _, hnx, _⟩ := hKold a n hn
      exact ⟨k, hk, hnx (fun h => hgpost (h ▸ ha))⟩
  · rw [hl2]
    refine List.nodup_middle.mpr (List.nodup_cons.mpr ⟨?_, ?_⟩)
    · rw [← hl]; exact hNl
    · rw [← hl]; exact hnd
  · intro a ha n hn
    rcases (hmem a).mp ha with rfl | ha
    · rw [hm] at hn
      cases hn
      exact hmty
    · obtain ⟨n0, hn0⟩ := hvalid a ha
      obtain ⟨k, hk, hkty, _⟩ := hKold a n0 hn0
      rw [hn] at hk
      cases hk
      rw [hkty]
      exact inv.typed a ha n0 hn0
  · have hs := inv.sorted
    rw [hl, List.map_append, List.pairwise_append] at hs
    have hkA : (pre ++ [g]).map (keyAt K) = (pre ++ [g]).map (keyAt H) :=
      List.map_congr_left (fun a ha => hkey a (by rw [hl]; exact List.mem_append_left _ ha))
    have hkB : (t :: post).map (keyAt K) = (t :: post).map (keyAt H) :=
      List.map_congr_left (fun a ha => hkey a (by rw [hl]; exact List.mem_append_right _ ha))
    have hB : ∀ y ∈ (t :: post).map (keyAt H), m.key ≤ y := by
      intro y hy
      have hsB := hs.2.1
      rw [List.map_cons, List.pairwise_cons] at hsB
      rw [List.map_cons, List.mem_cons] at hy
      rcases hy with rfl | hy
      · rw [keyAt_eq ht]; exact hlt
      · have := hsB.1 y hy
        rw [keyAt_eq ht] at this
        omega
    rw [hl2, List.map_append, List.map_cons, hkA, hkB, keyAt_eq hm, List.pairwise_append,
      List.pairwise_cons]
    refine ⟨hs.1, ⟨hB, hs.2.1⟩, ?_⟩
    intro x hx y hy
    rcases List.mem_cons.mp hy with rfl | hy
    · obtain ⟨a, ha, rfl⟩ := List.mem_map.mp hx
      exact hle a ha
    · exact hs.2.2 x hx y hy
  · intro b hb hne
    rcases (hmem b).mp hb with rfl | hb
    · exact ⟨g, _, m, hm, hmprev, hKg,
        inv.typed g (List.mem_append_right _ (List.mem_cons_self g _)) gn hg, fun _ => rfl⟩
    · by_cases hbt : b = t
      · subst hbt
        exact ⟨N, m, _, hKt, rfl, hm, hmty, fun _ => hmnext⟩
      · obtain ⟨x, xn, bn, hbn, hprev, hxn, hxty, hlink⟩ := inv.links b hb hne
        obtain ⟨bk, hbk, _, _, _, hbprev⟩ := hKold b bn hbn
        obtain ⟨xk, hxk, hxkty, _, hxnext, _⟩ := hKold x xn hxn
        refine ⟨x, xk, bk, hbk, by rw [hbprev hbt, hprev], hxk, by rw [hxkty, hxty], ?_⟩
        intro hx
        have hxN : x ≠ N := by
          intro h
          rw [h, hN] at hxn
          cases hxn
        rcases (hmem x).mp hx with h | h
        · exact absurd h hxN
        · have hxb := hlink h
          have hxg : x ≠ g := by
            intro h2
            rw [h2, hg] at hxn
            cases hxn
            rw [hgnext] at hxb
            cases hxb
            exact hbt rfl
          rw [hxnext hxg]
          exact hxb

/-! ## The scan of `vlog_print`, one iteration at a time -/

theorem getElem?_set_same {H : List VLOG_DATA} {a : Nat} {n : VLOG_DATA} (v : VLOG_DATA)
    (h : H[a]? = some n) : (H.set a v)[a]? = some v :=
  List.getElem?_set_self (List.getElem?_eq_some.mp h).1

theorem insert_scan_body {H : List VLOG_DATA} {N t g : Nat} {nn tn gn : VLOG_DATA} (fuel : Nat)
    (hN : H[N]? = some nn) (ht : H[t]? = some tn) (hg : H[g]? = some gn)
    (hlt : nn.key < tn.key) (hprev : tn.prev = Ptr.addr g)
    (hNt : N ≠ t) (hgN : g ≠ N) (hgt : g ≠ t) :
    ∃ K, insert_scan (fuel + 1) H N t = some K ∧ K.length = H.length ∧
      K[N]? = some { nn with next := Ptr.addr t, prev := Ptr.addr g } ∧
      K[g]? = some { gn with next := Ptr.addr N } ∧
      K[t]? = some { tn with prev := Ptr.addr N } ∧
      ∀ b, b ≠ N → b ≠ g → b ≠ t → K[b]? = H[b]? := by
  have e1 := store_next_some (Ptr.addr t) hN
  generalize hh1 : H.set N { nn with next := Ptr.addr t } = h1 at e1
  have h1N : h1[N]? = some { nn with next := Ptr.addr t } := by
    rw [← hh1]; exact getElem?_set_same _ hN
  have h1t : h1[t]? = some tn := by
    rw [← hh1, List.getElem?_set_ne hNt]; exact ht
  have h1g : h1[g]? = some gn := by
    rw [← hh1, List.getElem?_set_ne (Ne.symm hgN)]; exact hg
  have e2 := store_next_some (Ptr.addr N) h1g
  generalize hh2 : h1.set g { gn with next := Ptr.addr N } = h2 at e2
  have h2N : h2[N]? = some { nn with next := Ptr.addr t } := by
    rw [← hh2, List.getElem?_set_ne hgN]; exact h1N
  have h2t : h2[t]? = some tn := by
    rw [← hh2, List.getElem?_set_ne hgt]; exact h1t
  have h2g : h2[g]? = some { gn with next := Ptr.addr N } := by
    rw [← hh2]; exact getElem?_set_same _ h1g
  have e3 := store_prev_some (Ptr.addr g) h2N
  generalize hh3 : h2.set N { nn with next := Ptr.addr t, prev := Ptr.addr g } = h3 at e3
  have h3N : h3[N]? = some { nn with next := Ptr.addr t, prev := Ptr.addr g } := by
    rw [← hh3]; exact getElem?_set_same _ h2N
  have h3t : h3[t]? = some tn := by
    rw [← hh3, List.getElem?_set_ne hNt]; exact h2t
  have h3g : h3[g]? = some { gn with next := Ptr.addr N } := by
    rw [← hh3, List.getElem?_set_ne (Ne.symm hgN)]; exact h2g
  have e4 := store_prev_some (Ptr.addr N) h3t
  refine ⟨h3.set t { tn with prev := Ptr.addr N }, ?_, ?_, ?_, ?_, ?_, ?_⟩
  · simp only [insert_scan, load, hN, ht, Option.bind_eq_bind, Option.some_bind, hlt, if_true,
      e1, h1t, hprev, deref, e2, h2t, e3, e4]
  · rw [List.length_set, ← hh3, List.length_set, ← hh2, List.length_set, ← hh1,
      List.length_set]
  · rw [List.getElem?_set_ne (Ne.symm hNt)]; exact h3N
  · rw [List.getElem?_set_ne (Ne.symm hgt)]; exact h3g
  · exact getElem?_set_same _ h3t
  · intro b hbN hbg hbt
    rw [List.getElem?_set_ne (Ne.symm hbt), ← hh3, List.getElem?_set_ne (Ne.symm hbN), ← hh2,
      List.getElem?_set_ne (Ne.symm hbg), ← hh1, List.getElem?_set_ne (Ne.symm hbN)]

theorem insert_scan_tail {H : List VLOG_DATA} {N t : Nat} {nn tn : VLOG_DATA} (fuel : Nat)
    (hN : H[N]? = some nn) (ht : H[t]? = some tn)
    (hge : ¬ nn.key < tn.key) (hnext : tn.next = Ptr.null) (hNt : N ≠ t) :
    ∃ K, insert_scan (fuel + 1) H N t = some K ∧ K.length = H.length ∧
      K[N]? = some { nn with prev := Ptr.addr t, next := Ptr.null } ∧
      K[t]? = some { tn with next := Ptr.addr N } ∧
      ∀ b, b ≠ N → b ≠ t → K[b]? = H[b]? := by
  have e1 := store_prev_some (Ptr.addr t) hN
  generalize hh1 : H.set N { nn with prev := Ptr.addr t } = h1 at e1
  have h1N : h1[N]? = some { nn with prev := Ptr.addr t } := by
    rw [← hh1]; exact getElem?_set_same _ hN
  have h1t : h1[t]? = some tn := by
    rw [← hh1, List.getElem?_set_ne hNt]; exact ht
  have e2 := store_next_some (Ptr.addr N) h1t
  generalize hh2 : h1.set t { tn with next := Ptr.addr N } = h2 at e2
  have h2N : h2[N]? = some { nn with prev := Ptr.addr t } := by
    rw [← hh2, List.getElem?_set_ne (Ne.symm hNt)]; exact h1N
  have h2t : h2[t]? = some { tn with next := Ptr.addr N } := by
    rw [← hh2]; exact getElem?_set_same _ h1t
  have e3 := store_next_some Ptr.null h2N
  refine ⟨h2.set N { nn with prev := Ptr.addr t, next := Ptr.null }, ?_, ?_, ?_, ?_, ?_⟩
  · simp only [insert_scan, load, hN, ht, Option.bind_eq_bind, Option.some_bind, hge, if_false,
      hnext, e1, e2, e3]
  · rw [List.length_set, ← hh2, List.length_set, ← hh1, List.length_set]
  · exact getElem?_set_same _ h2N
  · rw [List.getElem?_set_ne hNt]; exact h2t
  · intro b hbN hbt
    rw [List.getElem?_set_ne (Ne.symm hbN), ← hh2, List.getElem?_set_ne (Ne.symm hbt), ← hh1,
      List.getElem?_set_ne (Ne.symm hbN)]

theorem insert_scan_skip {H : List VLOG_DATA} {N t n : Nat} {nn tn : VLOG_DATA} (fuel : Nat)
    (hN : H[N]? = some nn) (ht : H[t]? = some tn)
    (hge : ¬ nn.key < tn.key) (hnext : tn.next = Ptr.addr n) :
    insert_scan (fuel + 1) H N t = insert_scan fuel H N n := by
  simp only [insert_scan, load, hN, ht, Option.bind_eq_bind, Option.some_bind, hge, if_false,
    hnext]

theorem split_unique {t : Nat} : ∀ (A A2 B B2 : List Nat), t ∉ A → t ∉ A2 →
    A ++ t :: B = A2 ++ t :: B2 → A = A2 ∧ B = B2 := by
  intro A
  induction A with
  | nil =>
    intro A2 B B2 _ h2 h
    cases A2 with
    | nil => simpa using h
    | cons x A2 =>
      simp only [List.nil_append, List.cons_append, List.cons.injEq] at h
      exact absurd (h.1 ▸ List.mem_cons_self x A2) h2
  | cons a A ih =>
    intro A2 B B2 h1 h2 h
    cases A2 with
    | nil =>
      simp only [List.nil_append, List.cons_append, List.cons.injEq] at h
      exact absurd (h.1 ▸ List.mem_cons_self a A) h1
    | cons x A2 =>
      simp only [List.cons_append, List.cons.injEq] at h
      obtain ⟨e1, e2⟩ := ih A2 B B2 (fun h => h1 (List.mem_cons_of_mem a h))
        (fun h => h2 (List.mem_cons_of_mem x h)) h.2
      exact ⟨by rw [h.1, e1], e2⟩

/-- A cell of the chain whose `next` is the cursor is the predecessor of the cursor. -/
theorem link_pred {H : List VLOG_DATA} {hd : Ptr} {pre post : List Nat} {t g : Nat}
    {gn : VLOG_DATA}
    (hseg : IsSeg H hd (pre ++ t :: post) Ptr.null) (hnd : (pre ++ t :: post).Nodup)
    (hmem : g ∈ pre ++ t :: post) (hg : H[g]? = some gn) (hnext : gn.next = Ptr.addr t) :
    ∃ pre0, pre = pre0 ++ [g] := by
  obtain ⟨l1, l2, hl⟩ := List.mem_iff_append.mp hmem
  have hseg2 := hseg
  rw [hl] at hseg2
  obtain ⟨mid, _, h2⟩ := (isSeg_append H l1 (g :: l2) hd Ptr.null).mp hseg2
  obtain ⟨_, gn2, hgn2, h3⟩ := h2
  rw [hg] at hgn2
  cases hgn2
  rw [hnext] at h3
  cases l2 with
  | nil =>
    have : Ptr.addr t = Ptr.null := h3
    cases this
  | cons x l2 =>
    obtain ⟨hx, _⟩ := h3
    cases hx
    have hnd2 := hnd
    rw [hl] at hnd2
    have ht1 : t ∉ l1 ++ [g] := by
      intro h
      rcases List.mem_append.mp h with h | h
      · exact (List.nodup_append.mp hnd2).2.2 h
          (List.mem_cons_of_mem g (List.mem_cons_self t l2))
      · have hgt : t = g := List.mem_singleton.mp h
        have := (List.nodup_cons.mp (List.nodup_append.mp hnd2).2.1).1
        exact this (hgt ▸ List.mem_cons_self t l2)
    have ht2 : t ∉ pre := fun h =>
      (List.nodup_append.mp hnd).2.2 h (List.mem_cons_self t post)
    have heq : pre ++ t :: post = (l1 ++ [g]) ++ t :: l2 := by
      rw [hl]; simp
    exact ⟨l1, (split_unique pre (l1 ++ [g]) post l2 ht2 ht1 heq).1⟩

theorem heap0_old {H : List VLOG_DATA} {a : Nat} {n : VLOG_DATA} (nn : VLOG_DATA)
    (h : H[a]? = some n) : (H ++ [nn])[a]? = some n := by
  rw [List.getElem?_append_left (List.getElem?_eq_some.mp h).1]
  exact h

theorem heap0_ne {H : List VLOG_DATA} {b : Nat} (nn : VLOG_DATA) (h : b ≠ H.length) :
    (H ++ [nn])[b]? = H[b]? := by
  rcases Nat.lt_or_gt_of_ne h with hlt | hgt
  · exact List.getElem?_append_left hlt
  · rw [List.getElem?_eq_none (by simp; omega), List.getElem?_eq_none (by omega)]

theorem old_ne_length {H : List VLOG_DATA} {a : Nat} {n : VLOG_DATA} (h : H[a]? = some n) :
    a ≠ H.length := by
  have := (List.getElem?_eq_some.mp h).1
  omega

/-! ## The scan of `vlog_print` keeps the bucket well formed -/

theorem seg_at {H : List VLOG_DATA} {hd : Ptr} {pre post : List Nat} {t : Nat}
    (hseg : IsSeg H hd (pre ++ t :: post) Ptr.null) :
    ∃ tn, H[t]? = some tn ∧ IsSeg H tn.next post Ptr.null := by
  obtain ⟨mid, _, h2⟩ := (isSeg_append H pre (t :: post) hd Ptr.null).mp hseg
  obtain ⟨_, tn, htn, h3⟩ := h2
  exact ⟨tn, htn, h3⟩

theorem head_ne_of_pre {H : List VLOG_DATA} {hd : Ptr} {pre post : List Nat} {t : Nat}
    (hseg : IsSeg H hd (pre ++ t :: post) Ptr.null) (hnd : (pre ++ t :: post).Nodup)
    (hpre : pre ≠ []) : hd ≠ Ptr.addr t := by
  cases pre with
  | nil => exact absurd rfl hpre
  | cons p pre =>
    obtain ⟨hp, _⟩ := hseg
    intro h
    rw [hp] at h
    cases h
    have := (List.nodup_cons.mp hnd).1
    exact this (List.mem_append_right _ (List.mem_cons_self _ _))

theorem scan_body_case {H : List VLOG_DATA} {hd : Ptr} {ty : LOG_TYPE} {nn tn : VLOG_DATA}
    {pre post : List Nat} {t : Nat} (fuel : Nat)
    (hnty : nn.log_type = ty)
    (inv : BInv H hd ty (pre ++ t :: post))
    (hpre : ∀ a ∈ pre, keyAt H a ≤ nn.key)
    (hfirst : pre = [] → ¬ nn.key < keyAt H t)
    (ht : H[t]? = some tn) (hlt : nn.key < tn.key) :
    ∃ K l2, insert_scan (fuel + 1) (H ++ [nn]) H.length t = some K ∧
      ScanPost H hd ty nn (pre ++ t :: post) K l2 := by
  have htl : t ∈ pre ++ t :: post := List.mem_append_right _ (List.mem_cons_self t post)
  have hprene : pre ≠ [] := by
    intro h
    apply hfirst h
    rw [keyAt_eq ht]
    exact hlt
  have hhd := head_ne_of_pre inv.seg inv.nodup hprene
  obtain ⟨g, gn, bn, hbn, hprev, hg, hgty, hlink⟩ := inv.links t htl hhd
  rw [ht] at hbn
  cases hbn
  obtain ⟨tn2, htn2, htseg⟩ := seg_at inv.seg
  rw [ht] at htn2
  cases htn2
  have htpost : t ∉ post :=
    (List.nodup_cons.mp (List.nodup_append.mp inv.nodup).2.1).1
  have hgt : g ≠ t := by
    intro h
    subst h
    rw [ht] at hg
    cases hg
    have hn := hlink htl
    rw [hn] at htseg
    cases post with
    | nil =>
      have : Ptr.addr g = Ptr.null := htseg
      cases this
    | cons x post =>
      obtain ⟨hx, _⟩ := htseg
      cases hx
      exact htpost (List.mem_cons_self g post)
  have hNt : H.length ≠ t := Ne.symm (old_ne_length ht)
  have hgN : g ≠ H.length := old_ne_length hg
  obtain ⟨K, hK, hlen, hKN, hKg, hKt, hKrest⟩ :=
    insert_scan_body fuel (List.getElem?_concat_length H nn) (heap0_old nn ht)
      (heap0_old nn hg) hlt hprev hNt hgN hgt
  have hKold : ∀ b, b ≠ H.length → b ≠ g → b ≠ t → K[b]? = H[b]? := by
    intro b h1 h2 h3
    rw [hKrest b h1 h2 h3, heap0_ne nn h1]
  have hNnone : H[H.length]? = none := List.getElem?_eq_none (Nat.le_refl _)
  have hframe : HeapFrame ty H K := by
    intro a n hn
    by_cases hag : a = g
    · subst hag
      rw [hg] at hn
      cases hn
      exact ⟨_, hKg, rfl, fun h => absurd hgty h⟩
    · by_cases hat : a = t
      · subst hat
        rw [ht] at hn
        cases hn
        exact ⟨_, hKt, rfl, fun h => absurd (inv.typed _ htl _ ht) h⟩
      · exact ⟨n, by rw [hKold a (old_ne_length hn) hag hat]; exact hn, rfl, fun _ => rfl⟩
  have hsorted : ∀ b ∈ t :: post, nn.key < keyAt H b := by
    intro b hb
    rcases List.mem_cons.mp hb with rfl | hb
    · rw [keyAt_eq ht]; exact hlt
    · have hs := inv.sorted
      rw [List.map_append, List.pairwise_append, List.map_cons, List.pairwise_cons] at hs
      have := hs.2.1.1 (keyAt H b) (List.mem_map_of_mem _ hb)
      rw [keyAt_eq ht] at this
      omega
  by_cases hgl : g ∈ pre ++ t :: post
  · obtain ⟨pre0, rfl⟩ := link_pred inv.seg inv.nodup hgl hg (hlink hgl)
    have hl : pre0 ++ [g] ++ t :: post = pre0 ++ g :: t :: post := by simp
    have inv2 := inv
    rw [hl] at inv2
    have hb := binv_body inv2 hNnone hg ht hKN rfl rfl hnty hpre (Nat.le_of_lt hlt) hKg hKt hKold
    refine ⟨K, pre0 ++ g :: H.length :: t :: post, hK, hb, by simpa using hlen,
      ⟨_, hKN, rfl⟩, hframe, Or.inr ⟨pre0 ++ [g], t :: post, rfl, by simp, hpre, hsorted⟩⟩
  · have hb : BInv K hd ty (pre ++ t :: post) := by
      refine binv_update inv ?_ ?_
      · intro a ha n hn
        have hag : a ≠ g := fun h => hgl (h ▸ ha)
        by_cases hat : a = t
        · subst hat
          rw [ht] at hn
          cases hn
          refine ⟨_, hKt, rfl, rfl, rfl, fun _ => Or.inr ⟨H.length, _, rfl, ?_, hKN, hnty⟩⟩
          intro h
          obtain ⟨x, hx⟩ := isSeg_valid inv.seg _ h
          rw [hNnone] at hx
          cases hx
        · exact ⟨n, by rw [hKold a (old_ne_length hn) hag hat]; exact hn, rfl, rfl, rfl,
            fun _ => Or.inl rfl⟩
      · intro x xn hxn hxty hxl
        by_cases hxg : x = g
        · subst hxg
          rw [hg] at hxn
          cases hxn
          exact ⟨_, hKg, hgty⟩
        · have hxt : x ≠ t := fun h => hxl (h ▸ htl)
          exact ⟨xn, by rw [hKold x (old_ne_length hxn) hxg hxt]; exact hxn, hxty⟩
    refine ⟨K, pre ++ t :: post, hK, hb, by simpa using hlen, ⟨_, hKN, rfl⟩, hframe,
      Or.inl ⟨rfl, t, htl, by rw [keyAt_eq ht]; exact hlt⟩⟩

theorem scan_tail_case {H : List VLOG_DATA} {hd : Ptr} {ty : LOG_TYPE} {nn tn : VLOG_DATA}
    {pre : List Nat} {t : Nat} (fuel : Nat)
    (hnty : nn.log_type = ty)
    (inv : BInv H hd ty (pre ++ [t]))
    (hpre : ∀ a ∈ pre, keyAt H a ≤ nn.key)
    (ht : H[t]? = some tn) (hge : ¬ nn.key < tn.key) :
    ∃ K l2, insert_scan (fuel + 1) (H ++ [nn]) H.length t = some K ∧
      ScanPost H hd ty nn (pre ++ [t]) K l2 := by
  obtain ⟨tn2, htn2, htseg⟩ := seg_at inv.seg
  rw [ht] at htn2
  cases htn2
  have hnext : tn.next = Ptr.null := htseg
  have hNt : H.length ≠ t := Ne.symm (old_ne_length ht)
  obtain ⟨K, hK, hlen, hKN, hKt, hKrest⟩ :=
    insert_scan_tail fuel (List.getElem?_concat_length H nn) (heap0_old nn ht) hge hnext hNt
  have hKold : ∀ b, b ≠ H.length → b ≠ t → K[b]? = H[b]? := by
    intro b h1 h2
    rw [hKrest b h1 h2, heap0_ne nn h1]
  have hNnone : H[H.length]? = none := List.getElem?_eq_none (Nat.le_refl _)
  have htl : t ∈ pre ++ [t] := List.mem_append_right _ (List.mem_singleton_self t)
  have hall : ∀ a ∈ pre ++ [t], keyAt H a ≤ nn.key := by
    intro a ha
    rcases List.mem_append.mp ha with ha | ha
    · exact hpre a ha
    · rw [List.mem_singleton.mp ha, keyAt_eq ht]
      omega
  have hb := binv_tail inv hNnone ht hKN rfl rfl hnty hall hKt hKold
  have hframe : HeapFrame ty H K := by
    intro a n hn
    by_cases hat : a = t
    · subst hat
      rw [ht] at hn
      cases hn
      exact ⟨_, hKt, rfl, fun h => absurd (inv.typed _ htl _ ht) h⟩
    · exact ⟨n, by rw [hKold a (old_ne_length hn) hat]; exact hn, rfl, fun _ => rfl⟩
  refine ⟨K, pre ++ [t] ++ [H.length], hK, hb, by simpa using hlen, ⟨_, hKN, rfl⟩, hframe,
    Or.inr ⟨pre ++ [t], [], by simp, rfl, hall, ?_⟩⟩
  intro b hb
  cases hb

theorem insert_scan_spec {H : List VLOG_DATA} {hd : Ptr} {ty : LOG_TYPE} {nn : VLOG_DATA}
    (hnty : nn.log_type = ty) :
    ∀ (post pre : List Nat) (t fuel : Nat),
      BInv H hd ty (pre ++ t :: post) →
      (∀ a ∈ pre, keyAt H a ≤ nn.key) →
      (pre = [] → ¬ nn.key < keyAt H t) →
      post.length < fuel →
      ∃ K l2, insert_scan fuel (H ++ [nn]) H.length t = some K ∧
        ScanPost H hd ty nn (pre ++ t :: post) K l2 := by
  intro post
  induction post with
  | nil =>
    intro pre t fuel inv hpre hfirst hfuel
    obtain ⟨tn, ht, _⟩ := seg_at inv.seg
    obtain ⟨f, rfl⟩ : ∃ f, fuel = f + 1 := ⟨fuel - 1, by omega⟩
    by_cases hlt : nn.key < tn.key
    · exact scan_body_case f hnty inv hpre hfirst ht hlt
    · exact scan_tail_case f hnty inv hpre ht hlt
  | cons n post ih =>
    intro pre t fuel inv hpre hfirst hfuel
    obtain ⟨tn, ht, htseg⟩ := seg_at inv.seg
    obtain ⟨f, rfl⟩ : ∃ f, fuel = f + 1 := ⟨fuel - 1, by omega⟩
    by_cases hlt : nn.key < tn.key
    · exact scan_body_case f hnty inv hpre hfirst ht hlt
    · obtain ⟨hnext, _⟩ := htseg
      rw [insert_scan_skip f (List.getElem?_concat_length H nn) (heap0_old nn ht) hlt hnext]
      have hl : pre ++ t :: n :: post = (pre ++ [t]) ++ n :: post := by simp
      have inv2 := inv
      rw [hl] at inv2
      have hpre2 : ∀ a ∈ pre ++ [t], keyAt H a ≤ nn.key := by
        intro a ha
        rcases List.mem_append.mp ha with ha | ha
        · exact hpre a ha
        · rw [List.mem_singleton.mp ha, keyAt_eq ht]
          omega
      have hfuel2 : post.length < f := by
        simp only [List.length_cons] at hfuel
        omega
      obtain ⟨K, l2, hK, hpost⟩ := ih (pre ++ [t]) n f inv2 hpre2 (by simp) hfuel2
      refine ⟨K, l2, hK, ?_⟩
      rw [hl]
      exact hpost

/-! ## Linking a new cell -/

theorem getHead_setHead (lf : VLOG_FILE) (ty ty2 : LOG_TYPE) (p : Ptr) :
    getHead (setHead lf ty p) ty2 = if ty2 = ty then p else getHead lf ty2 := by
  cases ty <;> cases ty2 <;> simp [getHead, setHead]

theorem setHead_f (lf : VLOG_FILE) (ty : LOG_TYPE) (p : Ptr) :
    (setHead lf ty p).f = lf.f ∧ (setHead lf ty p).file_name = lf.file_name ∧
      (setHead lf ty p).is_open = lf.is_open := by
  cases ty <;> simp [setHead]

theorem new_logdata_key (ty : LOG_TYPE) (key : Nat) (text : String) :
    (new_logdata ty key text).key = key := by
  unfold new_logdata
  split <;> rfl

theorem new_logdata_type (ty : LOG_TYPE) (key : Nat) (text : String) :
    (new_logdata ty key text).log_type = ty := by
  unfold new_logdata
  split <;> rfl

theorem record_new_logdata (ty : LOG_TYPE) (key : Nat) (text : String) :
    record (new_logdata ty key text) = (key, text) := by
  unfold new_logdata
  split <;> simp [record, payload]

theorem link_empty {s : State} {ty : LOG_TYPE} {nn : VLOG_DATA} (hnty : nn.log_type = ty)
    (inv : BInv s.heap (getHead s.log_file ty) ty []) :
    ∃ s2 l2, link_logdata s ty nn = some (s2, 0) ∧ PrintPost s ty nn [] s2 l2 := by
  have hhd : getHead s.log_file ty = Ptr.null := inv.seg
  have hN := List.getElem?_concat_length s.heap nn
  have e1 := store_prev_some Ptr.null hN
  generalize hh1 : (s.heap ++ [nn]).set s.heap.length { nn with prev := Ptr.null } = h1 at e1
  have h1N : h1[s.heap.length]? = some { nn with prev := Ptr.null } := by
    rw [← hh1]; exact getElem?_set_same _ hN
  have e2 := store_next_some Ptr.null h1N
  generalize hh2 : h1.set s.heap.length { nn with prev := Ptr.null, next := Ptr.null } = h2 at e2
  have h2N : h2[s.heap.length]? = some { nn with prev := Ptr.null, next := Ptr.null } := by
    rw [← hh2]; exact getElem?_set_same _ h1N
  have h2old : ∀ b, b ≠ s.heap.length → h2[b]? = s.heap[b]? := by
    intro b hb
    rw [← hh2, List.getElem?_set_ne (Ne.symm hb), ← hh1, List.getElem?_set_ne (Ne.symm hb),
      heap0_ne nn hb]
  refine ⟨{ s with heap := h2, log_file := setHead s.log_file ty (Ptr.addr s.heap.length) },
    [s.heap.length], ?_, ?_⟩
  · simp only [link_logdata, hhd, Option.bind_eq_bind, Option.some_bind, e1, e2]
  · refine ⟨?_, ?_, ⟨_, h2N, rfl⟩, ?_, ?_, (setHead_f _ _ _).1, (setHead_f _ _ _).2.1,
      (setHead_f _ _ _).2.2, rfl, Or.inr (Or.inr ⟨[], [], rfl, rfl, ?_, ?_⟩)⟩
    · show BInv h2 (getHead (setHead s.log_file ty (Ptr.addr s.heap.length)) ty) ty _
      rw [getHead_setHead, if_pos rfl]
      exact binv_single h2N rfl hnty
    · show h2.length = s.heap.length + 1
      rw [← hh2, List.length_set, ← hh1, List.length_set]
      simp
    · intro a n hn
      exact ⟨n, by show h2[a]? = some n; rw [h2old a (old_ne_length hn)]; exact hn, rfl,
        fun _ => rfl⟩
    · intro ty2 h
      show getHead (setHead s.log_file ty (Ptr.addr s.heap.length)) ty2 = _
      rw [getHead_setHead, if_neg h]
    · intro a ha; cases ha
    · intro a ha; cases ha

theorem link_head {s : State} {ty : LOG_TYPE} {nn cn : VLOG_DATA} {c : Nat} {rest : List Nat}
    (hnty : nn.log_type = ty)
    (inv : BInv s.heap (getHead s.log_file ty) ty (c :: rest))
    (hc : s.heap[c]? = some cn) (hlt : nn.key < cn.key) :
    ∃ s2, link_logdata s ty nn = some (s2, 0) ∧
      PrintPost s ty nn (c :: rest) s2 (s.heap.length :: rest) := by
  have hhd : getHead s.log_file ty = Ptr.addr c := inv.seg.1
  have hN := List.getElem?_concat_length s.heap nn
  have hc0 := heap0_old nn hc
  have hNc : s.heap.length ≠ c := Ne.symm (old_ne_length hc)
  have e1 := store_next_some cn.next hN
  generalize hh1 : (s.heap ++ [nn]).set s.heap.length { nn with next := cn.next } = h1 at e1
  have h1N : h1[s.heap.length]? = some { nn with next := cn.next } := by
    rw [← hh1]; exact getElem?_set_same _ hN
  have h1c : h1[c]? = some cn := by
    rw [← hh1, List.getElem?_set_ne hNc]; exact hc0
  have e2 := store_prev_some (Ptr.addr s.heap.length) h1c
  generalize hh2 : h1.set c { cn with prev := Ptr.addr s.heap.length } = h2 at e2
  have h2N : h2[s.heap.length]? = some { nn with next := cn.next } := by
    rw [← hh2, List.getElem?_set_ne (Ne.symm hNc)]; exact h1N
  have h2c : h2[c]? = some { cn with prev := Ptr.addr s.heap.length } := by
    rw [← hh2]; exact getElem?_set_same _ h1c
  have h2old : ∀ b, b ≠ s.heap.length → b ≠ c → h2[b]? = s.heap[b]? := by
    intro b hb hbc
    rw [← hh2, List.getElem?_set_ne (Ne.symm hbc), ← hh1, List.getElem?_set_ne (Ne.symm hb),
      heap0_ne nn hb]
  have hNnone : s.heap[s.heap.length]? = none := List.getElem?_eq_none (Nat.le_refl _)
  refine ⟨{ s with heap := h2, log_file := setHead s.log_file ty (Ptr.addr s.heap.length) },
    ?_, ?_⟩
  · simp only [link_logdata, hhd, load, hN, hc0, Option.bind_eq_bind, Option.some_bind, hlt,
      if_true, e1, e2]
  · refine ⟨?_, ?_, ⟨_, h2N, rfl⟩, ?_, ?_, (setHead_f _ _ _).1, (setHead_f _ _ _).2.1,
      (setHead_f _ _ _).2.2, rfl, Or.inl ⟨c, rest, rfl, by rw [keyAt_eq hc]; exact hlt, rfl⟩⟩
    · show BInv h2 (getHead (setHead s.log_file ty (Ptr.addr s.heap.length)) ty) ty _
      rw [getHead_setHead, if_pos rfl]
      rw [hhd] at inv
      exact binv_head inv hNnone hc h2N rfl hnty (Nat.le_of_lt hlt) ⟨_, h2c, rfl⟩ h2old
    · show h2.length = s.heap.length + 1
      rw [← hh2, List.length_set, ← hh1, List.length_set]
      simp
    · intro a n hn
      by_cases hac : a = c
      · subst hac
        rw [hc] at hn
        cases hn
        exact ⟨_, h2c, rfl, fun h => absurd (inv.typed _ (List.mem_cons_self _ _) _ hc) h⟩
      · exact ⟨n, by show h2[a]? = some n; rw [h2old a (old_ne_length hn) hac]; exact hn, rfl,
          fun _ => rfl⟩
    · intro ty2 h
      show getHead (setHead s.log_file ty (Ptr.addr s.heap.length)) ty2 = _
      rw [getHead_setHead, if_neg h]

theorem link_scan {s : State} {ty : LOG_TYPE} {nn cn : VLOG_DATA} {c : Nat} {rest : List Nat}
    (hnty : nn.log_type = ty)
    (inv : BInv s.heap (getHead s.log_file ty) ty (c :: rest))
    (hc : s.heap[c]? = some cn) (hge : ¬ nn.key < cn.key) :
    ∃ s2 l2, link_logdata s ty nn = some (s2, 0) ∧ PrintPost s ty nn (c :: rest) s2 l2 := by
  have hhd : getHead s.log_file ty = Ptr.addr c := inv.seg.1
  have hN := List.getElem?_concat_length s.heap nn
  have hc0 := heap0_old nn hc
  have hlen := isSeg_length_le inv.seg inv.nodup
  have hfuel : rest.length < (s.heap ++ [nn]).length + 1 := by
    simp only [List.length_cons, List.length_append, List.length_nil] at hlen ⊢
    omega
  obtain ⟨K, l2, hK, hb, hKlen, hKN, hframe, hshape⟩ :=
    insert_scan_spec hnty rest [] c _ inv (fun a ha => by cases ha)
      (fun _ => by rw [keyAt_eq hc]; exact hge) hfuel
  refine ⟨{ s with heap := K }, l2, ?_, hb, hKlen, hKN, hframe, fun _ _ => rfl, rfl, rfl, rfl,
    rfl, ?_⟩
  · simp only [link_logdata, hhd, load, hN, hc0, Option.bind_eq_bind, Option.some_bind, hge,
      if_false, hK]
  · rcases hshape with ⟨hl, u, hu, hlt⟩ | h
    · refine Or.inr (Or.inl ⟨hl, c, rest, rfl, ?_, ?_⟩)
      · rw [keyAt_eq hc]; omega
      · rcases List.mem_cons.mp hu with rfl | hu
        · rw [keyAt_eq hc] at hlt
          exact absurd hlt hge
        · exact ⟨u, hu, hlt⟩
    · exact Or.inr (Or.inr h)

/-- Linking a new cell of category `ty` into a well-formed bucket of `ty` returns 0
and leaves the bucket well formed. -/
theorem link_spec {s : State} {ty : LOG_TYPE} {nn : VLOG_DATA} {l : List Nat}
    (hnty : nn.log_type = ty)
    (inv : BInv s.heap (getHead s.log_file ty) ty l) :
    ∃ s2 l2, link_logdata s ty nn = some (s2, 0) ∧ PrintPost s ty nn l s2 l2 := by
  cases l with
  | nil => exact link_empty hnty inv
  | cons c rest =>
    obtain ⟨_, cn, hc, _⟩ := inv.seg
    by_cases hlt : nn.key < cn.key
    · obtain ⟨s2, h1, h2⟩ := link_head hnty inv hc hlt
      exact ⟨s2, _, h1, h2⟩
    · exact link_scan hnty inv hc hlt

/-! ## Buckets of the other categories, and reading a bucket -/

theorem binv_frame {H K : List VLOG_DATA} {hd : Ptr} {ty ty2 : LOG_TYPE} {l : List Nat}
    (inv : BInv H hd ty2 l) (hframe : HeapFrame ty H K) (hne : ty2 ≠ ty) :
    BInv K hd ty2 l ∧ cells K l = cells H l := by
  have hsame : ∀ a ∈ l, K[a]? = H[a]? := by
    intro a ha
    obtain ⟨n, hn⟩ := isSeg_valid inv.seg a ha
    obtain ⟨k, hk, _, hkn⟩ := hframe a n hn
    rw [hk, hn, hkn (by rw [inv.typed a ha n hn]; exact hne)]
  refine ⟨binv_update inv ?_ ?_, ?_⟩
  · intro a ha n hn
    exact ⟨n, by rw [hsame a ha]; exact hn, rfl, rfl, rfl, fun _ => Or.inl rfl⟩
  · intro g gn hgn hgty _
    obtain ⟨k, hk, _, hkn⟩ := hframe g gn hgn
    rw [hkn (by rw [hgty]; exact hne)] at hk
    exact ⟨gn, hk, hgty⟩
  · unfold cells
    apply List.filterMap_congr
    intro a ha
    exact hsame a ha

theorem bucket_eq {s : State} {ty : LOG_TYPE} {l : List Nat}
    (inv : BInv s.heap (getHead s.log_file ty) ty l) :
    bucket s ty = some (cells s.heap l) := by
  unfold bucket
  apply chain_of_isSeg _ inv.seg
  have := isSeg_length_le inv.seg inv.nodup
  omega

theorem cells_valid {H : List VLOG_DATA} {l : List Nat}
    (h : ∀ a ∈ l, ∃ n, H[a]? = some n) :
    (cells H l).map VLOG_DATA.key = l.map (keyAt H) := by
  induction l with
  | nil => rfl
  | cons a l ih =>
    obtain ⟨n, hn⟩ := h a (List.mem_cons_self a l)
    have ih2 := ih (fun b hb => h b (List.mem_cons_of_mem a hb))
    simp only [cells, List.filterMap_cons, hn, List.map_cons, keyAt_eq hn] at ih2 ⊢
    rw [ih2]

theorem cells_append (H : List VLOG_DATA) (l1 l2 : List Nat) :
    cells H (l1 ++ l2) = cells H l1 ++ cells H l2 := by
  simp [cells, List.filterMap_append]

theorem cells_cons {H : List VLOG_DATA} {a : Nat} {n : VLOG_DATA} (l : List Nat)
    (h : H[a]? = some n) : cells H (a :: l) = n :: cells H l := by
  simp [cells, List.filterMap_cons, h]

theorem record_of_static {m n : VLOG_DATA} (h : static m = static n) : record m = record n := by
  simp only [static, Prod.mk.injEq] at h
  obtain ⟨_, hk, hl, hlt, ht⟩ := h
  simp [record, payload, hk, hl, hlt, ht]

theorem records_frame {H K : List VLOG_DATA} {ty : LOG_TYPE} {l : List Nat}
    (hframe : HeapFrame ty H K) (h : ∀ a ∈ l, ∃ n, H[a]? = some n) :
    (cells K l).map record = (cells H l).map record := by
  induction l with
  | nil => rfl
  | cons a l ih =>
    obtain ⟨n, hn⟩ := h a (List.mem_cons_self a l)
    obtain ⟨k, hk, hst, _⟩ := hframe a n hn
    rw [cells_cons l hk, cells_cons l hn, List.map_cons, List.map_cons,
      ih (fun b hb => h b (List.mem_cons_of_mem a hb)), record_of_static hst]

theorem keyAt_frame {H K : List VLOG_DATA} {ty : LOG_TYPE} {a : Nat} {n : VLOG_DATA}
    (hframe : HeapFrame ty H K) (hn : H[a]? = some n) : keyAt K a = keyAt H a := by
  obtain ⟨k, hk, hst, _⟩ := hframe a n hn
  simp only [static, Prod.mk.injEq] at hst
  rw [keyAt_eq hk, keyAt_eq hn, hst.2.1]

/-! ## The drain of `vlog_file_close` -/

theorem join_foldl (l : List String) (init : String) :
    l.foldl (fun r s => r ++ s) init = init ++ String.join l := by
  induction l generalizing init with
  | nil => simp [String.join]
  | cons a l ih =>
    simp only [List.foldl_cons, String.join]
    rw [ih, ih ("" ++ a)]
    simp [String.append_assoc]

theorem join_cons (a : String) (l : List String) :
    String.join (a :: l) = a ++ String.join l := by
  simp only [String.join, List.foldl_cons]
  rw [join_foldl]
  simp [String.join]

theorem join_append (l1 l2 : List String) :
    String.join (l1 ++ l2) = String.join l1 ++ String.join l2 := by
  induction l1 with
  | nil => simp [String.join]
  | cons a l1 ih => rw [List.cons_append, join_cons, join_cons, ih, String.append_assoc]

theorem drain_of_isSeg {H : List VLOG_DATA} {l : List Nat} {p : Ptr} (fuel : Nat) (out : String)
    (h : IsSeg H p l Ptr.null)
    (htexts : ∀ (a : Nat) (n : VLOG_DATA), H[a]? = some n → n.is_longtext = true →
      n.ltext.isSome = true)
    (hf : l.length < fuel) :
    drain fuel H p out = some (out ++ String.join ((cells H l).map payload)) := by
  induction l generalizing p fuel out with
  | nil =>
    have hp : p = Ptr.null := h
    subst hp
    cases fuel with
    | zero => simp at hf
    | succ fuel => simp [drain, cells, String.join]
  | cons a l ih =>
    obtain ⟨hp, n, hn, hrest⟩ := h
    subst hp
    cases fuel with
    | zero => simp at hf
    | succ fuel =>
      have hf2 : l.length < fuel := by simpa using hf
      rw [cells_cons l hn, List.map_cons, join_cons]
      by_cases hlong : n.is_longtext = true
      · obtain ⟨t, ht⟩ := Option.isSome_iff_exists.mp (htexts a n hn hlong)
        simp only [drain, load, hn, hlong, if_true, ht]
        rw [ih fuel _ hrest hf2, String.append_assoc]
        simp [payload, hlong, ht]
      · simp only [drain, load, hn, hlong]
        rw [ih fuel _ hrest hf2, String.append_assoc]
        simp [payload, hlong]

/-! ## The invariant holds in every reachable state -/

theorem binv_nil (H : List VLOG_DATA) (ty : LOG_TYPE) : BInv H Ptr.null ty [] :=
  ⟨rfl, List.nodup_nil, fun _ h => (by cases h), (by simp), fun _ h => (by cases h)⟩

theorem closed_iff (s : State) :
    is_vlog_file_open s = 0 ↔ (s.log_file.f.isNone || !s.log_file.is_open) = true := by
  unfold is_vlog_file_open
  split <;> simp_all

theorem open_iff (s : State) :
    is_vlog_file_open s ≠ 0 ↔ s.log_file.f.isSome = true ∧ s.log_file.is_open = true := by
  rw [Ne, closed_iff]
  cases s.log_file.f <;> cases s.log_file.is_open <;> simp

theorem inv_init : Inv init :=
  ⟨fun ty => ⟨[], (by cases ty <;> exact binv_nil _ _)⟩, fun a n h => (by simp [init] at h),
    fun _ ty => (by cases ty <;> rfl)⟩

theorem inv_open {s : State} (inv : Inv s) (name : String) (file_exists remove_ok : Bool)
    (stream : Option FILE) : Inv (vlog_file_open s name file_exists remove_ok stream).1 := by
  unfold vlog_file_open
  split
  · exact inv
  · split
    · exact inv
    · exact ⟨fun ty => ⟨[], (by cases ty <;> exact binv_nil _ _)⟩, inv.texts,
        fun _ ty => (by cases ty <;> rfl)⟩

theorem vlog_print_closed {s : State} (h : is_vlog_file_open s = 0) (ty : LOG_TYPE) (key : Nat)
    (text : String) (alloc : Bool) : vlog_print s ty key text alloc = some (s, -1) := by
  unfold vlog_print
  rw [if_pos ((closed_iff s).mp h)]

theorem vlog_print_no_alloc {s : State} (h : is_vlog_file_open s ≠ 0) (ty : LOG_TYPE)
    (key : Nat) (text : String) : vlog_print s ty key text false = some (s, 0) := by
  unfold vlog_print
  rw [if_neg (fun hc => h ((closed_iff s).mpr hc))]
  simp

theorem vlog_print_alloc {s : State} (h : is_vlog_file_open s ≠ 0) (ty : LOG_TYPE)
    (key : Nat) (text : String) :
    vlog_print s ty key text true = link_logdata s ty (new_logdata ty key text) := by
  unfold vlog_print
  rw [if_neg (fun hc => h ((closed_iff s).mpr hc))]
  simp

theorem new_logdata_texts (ty : LOG_TYPE) (key : Nat) (text : String) :
    (new_logdata ty key text).is_longtext = true →
      (new_logdata ty key text).ltext.isSome = true := by
  unfold new_logdata
  split <;> simp

theorem inv_of_printPost {s s2 : State} {ty : LOG_TYPE} {nn : VLOG_DATA} {l l2 : List Nat}
    (inv : Inv s) (hopen : is_vlog_file_open s ≠ 0)
    (hnn : nn.is_longtext = true → nn.ltext.isSome = true)
    (post : PrintPost s ty nn l s2 l2) : Inv s2 := by
  obtain ⟨hb, hlen, ⟨m, hm, hmst⟩, hframe, hheads, hf, _, ho, _, _⟩ := post
  refine ⟨?_, ?_, ?_⟩
  · intro ty2
    by_cases h : ty2 = ty
    · subst h
      exact ⟨l2, hb⟩
    · obtain ⟨l3, hl3⟩ := inv.buckets ty2
      refine ⟨l3, ?_⟩
      rw [hheads ty2 h]
      exact (binv_frame hl3 hframe h).1
  · intro a k hk hlong
    have ha : a < s.heap.length + 1 := by
      rw [← hlen]
      exact (List.getElem?_eq_some.mp hk).1
    by_cases haN : a = s.heap.length
    · subst haN
      rw [hm] at hk
      cases hk
      simp only [static, Prod.mk.injEq] at hmst
      rw [hmst.2.2.2.1]
      rw [hmst.2.2.1] at hlong
      exact hnn hlong
    · have halt : a < s.heap.length := by omega
      obtain ⟨n, hn⟩ : ∃ n, s.heap[a]? = some n :=
        ⟨s.heap[a], List.getElem?_eq_getElem halt⟩
      obtain ⟨k2, hk2, hst, _⟩ := hframe a n hn
      rw [hk] at hk2
      cases hk2
      simp only [static, Prod.mk.injEq] at hst
      rw [hst.2.2.2.1]
      rw [hst.2.2.1] at hlong
      exact inv.texts a n hn hlong
  · intro hc
    exfalso
    rw [open_iff] at hopen
    rw [closed_iff, hf, ho] at hc
    obtain ⟨h1, h2⟩ := hopen
    cases hfs : s.log_file.f with
    | none => rw [hfs] at h1; cases h1
    | some x => rw [hfs, h2] at hc; cases hc

/-- On a session that is open, in a state that satisfies the invariant, a
`vlog_print` call whose allocation succeeds returns 0. -/
theorem vlog_print_open {s : State} (inv : Inv s) (hopen : is_vlog_file_open s ≠ 0)
    {ty : LOG_TYPE} {l : List Nat} (hl : BInv s.heap (getHead s.log_file ty) ty l)
    (key : Nat) (text : String) :
    ∃ s2 l2, vlog_print s ty key text true = some (s2, 0) ∧
      PrintPost s ty (new_logdata ty key text) l s2 l2 ∧ Inv s2 := by
  obtain ⟨s2, l2, h1, h2⟩ := link_spec (new_logdata_type ty key text) hl
  exact ⟨s2, l2, by rw [vlog_print_alloc hopen]; exact h1, h2,
    inv_of_printPost inv hopen (new_logdata_texts ty key text) h2⟩

theorem inv_print {s : State} (inv : Inv s) (ty : LOG_TYPE) (key : Nat) (text : String)
    (alloc : Bool) : ∃ s2 r, vlog_print s ty key text alloc = some (s2, r) ∧ Inv s2 := by
  by_cases hopen : is_vlog_file_open s = 0
  · exact ⟨s, -1, vlog_print_closed hopen ty key text alloc, inv⟩
  · cases alloc with
    | false => exact ⟨s, 0, vlog_print_no_alloc hopen ty key text, inv⟩
    | true =>
      obtain ⟨l, hl⟩ := inv.buckets ty
      obtain ⟨s2, l2, h1, _, h3⟩ := vlog_print_open inv hopen hl key text
      exact ⟨s2, 0, h1, h3⟩

/-- The state `vlog_file_close` leaves behind when it drains. -/
theorem vlog_file_close_open {s : State} (inv : Inv s) (hopen : is_vlog_file_open s ≠ 0)
    {lm lo ld : List Nat}
    (hm : BInv s.heap (getHead s.log_file LOG_TYPE.LOG_MP4BOX) LOG_TYPE.LOG_MP4BOX lm)
    (ho : BInv s.heap (getHead s.log_file LOG_TYPE.LOG_OBU) LOG_TYPE.LOG_OBU lo)
    (hd : BInv s.heap (getHead s.log_file LOG_TYPE.LOG_DECOP) LOG_TYPE.LOG_DECOP ld) :
    vlog_file_close s =
      some ({ s with log_file :=
                { f := none, file_name := "", is_open := false, head_obu := Ptr.null,
                  head_mp4box := Ptr.null, head_decop := Ptr.null } },
        0, String.join ((cells s.heap lm ++ cells s.heap lo ++ cells s.heap ld).map payload)) := by
  have hfuel : ∀ {ty : LOG_TYPE} {l : List Nat},
      BInv s.heap (getHead s.log_file ty) ty l → l.length < s.heap.length + 1 := by
    intro ty l h
    have := isSeg_length_le h.seg h.nodup
    omega
  have d1 := drain_of_isSeg (s.heap.length + 1) "" hm.seg inv.texts (hfuel hm)
  have d2 := drain_of_isSeg (s.heap.length + 1)
    ("" ++ String.join ((cells s.heap lm).map payload)) ho.seg inv.texts (hfuel ho)
  have d3 := drain_of_isSeg (s.heap.length + 1)
    ("" ++ String.join ((cells s.heap lm).map payload) ++
      String.join ((cells s.heap lo).map payload)) hd.seg inv.texts (hfuel hd)
  have hc : (s.log_file.f.isSome && s.log_file.is_open) = true := by
    obtain ⟨h1, h2⟩ := (open_iff s).mp hopen
    rw [h1, h2]
    rfl
  have g1 : getHead (setHead s.log_file LOG_TYPE.LOG_MP4BOX Ptr.null) LOG_TYPE.LOG_OBU =
      getHead s.log_file LOG_TYPE.LOG_OBU := rfl
  have g2 : getHead (setHead (setHead s.log_file LOG_TYPE.LOG_MP4BOX Ptr.null)
      LOG_TYPE.LOG_OBU Ptr.null) LOG_TYPE.LOG_DECOP = getHead s.log_file LOG_TYPE.LOG_DECOP := rfl
  unfold vlog_file_close
  rw [if_pos hc]
  simp only [close_loop, print_order, d1, g1, d2, g2, d3]
  simp [setHead, List.map_append, join_append, String.append_assoc]

theorem vlog_file_close_closed {s : State} (h : is_vlog_file_open s = 0) :
    vlog_file_close s = some (s, -1, "") := by
  unfold vlog_file_close
  have hc : ¬ (s.log_file.f.isSome && s.log_file.is_open) = true := by
    rw [closed_iff] at h
    cases hf : s.log_file.f <;> cases ho : s.log_file.is_open <;> simp_all
  rw [if_neg hc]

theorem inv_close {s : State} (inv : Inv s) :
    ∃ s2 r out, vlog_file_close s = some (s2, r, out) ∧ Inv s2 := by
  by_cases hopen : is_vlog_file_open s = 0
  · exact ⟨s, -1, "", vlog_file_close_closed hopen, inv⟩
  · obtain ⟨lm, hm⟩ := inv.buckets LOG_TYPE.LOG_MP4BOX
    obtain ⟨lo, ho⟩ := inv.buckets LOG_TYPE.LOG_OBU
    obtain ⟨ld, hd⟩ := inv.buckets LOG_TYPE.LOG_DECOP
    refine ⟨_, _, _, vlog_file_close_open inv hopen hm ho hd, ?_, inv.texts, ?_⟩
    · intro ty
      exact ⟨[], by cases ty <;> exact binv_nil _ _⟩
    · intro _ ty
      cases ty <;> rfl

theorem inv_obu_count {s : State} (inv : Inv s) (c : Nat) : Inv { s with obu_count := c } :=
  ⟨inv.buckets, inv.texts, inv.closed⟩

theorem inv_obu {s s2 : State} (inv : Inv s) {obu : OBU} {t0 t1 : Nat} {alloc : Bool} {r : Int}
    (h : vlog_obu s obu t0 t1 alloc = some (s2, r)) : Inv s2 := by
  unfold vlog_obu at h
  split at h
  · cases h
    exact inv
  · simp only at h
    split at h
    · cases h
    · split at h
      · cases h
      · obtain ⟨s3, r3, h3, hinv⟩ := inv_print (inv_obu_count inv _) LOG_TYPE.LOG_OBU
          s.obu_count (String.mk ‹List Char›) alloc
        rw [h3] at h
        cases h
        exact hinv

theorem inv_step {s s2 : State} (inv : Inv s) {c : Call} (h : step s c = some s2) : Inv s2 := by
  cases c with
  | file_open name e r st =>
    simp only [step, Option.some.injEq] at h
    rw [← h]
    exact inv_open inv name e r st
  | file_close =>
    obtain ⟨s3, r, out, h3, hinv⟩ := inv_close inv
    simp only [step, h3, Option.map_some', Option.some.injEq] at h
    rw [← h]
    exact hinv
  | print ty key text alloc =>
    obtain ⟨s3, r, h3, hinv⟩ := inv_print inv ty key text alloc
    simp only [step, h3, Option.map_some', Option.some.injEq] at h
    rw [← h]
    exact hinv
  | obu o t0 t1 alloc =>
    simp only [step] at h
    cases ho : vlog_obu s o t0 t1 alloc with
    | none => rw [ho] at h; cases h
    | some p =>
      obtain ⟨s3, r⟩ := p
      rw [ho] at h
      simp only [Option.map_some', Option.some.injEq] at h
      rw [← h]
      exact inv_obu inv ho

theorem inv_run {s s2 : State} (inv : Inv s) {calls : List Call} (h : run s calls = some s2) :
    Inv s2 := by
  induction calls generalizing s with
  | nil =>
    simp only [run, Option.some.injEq] at h
    rw [← h]
    exact inv
  | cons c cs ih =>
    simp only [run] at h
    cases hc : step s c with
    | none => rw [hc] at h; cases h
    | some s1 =>
      rw [hc] at h
      exact ih (inv_step inv hc) h

theorem inv_reachable {s : State} (h : Reachable s) : Inv s := by
  obtain ⟨calls, hc⟩ := h
  exact inv_run inv_init hc

/-! ## The specified properties -/

theorem run_append (s : State) (c1 c2 : List Call) :
    run s (c1 ++ c2) = (run s c1).bind (fun s1 => run s1 c2) := by
  induction c1 generalizing s with
  | nil => rfl
  | cons c cs ih =>
    simp only [List.cons_append, run]
    cases step s c with
    | none => rfl
    | some s1 => exact ih s1

theorem reachable_run {s s2 : State} (hs : Reachable s) {calls : List Call}
    (h : run s calls = some s2) : Reachable s2 := by
  obtain ⟨c0, h0⟩ := hs
  exact ⟨c0 ++ calls, by rw [run_append, h0]; exact h⟩

theorem run_print_calls {s : State} (inv : Inv s) (ps : List PrintArgs) :
    ∃ s2, run s (print_calls ps) = some s2 ∧ Inv s2 := by
  induction ps generalizing s with
  | nil => exact ⟨s, rfl, inv⟩
  | cons p ps ih =>
    obtain ⟨s1, r, h1, inv1⟩ := inv_print inv p.type p.key p.text p.alloc
    obtain ⟨s2, h2, inv2⟩ := ih inv1
    refine ⟨s2, ?_, inv2⟩
    simp only [print_calls, List.map_cons, run, step, h1, Option.map_some']
    exact h2

theorem bucket_sorted {s : State} (inv : Inv s) (ty : LOG_TYPE) :
    ∃ l, bucket s ty = some l ∧ List.Sorted (fun x y => x ≤ y) (l.map VLOG_DATA.key) := by
  obtain ⟨l, hl⟩ := inv.buckets ty
  refine ⟨cells s.heap l, bucket_eq hl, ?_⟩
  rw [cells_valid (isSeg_valid hl.seg)]
  exact hl.sorted

/-- C1: after any sequence of `vlog_print` calls made in a reachable state (in
particular on an open session), with any categories and keys in any order, the
chain of every category, which is what `vlog_file_close` walks and writes, exists
and has non-decreasing keys. -/
theorem vlog_print_keeps_keys_sorted (s : State) (hs : Reachable s) (ps : List PrintArgs) :
    ∃ s2, run s (print_calls ps) = some s2 ∧
      ∀ ty, ∃ l, bucket s2 ty = some l ∧
        List.Sorted (fun x y => x ≤ y) (l.map VLOG_DATA.key) := by
  obtain ⟨s2, h2, inv2⟩ := run_print_calls (inv_reachable hs) ps
  exact ⟨s2, h2, fun ty => bucket_sorted inv2 ty⟩

/-- Witness of C1: three calls in two categories, keys out of order. -/
theorem vlog_print_keeps_keys_sorted_witness :
    Reachable opened ∧
      ∃ s2, run opened (print_calls
          [⟨LOG_TYPE.LOG_OBU, 5, "a", true⟩, ⟨LOG_TYPE.LOG_MP4BOX, 1, "b", true⟩,
            ⟨LOG_TYPE.LOG_OBU, 7, "c", true⟩, ⟨LOG_TYPE.LOG_OBU, 6, "d", true⟩]) = some s2 ∧
        ∀ ty, ∃ l, bucket s2 ty = some l ∧
          List.Sorted (fun x y => x ≤ y) (l.map VLOG_DATA.key) :=
  ⟨⟨[open_ok], rfl⟩, vlog_print_keeps_keys_sorted opened ⟨[open_ok], rfl⟩ _⟩

/-- C2, at the input of the claim: after `vlog_print` with key 5 and then with key
2 in the same category, the chain holds the key-2 record only, and
`vlog_file_close` writes only its text; the key-5 record is gone. -/
theorem out_of_order_emission_loses_record :
    records (after [open_ok, Call.print LOG_TYPE.LOG_OBU 5 "five" true,
        Call.print LOG_TYPE.LOG_OBU 2 "two" true]) LOG_TYPE.LOG_OBU = some [(2, "two")] ∧
      (vlog_file_close (after [open_ok, Call.print LOG_TYPE.LOG_OBU 5 "five" true,
        Call.print LOG_TYPE.LOG_OBU 2 "two" true])).map (fun r => r.2) = some (0, "two") := by
  decide

/-- C3, at a failing input: the bucket holds the keys 5 and 7; after `vlog_print`
with key 2 it holds the new record followed by the key-7 record, without the
key-5 record that was first. -/
theorem head_insert_loses_first_record :
    records (after [open_ok, Call.print LOG_TYPE.LOG_OBU 5 "a" true,
        Call.print LOG_TYPE.LOG_OBU 7 "b" true]) LOG_TYPE.LOG_OBU = some [(5, "a"), (7, "b")] ∧
      records (after [open_ok, Call.print LOG_TYPE.LOG_OBU 5 "a" true,
        Call.print LOG_TYPE.LOG_OBU 7 "b" true, Call.print LOG_TYPE.LOG_OBU 2 "c" true])
        LOG_TYPE.LOG_OBU = some [(2, "c"), (7, "b")] := by
  decide

/-- C4, at a failing input: the bucket reached with the keys 5, 7, 2 holds the
records with keys 2 and 7; a further `vlog_print` with key 2 returns 0 and leaves
the bucket as it was, the new record "d" being on no chain. -/
theorem equal_key_insert_loses_record :
    records (after [open_ok, Call.print LOG_TYPE.LOG_OBU 5 "a" true,
        Call.print LOG_TYPE.LOG_OBU 7 "b" true, Call.print LOG_TYPE.LOG_OBU 2 "c" true])
        LOG_TYPE.LOG_OBU = some [(2, "c"), (7, "b")] ∧
      (vlog_print (after [open_ok, Call.print LOG_TYPE.LOG_OBU 5 "a" true,
        Call.print LOG_TYPE.LOG_OBU 7 "b" true, Call.print LOG_TYPE.LOG_OBU 2 "c" true])
        LOG_TYPE.LOG_OBU 2 "d" true).map (fun r => (records r.1 LOG_TYPE.LOG_OBU, r.2)) =
        some (some [(2, "c"), (7, "b")], 0) := by
  decide

theorem mem_cells {H : List VLOG_DATA} {l : List Nat} {a : Nat} {n : VLOG_DATA}
    (ha : a ∈ l) (hn : H[a]? = some n) : n ∈ cells H l :=
  List.mem_filterMap.mpr ⟨a, ha, hn⟩

theorem records_of_binv {s : State} {ty : LOG_TYPE} {l : List Nat}
    (inv : BInv s.heap (getHead s.log_file ty) ty l) :
    records s ty = some ((cells s.heap l).map record) := by
  unfold records
  rw [bucket_eq inv]
  rfl

/-- What the head update of `vlog_print` does in general: when the key is below
the key of the first record, the bucket afterwards is the new record followed by
the previous records without the first one. -/
theorem vlog_print_below_head (s : State) (hs : Reachable s) (hopen : is_vlog_file_open s ≠ 0)
    (ty : LOG_TYPE) (key : Nat) (text : String) (c : VLOG_DATA) (rest : List VLOG_DATA)
    (hb : bucket s ty = some (c :: rest)) (hlt : key < c.key) :
    ∃ s2, vlog_print s ty key text true = some (s2, 0) ∧
      records s2 ty = some ((key, text) :: rest.map record) := by
  have inv := inv_reachable hs
  obtain ⟨l, hl⟩ := inv.buckets ty
  rw [bucket_eq hl] at hb
  cases l with
  | nil => simp [cells] at hb
  | cons a l =>
    obtain ⟨_, cn, hcn, _⟩ := hl.seg
    rw [cells_cons l hcn] at hb
    simp only [Option.some.injEq, List.cons.injEq] at hb
    obtain ⟨hc, hrest⟩ := hb
    subst hc
    have hlt2 : (new_logdata ty key text).key < cn.key := by
      rw [new_logdata_key]; exact hlt
    obtain ⟨s2, h1, h2⟩ := link_head (new_logdata_type ty key text) hl hcn hlt2
    refine ⟨s2, by rw [vlog_print_alloc hopen]; exact h1, ?_⟩
    obtain ⟨hb2, _, ⟨m, hm, hmst⟩, hframe, _⟩ := h2
    rw [records_of_binv hb2, cells_cons l hm, List.map_cons, record_of_static hmst,
      record_new_logdata, ← hrest]
    congr 2
    exact records_frame hframe
      (fun b hb => isSeg_valid hl.seg b (List.mem_cons_of_mem a hb))

/-- C5: in a reachable state with the session open, a `vlog_print` call (whose
cell is allocated) with a key greater than or equal to the keys of all records
of the bucket returns 0 and leaves the previous records, in their order,
followed by the new record; for the empty bucket the new record is the only
one. -/
theorem vlog_print_appends_at_tail (s : State) (hs : Reachable s)
    (hopen : is_vlog_file_open s ≠ 0) (ty : LOG_TYPE) (key : Nat) (text : String)
    (l : List VLOG_DATA) (hb : bucket s ty = some l) (hkey : ∀ n ∈ l, n.key ≤ key) :
    ∃ s2, vlog_print s ty key text true = some (s2, 0) ∧
      records s2 ty = some (l.map record ++ [(key, text)]) := by
  have inv := inv_reachable hs
  obtain ⟨l0, hl0⟩ := inv.buckets ty
  rw [bucket_eq hl0] at hb
  simp only [Option.some.injEq] at hb
  subst hb
  have hvalid := isSeg_valid hl0.seg
  have hk : ∀ a ∈ l0, keyAt s.heap a ≤ key := by
    intro a ha
    obtain ⟨n, hn⟩ := hvalid a ha
    rw [keyAt_eq hn]
    exact hkey n (mem_cells ha hn)
  obtain ⟨s2, l2, h1, post, _⟩ := vlog_print_open inv hopen hl0 key text
  refine ⟨s2, h1, ?_⟩
  obtain ⟨hb2, _, ⟨m, hm, hmst⟩, hframe, _, _, _, _, _, hstep⟩ := post
  rw [new_logdata_key] at hstep
  have hl2 : l2 = l0 ++ [s.heap.length] := by
    rcases hstep with ⟨c, rest, hl, hlt, _⟩ | ⟨_, c, rest, hl, _, u, hu, hlt⟩ |
      ⟨A, B, hl, hl2, _, hB⟩
    · have := hk c (by rw [hl]; exact List.mem_cons_self c rest)
      omega
    · have := hk u (by rw [hl]; exact List.mem_cons_of_mem c hu)
      omega
    · cases B with
      | nil =>
        rw [hl2, hl]
        simp
      | cons b B =>
        have h1 := hB b (List.mem_cons_self b B)
        have h2 := hk b (by rw [hl]; exact List.mem_append_right _ (List.mem_cons_self b B))
        omega
  subst hl2
  rw [records_of_binv hb2, cells_append, List.map_append, records_frame hframe hvalid,
    cells_cons [] hm]
  simp [cells, record_of_static hmst, record_new_logdata]

/-- Witness of C5: the bucket holds the keys 1 and 3 and the call has key 3. -/
theorem vlog_print_appends_at_tail_witness :
    Reachable (after [open_ok, Call.print LOG_TYPE.LOG_OBU 1 "a" true,
        Call.print LOG_TYPE.LOG_OBU 3 "b" true]) ∧
      ∃ s2, vlog_print (after [open_ok, Call.print LOG_TYPE.LOG_OBU 1 "a" true,
          Call.print LOG_TYPE.LOG_OBU 3 "b" true]) LOG_TYPE.LOG_OBU 3 "c" true = some (s2, 0) ∧
        records s2 LOG_TYPE.LOG_OBU = some ([(1, "a"), (3, "b")] ++ [(3, "c")]) :=
  ⟨⟨[open_ok, Call.print LOG_TYPE.LOG_OBU 1 "a" true,
      Call.print LOG_TYPE.LOG_OBU 3 "b" true], rfl⟩,
    vlog_print_appends_at_tail _ ⟨[open_ok, Call.print LOG_TYPE.LOG_OBU 1 "a" true,
      Call.print LOG_TYPE.LOG_OBU 3 "b" true], rfl⟩ (by decide) LOG_TYPE.LOG_OBU 3 "c"
      [{ log_type := LOG_TYPE.LOG_OBU, key := 1, prev := Ptr.null, next := Ptr.addr 1,
          is_longtext := false, ltext := none, text := "a" },
        { log_type := LOG_TYPE.LOG_OBU, key := 3, prev := Ptr.addr 0, next := Ptr.null,
          is_longtext := false, ltext := none, text := "b" }] (by decide) (by decide)⟩

/-- C7: in a reachable state, a `vlog_print` call of category `A` returns and
leaves the chain of every other category `B` as it was, cell for cell. -/
theorem vlog_print_other_bucket_unchanged (s : State) (hs : Reachable s) (A B : LOG_TYPE)
    (hAB : B ≠ A) (key : Nat) (text : String) (alloc : Bool) :
    ∃ s2 r, vlog_print s A key text alloc = some (s2, r) ∧ bucket s2 B = bucket s B := by
  have inv := inv_reachable hs
  by_cases hopen : is_vlog_file_open s = 0
  · exact ⟨s, -1, vlog_print_closed hopen A key text alloc, rfl⟩
  · cases alloc with
    | false => exact ⟨s, 0, vlog_print_no_alloc hopen A key text, rfl⟩
    | true =>
      obtain ⟨l, hl⟩ := inv.buckets A
      obtain ⟨s2, l2, h1, post, _⟩ := vlog_print_open inv hopen hl key text
      refine ⟨s2, 0, h1, ?_⟩
      obtain ⟨_, _, _, hframe, hheads, _⟩ := post
      obtain ⟨lB, hlB⟩ := inv.buckets B
      obtain ⟨hB2, hcells⟩ := binv_frame hlB hframe hAB
      rw [← hheads B hAB] at hB2
      rw [bucket_eq hB2, bucket_eq hlB, hcells]

/-- Witness of C7: a record-trace insertion next to a container-trace bucket. -/
theorem vlog_print_other_bucket_unchanged_witness :
    Reachable (after [open_ok, Call.print LOG_TYPE.LOG_MP4BOX 4 "box" true,
        Call.print LOG_TYPE.LOG_OBU 5 "a" true]) ∧
      LOG_TYPE.LOG_MP4BOX ≠ LOG_TYPE.LOG_OBU ∧
      ∃ s2 r, vlog_print (after [open_ok, Call.print LOG_TYPE.LOG_MP4BOX 4 "box" true,
          Call.print LOG_TYPE.LOG_OBU 5 "a" true]) LOG_TYPE.LOG_OBU 2 "b" true = some (s2, r) ∧
        bucket s2 LOG_TYPE.LOG_MP4BOX =
          bucket (after [open_ok, Call.print LOG_TYPE.LOG_MP4BOX 4 "box" true,
            Call.print LOG_TYPE.LOG_OBU 5 "a" true]) LOG_TYPE.LOG_MP4BOX :=
  ⟨⟨[open_ok, Call.print LOG_TYPE.LOG_MP4BOX 4 "box" true,
      Call.print LOG_TYPE.LOG_OBU 5 "a" true], rfl⟩, by decide,
    vlog_print_other_bucket_unchanged _ ⟨[open_ok, Call.print LOG_TYPE.LOG_MP4BOX 4 "box" true,
      Call.print LOG_TYPE.LOG_OBU 5 "a" true], rfl⟩ LOG_TYPE.LOG_OBU LOG_TYPE.LOG_MP4BOX
      (by decide) 2 "b" true⟩

/-- The part of C8 that holds: in a reachable state that reports closed, every
bucket is empty. -/
theorem closed_buckets_empty (s : State) (hs : Reachable s) (h : is_vlog_file_open s = 0)
    (ty : LOG_TYPE) : bucket s ty = some [] := by
  have := (inv_reachable hs).closed h ty
  unfold bucket
  rw [this]
  rfl

/-- C8, at a failing input: after `vlog_file_open("t.log")` from the initial state
with `fopen` returning no stream, the call has returned 0, `is_vlog_file_open`
reports the session closed, and the name `t.log` is bound with `is_open` set. -/
theorem failed_fopen_leaves_name_bound :
    (vlog_file_open init "t.log" false true none).2 = 0 ∧
      is_vlog_file_open (vlog_file_open init "t.log" false true none).1 = 0 ∧
      (vlog_file_open init "t.log" false true none).1.log_file.file_name = "t.log" ∧
      (vlog_file_open init "t.log" false true none).1.log_file.is_open = true ∧
      Reachable (vlog_file_open init "t.log" false true none).1 :=
  ⟨by decide, by decide, by decide, by decide,
    ⟨[Call.file_open "t.log" false true none], rfl⟩⟩

/-- C9: when `is_vlog_file_open` reports the session closed, `vlog_print` and
`vlog_obu` return -1 and the state, with its buckets and the counter
`obu_count`, is the state before the call. -/
theorem emit_while_closed (s : State) (h : is_vlog_file_open s = 0) (ty : LOG_TYPE)
    (key : Nat) (text : String) (alloc : Bool) (obu : OBU) (t0 t1 : Nat) (alloc2 : Bool) :
    vlog_print s ty key text alloc = some (s, -1) ∧
      vlog_obu s obu t0 t1 alloc2 = some (s, -1) := by
  refine ⟨vlog_print_closed h ty key text alloc, ?_⟩
  unfold vlog_obu
  rw [if_pos h]

/-- Witness of C9: the initial state, which is closed. -/
theorem emit_while_closed_witness :
    is_vlog_file_open init = 0 ∧
      vlog_print init LOG_TYPE.LOG_OBU 0 "x" true = some (init, -1) ∧
      vlog_obu init OBU.temporal_delimiter 0 0 true = some (init, -1) :=
  ⟨by decide, emit_while_closed init (by decide) LOG_TYPE.LOG_OBU 0 "x" true
    OBU.temporal_delimiter 0 0 true⟩

/-- C11: on a session that is open and bound to `p`, `vlog_file_open(p)` returns 0
and leaves the whole state as it was, whatever the file system would answer; and
when a first `vlog_file_open(p)` has returned 0, a second one returns 0 and
leaves the state of the first, whose buckets are empty if the first call was
not itself such a repeated call. -/
theorem vlog_file_open_same_destination (s : State) (p : String)
    (e1 r1 e2 r2 : Bool) (st1 st2 : Option FILE) :
    (is_vlog_file_open s ≠ 0 → p = s.log_file.file_name →
        vlog_file_open s p e1 r1 st1 = (s, 0)) ∧
      ((vlog_file_open s p e1 r1 st1).2 = 0 →
        vlog_file_open (vlog_file_open s p e1 r1 st1).1 p e2 r2 st2 =
          ((vlog_file_open s p e1 r1 st1).1, 0) ∧
        (¬ (s.log_file.is_open = true ∧ p = s.log_file.file_name) →
          ∀ ty, bucket (vlog_file_open s p e1 r1 st1).1 ty = some [])) := by
  constructor
  · intro hopen hp
    have ho := ((open_iff s).mp hopen).2
    unfold vlog_file_open
    rw [if_pos (by simp [ho, hp])]
  · intro hret
    by_cases hsame : s.log_file.is_open = true ∧ p = s.log_file.file_name
    · have h1 : vlog_file_open s p e1 r1 st1 = (s, 0) := by
        unfold vlog_file_open
        rw [if_pos (by simp [hsame.1, hsame.2.symm])]
      rw [h1]
      refine ⟨?_, fun h => absurd hsame h⟩
      unfold vlog_file_open
      rw [if_pos (by simp [hsame.1, hsame.2.symm])]
    · have hc : ¬ (s.log_file.is_open && decide (p = s.log_file.file_name)) = true := by
        simpa using hsame
      by_cases hrem : (e1 && !r1) = true
      · exfalso
        unfold vlog_file_open at hret
        rw [if_neg hc, if_pos hrem] at hret
        simp at hret
      · have h1 : vlog_file_open s p e1 r1 st1 =
            ({ s with
                log_file :=
                  { f := st1, file_name := p, is_open := true,
                    head_obu := Ptr.null, head_mp4box := Ptr.null, head_decop := Ptr.null } },
              0) := by
          unfold vlog_file_open
          rw [if_neg hc, if_neg hrem]
        rw [h1]
        refine ⟨?_, fun _ ty => ?_⟩
        · unfold vlog_file_open
          simp
        · cases ty <;> rfl

/-- Witness of C11: an open session on `t.log` holding a record, and the two opens
in a row from the initial state. -/
theorem vlog_file_open_same_destination_witness :
    (is_vlog_file_open (after [open_ok, Call.print LOG_TYPE.LOG_OBU 1 "a" true]) ≠ 0 →
        "t.log" = (after [open_ok, Call.print LOG_TYPE.LOG_OBU 1 "a" true]).log_file.file_name →
        vlog_file_open (after [open_ok, Call.print LOG_TYPE.LOG_OBU 1 "a" true]) "t.log"
          true false none = (after [open_ok, Call.print LOG_TYPE.LOG_OBU 1 "a" true], 0)) ∧
      ((vlog_file_open (after [open_ok, Call.print LOG_TYPE.LOG_OBU 1 "a" true]) "t.log"
          true false none).2 = 0 →
        vlog_file_open (vlog_file_open (after [open_ok, Call.print LOG_TYPE.LOG_OBU 1 "a" true])
          "t.log" true false none).1 "t.log" false true none =
          ((vlog_file_open (after [open_ok, Call.print LOG_TYPE.LOG_OBU 1 "a" true]) "t.log"
            true false none).1, 0) ∧
        (¬ ((after [open_ok, Call.print LOG_TYPE.LOG_OBU 1 "a" true]).log_file.is_open = true ∧
            "t.log" =
              (after [open_ok, Call.print LOG_TYPE.LOG_OBU 1 "a" true]).log_file.file_name) →
          ∀ ty, bucket (vlog_file_open (after [open_ok, Call.print LOG_TYPE.LOG_OBU 1 "a" true])
            "t.log" true false none).1 ty = some [])) :=
  vlog_file_open_same_destination (after [open_ok, Call.print LOG_TYPE.LOG_OBU 1 "a" true])
    "t.log" true false false true none none

/-- C12: a `vlog_file_open(p2)` call that returns 0 and is not a repeated open on
the bound destination leaves every bucket empty and the session bound to
`p2`. -/
theorem vlog_file_open_resets_buckets (s : State) (p2 : String) (file_exists remove_ok : Bool)
    (stream : Option FILE)
    (hret : (vlog_file_open s p2 file_exists remove_ok stream).2 = 0)
    (hnew : ¬ (s.log_file.is_open = true ∧ p2 = s.log_file.file_name)) :
    (∀ ty, bucket (vlog_file_open s p2 file_exists remove_ok stream).1 ty = some []) ∧
      (vlog_file_open s p2 file_exists remove_ok stream).1.log_file.file_name = p2 := by
  have hc : ¬ (s.log_file.is_open && decide (p2 = s.log_file.file_name)) = true := by
    simpa using hnew
  by_cases hrem : (file_exists && !remove_ok) = true
  · exfalso
    unfold vlog_file_open at hret
    rw [if_neg hc, if_pos hrem] at hret
    simp at hret
  · have h1 : vlog_file_open s p2 file_exists remove_ok stream =
        ({ s with
            log_file :=
              { f := stream, file_name := p2, is_open := true,
                head_obu := Ptr.null, head_mp4box := Ptr.null, head_decop := Ptr.null } },
          0) := by
      unfold vlog_file_open
      rw [if_neg hc, if_neg hrem]
    rw [h1]
    exact ⟨fun ty => by cases ty <;> rfl, rfl⟩

/-- Witness of C12: `open("t.log")`, three emits, `open("u.log")`. -/
theorem vlog_file_open_resets_buckets_witness :
    (∀ ty, bucket (vlog_file_open (after [open_ok, Call.print LOG_TYPE.LOG_OBU 0 "a" true,
        Call.print LOG_TYPE.LOG_MP4BOX 1 "b" true, Call.print LOG_TYPE.LOG_OBU 2 "c" true])
        "u.log" false true (some { fd := 4 })).1 ty = some []) ∧
      (vlog_file_open (after [open_ok, Call.print LOG_TYPE.LOG_OBU 0 "a" true,
        Call.print LOG_TYPE.LOG_MP4BOX 1 "b" true, Call.print LOG_TYPE.LOG_OBU 2 "c" true])
        "u.log" false true (some { fd := 4 })).1.log_file.file_name = "u.log" :=
  vlog_file_open_resets_buckets
    (after [open_ok, Call.print LOG_TYPE.LOG_OBU 0 "a" true,
      Call.print LOG_TYPE.LOG_MP4BOX 1 "b" true, Call.print LOG_TYPE.LOG_OBU 2 "c" true])
    "u.log" false true (some { fd := 4 }) (by decide) (by decide)

/-- C13, at failing inputs: when `fopen` returns no stream, `vlog_file_open` returns
0, for a file that did not exist, for one that existed and was removed, and on
a session that was open on another destination. -/
theorem vlog_file_open_ignores_fopen_failure :
    (vlog_file_open init "t.log" false true none).2 = 0 ∧
      (vlog_file_open init "t.log" true true none).2 = 0 ∧
      (vlog_file_open opened "u.log" false true none).2 = 0 := by
  decide

/-- C14 as stated fails: on a session open on `t.log`, `vlog_file_open("u.log")`
with `remove` failing returns -1 and the session is open afterwards. -/
theorem failed_open_leaves_session_open :
    (vlog_file_open opened "u.log" true false (some { fd := 4 })).2 = -1 ∧
      is_vlog_file_open (vlog_file_open opened "u.log" true false (some { fd := 4 })).1 = 1 := by
  decide

/-- C14, amended: when `vlog_file_open` returns an error the state is the state
before the call; so a session that was closed is closed afterwards, and one
that was open is still open. -/
theorem vlog_file_open_error_keeps_state (s : State) (p : String) (file_exists remove_ok : Bool)
    (stream : Option FILE)
    (herr : (vlog_file_open s p file_exists remove_ok stream).2 ≠ 0) :
    (vlog_file_open s p file_exists remove_ok stream).1 = s ∧
      is_vlog_file_open (vlog_file_open s p file_exists remove_ok stream).1 =
        is_vlog_file_open s := by
  have h1 : (vlog_file_open s p file_exists remove_ok stream).1 = s := by
    unfold vlog_file_open at herr ⊢
    split
    · rfl
    · split
      · rfl
      · rename_i h1 h2
        rw [if_neg h1, if_neg h2] at herr
        exact absurd rfl herr
  rw [h1]
  exact ⟨rfl, rfl⟩

/-- Witness of C14, amended: from the initial state, the file exists and cannot be
removed. -/
theorem vlog_file_open_error_keeps_state_witness :
    (vlog_file_open init "t.log" true false (some { fd := 3 })).1 = init ∧
      is_vlog_file_open (vlog_file_open init "t.log" true false (some { fd := 3 })).1 =
        is_vlog_file_open init :=
  vlog_file_open_error_keeps_state init "t.log" true false (some { fd := 3 }) (by decide)

/-! ## The markers and the line formatter -/

/-- C15: the text written and the value returned by `write_prefix` and
`write_postfix` for the three categories, and nothing written with 0 returned
for any other category value. -/
theorem write_prefix_postfix_texts :
    write_prefix (some LOG_TYPE.LOG_OBU) = ("#0\n", 3) ∧
      write_prefix (some LOG_TYPE.LOG_MP4BOX) = ("#1\n", 3) ∧
      write_prefix (some LOG_TYPE.LOG_DECOP) = ("$0\n", 3) ∧
      write_prefix none = ("", 0) ∧
      write_postfix (some LOG_TYPE.LOG_OBU) = ("##\n", 3) ∧
      write_postfix (some LOG_TYPE.LOG_MP4BOX) = ("##\n", 3) ∧
      write_postfix (some LOG_TYPE.LOG_DECOP) = ("$$\n", 3) ∧
      write_postfix none = ("", 0) ∧
      (∀ ty, (( write_prefix (some ty)).1.length = ( write_prefix (some ty)).2) ∧
        (( write_postfix (some ty)).1.length = ( write_postfix (some ty)).2)) :=
  ⟨rfl, rfl, rfl, rfl, rfl, rfl, rfl, rfl, fun ty => by cases ty <;> exact ⟨rfl, rfl⟩⟩

theorem indent_text_succ (d : Nat) : indent_text (d + 1) = "  " ++ indent_text d := by
  unfold indent_text
  rw [List.replicate_succ, join_cons]

theorem indent_loop_eq (i : Nat) (log : String) (ret : Nat) :
    indent_loop i log ret = (log ++ indent_text i, ret + 2 * i) := by
  induction i generalizing log ret with
  | zero => simp [indent_loop, indent_text, String.join]
  | succ i ih =>
    rw [indent_loop, ih, indent_text_succ, String.append_assoc]
    congr 1
    omega

theorem indent_text_length (d : Nat) : (indent_text d).length = 2 * d := by
  induction d with
  | zero => rfl
  | succ d ih =>
    rw [indent_text_succ, String.length_append, ih]
    have : "  ".length = 2 := rfl
    omega

/-- C16: for an indent depth `d` below 256 and a formatted text `s`,
`write_yaml_form` writes `d` copies of two spaces, then `s`, then a newline,
and returns `2 * d + length s + 1`, the number of characters written. -/
theorem write_yaml_form_spec (d : Nat) (s : String) (hd : d < 256) :
    write_yaml_form d s = (String.join (List.replicate d "  ") ++ s ++ "\n",
      2 * d + s.length + 1) ∧
      (write_yaml_form d s).1.length = (write_yaml_form d s).2 := by
  have h : write_yaml_form d s = (indent_text d ++ s ++ "\n", 2 * d + s.length + 1) := by
    unfold write_yaml_form
    simp only [Nat.mod_eq_of_lt hd, indent_loop_eq, Nat.add_sub_cancel, String.empty_append,
      Nat.zero_add]
  refine ⟨h, ?_⟩
  rw [h]
  simp only [String.length_append, indent_text_length]
  rfl

/-- Witness of C16: depth 2 and the text of a codec line. -/
theorem write_yaml_form_spec_witness :
    write_yaml_form 2 "codec_id: 5" =
        (String.join (List.replicate 2 "  ") ++ "codec_id: 5" ++ "\n",
          2 * 2 + "codec_id: 5".length + 1) ∧
      (write_yaml_form 2 "codec_id: 5").1.length = (write_yaml_form 2 "codec_id: 5").2 :=
  write_yaml_form_spec 2 "codec_id: 5" (by decide)

/-! ## The shape of a rendered block -/

theorem advance_eq (log : String) (w : String × Nat) (h : w.1.length = w.2) :
    advance log w = log ++ w.1 := by
  unfold advance
  have hl : log.length + w.2 = (log.data ++ w.1.data).length := by
    rw [List.length_append, ← h]
    rfl
  rw [hl, List.take_length]
  rfl

theorem write_yaml_form_eq (d : Nat) (s : String) :
    write_yaml_form d s =
      (indent_text (d % 256) ++ s ++ "\n", 2 * (d % 256) + s.length + 1) := by
  unfold write_yaml_form
  simp only [indent_loop_eq, Nat.add_sub_cancel, String.empty_append, Nat.zero_add]

theorem yaml_eq (log : String) (d : Nat) (s : String) :
    yaml log d s = log ++ (indent_text (d % 256) ++ s ++ "\n") := by
  unfold yaml
  rw [advance_eq]
  · rw [write_yaml_form_eq]
  · rw [write_yaml_form_eq]
    simp only [String.length_append, indent_text_length]
    rfl

theorem start_eq : start = "#0\n" := by
  decide

theorem finish_eq (log : String) : finish log = log ++ "##\n" :=
  rfl

theorem sw_refl (p : String) : StartsWith p p :=
  ⟨"", by simp⟩

theorem sw_append {p x : String} (h : StartsWith p x) (y : String) : StartsWith p (x ++ y) := by
  obtain ⟨r, hr⟩ := h
  exact ⟨r ++ y, by rw [hr, String.append_assoc]⟩

theorem sw_yaml {p log : String} (d : Nat) (s : String) (h : StartsWith p log) :
    StartsWith p (yaml log d s) := by
  rw [yaml_eq]
  exact sw_append h _

theorem sw_finish {p log : String} (h : StartsWith p log) : StartsWith p (finish log) :=
  sw_append h _

theorem sw_trans {p q x : String} (h1 : StartsWith p q) (h2 : StartsWith q x) :
    StartsWith p x := by
  obtain ⟨r, hr⟩ := h2
  rw [hr]
  exact sw_append h1 r

theorem sw_foldl {α : Type} {f : String → α → String} {p log : String} (l : List α)
    (hf : ∀ log x, StartsWith log (f log x)) (h : StartsWith p log) :
    StartsWith p (l.foldl f log) := by
  induction l generalizing log with
  | nil => exact h
  | cons a l ih => exact ih (sw_trans h (hf log a))

theorem sw_header (hdr : String) : StartsWith ("#0\n" ++ hdr ++ "\n") (yaml start 0 hdr) := by
  rw [yaml_eq, start_eq]
  refine ⟨"", ?_⟩
  simp [indent_text, String.join, String.append_assoc]

theorem write_layer_conf_sw (log : String) (lc : ChannelLayerConf) :
    StartsWith log (write_layer_conf log lc) := by
  unfold write_layer_conf
  dsimp only
  repeat (first | with_reducible exact sw_refl _ | with_reducible apply sw_yaml)

theorem write_demixing_matrix_sw (m : List Nat) (n i : Nat) (log : String) :
    StartsWith log (write_demixing_matrix m n i log) := by
  induction n generalizing i log with
  | zero => exact sw_refl _
  | succ n ih =>
    unfold write_demixing_matrix
    exact sw_trans (sw_yaml _ _ (sw_refl _)) (ih _ _)

theorem ew_finish (log : String) : EndsWith "##\n" (finish log) :=
  ⟨log, rfl⟩

theorem write_param_definition_sw (log : String) (d : Nat) (base : ParameterBase) :
    StartsWith log (write_param_definition log d base) := by
  unfold write_param_definition
  dsimp only
  repeat (first
    | with_reducible exact sw_refl _
    | with_reducible apply sw_yaml
    | with_reducible apply sw_foldl _ (fun log x => sw_yaml _ _ (sw_refl log))
    | split)

theorem write_element_mix_sw (log : String) (c : ElementMixRenderConf) :
    StartsWith log (write_element_mix log c) := by
  unfold write_element_mix
  dsimp only
  repeat (first
    | with_reducible exact sw_refl _
    | with_reducible apply sw_yaml
    | with_reducible apply sw_trans _ (write_param_definition_sw _ _ _))

theorem write_layout_sw (log : String) (l : LayoutLoudness) :
    StartsWith log (write_layout log l) := by
  unfold write_layout
  dsimp only
  repeat (first
    | with_reducible exact sw_refl _
    | with_reducible apply sw_yaml
    | with_reducible apply sw_foldl _ (fun log x => sw_yaml _ _ (sw_refl log))
    | split)

theorem write_sub_mix_sw (log : String) (m : SubMixPresentation) :
    StartsWith log (write_sub_mix log m) := by
  unfold write_sub_mix
  dsimp only
  repeat (first
    | with_reducible exact sw_refl _
    | with_reducible apply sw_yaml
    | with_reducible apply sw_trans _ (write_param_definition_sw _ _ _)
    | with_reducible apply sw_foldl _ write_element_mix_sw
    | with_reducible apply sw_foldl _ write_layout_sw)

theorem write_mix_gain_segment_sw (log : String) (mg : MixGainSegment) :
    StartsWith log (write_mix_gain_segment log mg) := by
  unfold write_mix_gain_segment
  dsimp only
  repeat (first
    | with_reducible exact sw_refl _
    | with_reducible apply sw_yaml
    | split)

theorem write_demixing_segment_sw (log : String) (m : DemixingSegment) :
    StartsWith log (write_demixing_segment log m) := by
  unfold write_demixing_segment
  dsimp only
  repeat (first | with_reducible exact sw_refl _ | with_reducible apply sw_yaml)

theorem write_sync_obj_sw (log : String) (o : SyncObj) :
    StartsWith log (write_sync_obj log o) := by
  unfold write_sync_obj
  dsimp only
  repeat (first | with_reducible exact sw_refl _ | with_reducible apply sw_yaml)

theorem write_magic_code_log_sw (idx : Nat) (o : IAMF_Version) :
    StartsWith ("#0\n" ++ ("MagicCodeOBU_" ++ toString idx ++ ":") ++ "\n")
      (write_magic_code_log idx o) := by
  unfold write_magic_code_log
  dsimp only
  repeat (first
    | with_reducible exact sw_header _
    | with_reducible apply sw_finish
    | with_reducible apply sw_yaml)

theorem write_codec_config_log_sw (idx : Nat) (o : IAMF_CodecConf) :
    StartsWith ("#0\n" ++ ("CodecConfigOBU_" ++ toString idx ++ ":") ++ "\n")
      (write_codec_config_log idx o) := by
  unfold write_codec_config_log
  dsimp only
  repeat (first
    | with_reducible exact sw_header _
    | with_reducible apply sw_finish
    | with_reducible apply sw_yaml
    | split)

theorem write_audio_element_log_sw (idx : Nat) (o : IAMF_Element) :
    StartsWith ("#0\n" ++ ("AudioElementOBU_" ++ toString idx ++ ":") ++ "\n")
      (write_audio_element_log idx o) := by
  unfold write_audio_element_log
  dsimp only
  repeat (first
    | with_reducible exact sw_header _
    | with_reducible apply sw_finish
    | with_reducible apply sw_yaml
    | with_reducible apply sw_trans _ (write_demixing_matrix_sw _ _ _ _)
    | with_reducible apply sw_foldl _ write_layer_conf_sw
    | with_reducible apply sw_foldl _ (fun log x => sw_yaml _ _ (sw_refl log))
    | split)

theorem write_mix_presentation_log_sw (idx : Nat) (o : IAMF_MixPresentation) :
    StartsWith ("#0\n" ++ ("MixPresentationOBU_" ++ toString idx ++ ":") ++ "\n")
      (write_mix_presentation_log idx o) := by
  unfold write_mix_presentation_log
  dsimp only
  repeat (first
    | with_reducible exact sw_header _
    | with_reducible apply sw_finish
    | with_reducible apply sw_yaml
    | with_reducible apply sw_foldl _ write_sub_mix_sw)

theorem write_parameter_block_log_sw (idx : Nat) (o : IAMF_Parameter) :
    StartsWith ("#0\n" ++ ("ParameterBlockOBU_" ++ toString idx ++ ":") ++ "\n")
      (write_parameter_block_log idx o) := by
  unfold write_parameter_block_log
  dsimp only
  repeat (first
    | with_reducible exact sw_header _
    | with_reducible apply sw_finish
    | with_reducible apply sw_yaml
    | with_reducible apply sw_foldl _ write_mix_gain_segment_sw
    | with_reducible apply sw_foldl _ write_demixing_segment_sw
    | with_reducible apply sw_foldl _ (fun log x => sw_yaml _ _ (sw_refl log))
    | split)

theorem write_audio_frame_log_sw (idx : Nat) (o : IAMF_Frame) (t0 t1 : Nat) :
    StartsWith ("#0\n" ++ ("AudioFrameOBU_" ++ toString idx ++ ":") ++ "\n")
      (write_audio_frame_log idx o t0 t1) := by
  unfold write_audio_frame_log
  dsimp only
  repeat (first
    | with_reducible exact sw_header _
    | with_reducible apply sw_finish
    | with_reducible apply sw_yaml)

theorem write_temporal_delimiter_block_log_sw (idx : Nat) :
    StartsWith ("#0\n" ++ ("TemporalDelimiterOBU_" ++ toString idx ++ ":") ++ "\n")
      (write_temporal_delimiter_block_log idx) := by
  unfold write_temporal_delimiter_block_log
  dsimp only
  repeat (first
    | with_reducible exact sw_header _
    | with_reducible apply sw_finish
    | with_reducible apply sw_yaml)

theorem write_sync_log_sw (idx : Nat) (o : IAMF_Sync) :
    StartsWith ("#0\n" ++ ("SyncOBU_" ++ toString idx ++ ":") ++ "\n")
      (write_sync_log idx o) := by
  unfold write_sync_log
  dsimp only
  repeat (first
    | with_reducible exact sw_header _
    | with_reducible apply sw_finish
    | with_reducible apply sw_yaml
    | with_reducible apply sw_foldl _ write_sync_obj_sw)

/-- The block rendered for a record of a recognised kind at the counter value `n`
begins with the start marker and the header line that carries `n`, ends with
the end marker, and the counter moves on by one. -/
theorem render_obu_shape (n : Nat) (o : OBU) (hrec : recognised o = true) (t0 t1 : Nat) :
    StartsWith ("#0\n" ++ header_line o n ++ "\n") (render_obu n o t0 t1).1 ∧
      EndsWith "##\n" (render_obu n o t0 t1).1 ∧
      (render_obu n o t0 t1).2 = (n + 1) % 2 ^ 64 := by
  cases o with
  | codec_config o =>
    exact ⟨write_codec_config_log_sw n o,
      (by unfold render_obu write_codec_config_log; exact ew_finish _), rfl⟩
  | audio_element o =>
    exact ⟨write_audio_element_log_sw n o,
      (by unfold render_obu write_audio_element_log; exact ew_finish _), rfl⟩
  | mix_presentation o =>
    exact ⟨write_mix_presentation_log_sw n o,
      (by unfold render_obu write_mix_presentation_log; exact ew_finish _), rfl⟩
  | parameter_block o =>
    exact ⟨write_parameter_block_log_sw n o,
      (by unfold render_obu write_parameter_block_log; exact ew_finish _), rfl⟩
  | temporal_delimiter =>
    exact ⟨write_temporal_delimiter_block_log_sw n,
      (by unfold render_obu write_temporal_delimiter_block_log; exact ew_finish _), rfl⟩
  | sync o =>
    exact ⟨write_sync_log_sw n o,
      (by unfold render_obu write_sync_log; exact ew_finish _), rfl⟩
  | magic_code o =>
    exact ⟨write_magic_code_log_sw n o,
      (by unfold render_obu write_magic_code_log; exact ew_finish _), rfl⟩
  | audio_frame o =>
    exact ⟨write_audio_frame_log_sw n o t0 t1,
      (by unfold render_obu write_audio_frame_log; exact ew_finish _), rfl⟩
  | other => cases hrec

/-! ## The emission counter -/

theorem vlog_print_fields {s s2 : State} {ty : LOG_TYPE} {key : Nat} {text : String}
    {alloc : Bool} {r : Int} (inv : Inv s)
    (h : vlog_print s ty key text alloc = some (s2, r)) :
    s2.obu_count = s.obu_count ∧ s2.log_file.f = s.log_file.f ∧
      s2.log_file.is_open = s.log_file.is_open ∧
      s2.log_file.file_name = s.log_file.file_name := by
  by_cases hopen : is_vlog_file_open s = 0
  · rw [vlog_print_closed hopen] at h
    cases h
    exact ⟨rfl, rfl, rfl, rfl⟩
  · cases alloc with
    | false =>
      rw [vlog_print_no_alloc hopen] at h
      cases h
      exact ⟨rfl, rfl, rfl, rfl⟩
    | true =>
      obtain ⟨l, hl⟩ := inv.buckets ty
      obtain ⟨s3, l2, h1, post, _⟩ := vlog_print_open inv hopen hl key text
      rw [h1] at h
      cases h
      obtain ⟨_, _, _, _, _, hf, hn, ho, hc, _⟩ := post
      exact ⟨hc, hf, ho, hn⟩

theorem vlog_file_open_obu_count (s : State) (p : String) (e r : Bool) (st : Option FILE) :
    (vlog_file_open s p e r st).1.obu_count = s.obu_count := by
  unfold vlog_file_open
  split
  · rfl
  · split <;> rfl

theorem vlog_file_close_obu_count {s s2 : State} {r : Int} {out : String}
    (h : vlog_file_close s = some (s2, r, out)) : s2.obu_count = s.obu_count := by
  unfold vlog_file_close at h
  split at h
  · split at h
    · cases h
    · cases h
      rfl
  · cases h
    rfl

/-- What `vlog_obu` does on an open session when the rendered text fits the buffer
and is a format that reads no argument: it inserts the text under the key that
is the counter before the call. -/
theorem vlog_obu_open {s : State} (hopen : is_vlog_file_open s ≠ 0) (o : OBU) (t0 t1 : Nat)
    (alloc : Bool) {text : List Char}
    (hfit : (render_obu s.obu_count o t0 t1).1.length + 1 ≤ LOG_BUFFER_SIZE)
    (hfmt : format_no_args (render_obu s.obu_count o t0 t1).1.data = some text) :
    vlog_obu s o t0 t1 alloc =
      vlog_print { s with obu_count := (render_obu s.obu_count o t0 t1).2 } LOG_TYPE.LOG_OBU
        s.obu_count (String.mk text) alloc := by
  unfold vlog_obu
  rw [if_neg hopen]
  simp only
  rw [if_neg (by omega), hfmt]

theorem vlog_obu_count {s s2 : State} {o : OBU} {t0 t1 : Nat} {alloc : Bool} {r : Int}
    (inv : Inv s) (hlt : s.obu_count < 2 ^ 64)
    (h : vlog_obu s o t0 t1 alloc = some (s2, r)) :
    s2.obu_count =
      (s.obu_count + if is_vlog_file_open s ≠ 0 ∧ recognised o = true then 1 else 0) %
        2 ^ 64 := by
  by_cases hopen : is_vlog_file_open s = 0
  · unfold vlog_obu at h
    rw [if_pos hopen] at h
    cases h
    rw [if_neg (fun hc => hc.1 hopen), Nat.add_zero, Nat.mod_eq_of_lt hlt]
  · unfold vlog_obu at h
    rw [if_neg hopen] at h
    simp only at h
    split at h
    · cases h
    · split at h
      · cases h
      · have hf := (vlog_print_fields (inv_obu_count inv _) h).1
        rw [hf]
        cases o <;> (simp [render_obu, recognised, hopen]; try omega)

theorem step_obu_count {s s2 : State} {c : Call} (inv : Inv s) (hlt : s.obu_count < 2 ^ 64)
    (h : step s c = some s2) :
    s2.obu_count = (s.obu_count + serialized s [c]) % 2 ^ 64 := by
  cases c with
  | file_open name e r st =>
    simp only [step, Option.some.injEq] at h
    rw [← h, vlog_file_open_obu_count]
    simp [serialized, step]
    omega
  | file_close =>
    simp only [step] at h
    cases hc : vlog_file_close s with
    | none => rw [hc] at h; cases h
    | some p =>
      obtain ⟨s3, r, out⟩ := p
      rw [hc] at h
      simp only [Option.map_some', Option.some.injEq] at h
      rw [← h, vlog_file_close_obu_count hc]
      simp [serialized, step, hc]
      omega
  | print ty key text alloc =>
    simp only [step] at h
    cases hc : vlog_print s ty key text alloc with
    | none => rw [hc] at h; cases h
    | some p =>
      obtain ⟨s3, r⟩ := p
      rw [hc] at h
      simp only [Option.map_some', Option.some.injEq] at h
      rw [← h, (vlog_print_fields inv hc).1]
      simp [serialized, step, hc]
      omega
  | obu o t0 t1 alloc =>
    simp only [step] at h
    cases hc : vlog_obu s o t0 t1 alloc with
    | none => rw [hc] at h; cases h
    | some p =>
      obtain ⟨s3, r⟩ := p
      rw [hc] at h
      simp only [Option.map_some', Option.some.injEq] at h
      rw [← h, vlog_obu_count inv hlt hc]
      simp [serialized, step, hc]

theorem serialized_cons (s : State) (c : Call) (cs : List Call) {s1 : State}
    (h : step s c = some s1) : serialized s (c :: cs) = serialized s [c] + serialized s1 cs := by
  simp [serialized, h]

theorem run_obu_count {s s2 : State} {calls : List Call} (inv : Inv s)
    (hlt : s.obu_count < 2 ^ 64) (h : run s calls = some s2) :
    s2.obu_count = (s.obu_count + serialized s calls) % 2 ^ 64 := by
  induction calls generalizing s with
  | nil =>
    simp only [run, Option.some.injEq] at h
    rw [← h]
    simp [serialized]
    omega
  | cons c cs ih =>
    simp only [run] at h
    cases hc : step s c with
    | none => rw [hc] at h; cases h
    | some s1 =>
      rw [hc] at h
      have h1 := step_obu_count inv hlt hc
      have hlt1 : s1.obu_count < 2 ^ 64 := by
        rw [h1]
        exact Nat.mod_lt _ (by norm_num)
      rw [ih (inv_step inv hc) hlt1 h, h1, serialized_cons s c cs hc]
      omega

theorem serialized_append {s s1 : State} (c1 c2 : List Call) (h : run s c1 = some s1) :
    serialized s (c1 ++ c2) = serialized s c1 + serialized s1 c2 := by
  induction c1 generalizing s with
  | nil =>
    simp only [run, Option.some.injEq] at h
    rw [h]
    simp [serialized]
  | cons c cs ih =>
    simp only [run] at h
    cases hc : step s c with
    | none => rw [hc] at h; cases h
    | some s0 =>
      rw [hc] at h
      rw [List.cons_append, serialized_cons s c (cs ++ c2) hc, serialized_cons s c cs hc, ih h]
      omega

theorem serialized_obu {s : State} (hopen : is_vlog_file_open s ≠ 0) {o : OBU}
    (hrec : recognised o = true) (t0 t1 : Nat) (alloc : Bool) :
    serialized s [Call.obu o t0 t1 alloc] = 1 := by
  simp only [serialized]
  rw [if_pos ⟨hopen, hrec⟩]
  cases step s (Call.obu o t0 t1 alloc) <;> rfl

/-- The part of C17 on the numbering, which holds: after any sequence of calls from
the initial state, during which fewer than `2 ^ 64 - 1` records were serialized,
the counter equals the number of
`vlog_obu` calls of a recognised kind made so far on an open session, whatever
their kinds and whatever opens and closes lie between them.  A further such
call, which makes that number one higher, renders the number of the calls
before it in the header line of its block, advances the counter by one and,
when the text fits the buffer and is a format without conversions, returns
after handing the text to `vlog_print` under that number as key. -/
theorem vlog_obu_key_is_emission_count (calls : List Call) (s : State)
    (hrun : run init calls = some s) (hopen : is_vlog_file_open s ≠ 0)
    (o : OBU) (hrec : recognised o = true) (t0 t1 : Nat) (alloc : Bool)
    (hlt : serialized init calls + 1 < 2 ^ 64) :
    s.obu_count = serialized init calls ∧
      serialized init (calls ++ [Call.obu o t0 t1 alloc]) = serialized init calls + 1 ∧
      StartsWith ("#0\n" ++ header_line o (serialized init calls) ++ "\n")
        (render_obu s.obu_count o t0 t1).1 ∧
      (render_obu s.obu_count o t0 t1).2 = serialized init calls + 1 ∧
      ∀ text, (render_obu s.obu_count o t0 t1).1.length + 1 ≤ LOG_BUFFER_SIZE →
        format_no_args (render_obu s.obu_count o t0 t1).1.data = some text →
        vlog_obu s o t0 t1 alloc =
            vlog_print { s with obu_count := serialized init calls + 1 } LOG_TYPE.LOG_OBU
              (serialized init calls) (String.mk text) alloc ∧
          ∃ s2 r, vlog_obu s o t0 t1 alloc = some (s2, r) ∧
            s2.obu_count = serialized init calls + 1 := by
  have inv := inv_run inv_init hrun
  have hcount : s.obu_count = serialized init calls := by
    have h := run_obu_count inv_init (by decide) hrun
    have h0 : init.obu_count = 0 := rfl
    rw [h, h0, Nat.zero_add]
    exact Nat.mod_eq_of_lt (by omega)
  obtain ⟨hsw, _, hnext⟩ := render_obu_shape s.obu_count o hrec t0 t1
  have hnext2 : (render_obu s.obu_count o t0 t1).2 = serialized init calls + 1 := by
    rw [hnext, hcount]
    exact Nat.mod_eq_of_lt hlt
  refine ⟨hcount, by rw [serialized_append calls _ hrun, serialized_obu hopen hrec],
    by rw [← hcount]; exact hsw, hnext2, ?_⟩
  intro text hfit hfmt
  have heq := vlog_obu_open hopen o t0 t1 alloc hfit hfmt
  rw [hnext2, hcount] at heq
  refine ⟨heq, ?_⟩
  obtain ⟨s2, r, h2, _⟩ := inv_print (inv_obu_count inv (serialized init calls + 1))
    LOG_TYPE.LOG_OBU (serialized init calls) (String.mk text) alloc
  refine ⟨s2, r, by rw [heq]; exact h2, ?_⟩
  exact (vlog_print_fields (inv_obu_count inv _) h2).1

set_option maxRecDepth 100000

/-- An instance: the third serialized record, after two records of other kinds, a
close, a call on the closed session and a new open. -/
theorem vlog_obu_key_is_emission_count_witness :
    serialized init sample_session = 2 ∧
      (after sample_session).obu_count = serialized init sample_session ∧
      serialized init (sample_session ++ [Call.obu OBU.temporal_delimiter 0 0 true]) =
        serialized init sample_session + 1 ∧
      StartsWith ("#0\n" ++ header_line OBU.temporal_delimiter (serialized init sample_session) ++
          "\n") (render_obu (after sample_session).obu_count OBU.temporal_delimiter 0 0).1 ∧
      (render_obu (after sample_session).obu_count OBU.temporal_delimiter 0 0).2 =
        serialized init sample_session + 1 ∧
      ∀ text,
        (render_obu (after sample_session).obu_count OBU.temporal_delimiter 0 0).1.length + 1 ≤
            LOG_BUFFER_SIZE →
        format_no_args
            (render_obu (after sample_session).obu_count OBU.temporal_delimiter 0 0).1.data =
            some text →
        vlog_obu (after sample_session) OBU.temporal_delimiter 0 0 true =
            vlog_print { after sample_session with
                obu_count := serialized init sample_session + 1 } LOG_TYPE.LOG_OBU
              (serialized init sample_session) (String.mk text) true ∧
          ∃ s2 r, vlog_obu (after sample_session) OBU.temporal_delimiter 0 0 true =
              some (s2, r) ∧
            s2.obu_count = serialized init sample_session + 1 :=
  ⟨by decide,
    vlog_obu_key_is_emission_count sample_session (after sample_session) rfl (by decide)
      OBU.temporal_delimiter rfl 0 0 true (by decide)⟩

/-! ## A session of `vlog_obu` calls -/

theorem format_no_args_id (l : List Char) (h : '%' ∉ l) : format_no_args l = some l := by
  induction l with
  | nil => rfl
  | cons c rest ih =>
    have hc : c ≠ '%' := fun hc => h (hc ▸ List.mem_cons_self c rest)
    have hrest : '%' ∉ rest := fun hr => h (List.mem_cons_of_mem c hr)
    unfold format_no_args
    split
    · rename_i heq
      cases heq
    · rename_i heq
      simp only [List.cons.injEq] at heq
      exact absurd heq.1 hc
    · rename_i heq
      simp only [List.cons.injEq] at heq
      exact absurd heq.1 hc
    · rename_i heq
      simp only [List.cons.injEq] at heq
      obtain ⟨h1, h2⟩ := heq
      subst h1 h2
      rw [ih hrest]
      rfl

/-- Appending at the tail, for a state that satisfies the invariant: a
`vlog_print` call with a key not below the keys of the records of its bucket
leaves these records followed by the new one, and the rest of the session as
it was. -/
theorem print_tail {s : State} (inv : Inv s) (hopen : is_vlog_file_open s ≠ 0)
    (ty : LOG_TYPE) (key : Nat) (text : String) (R : List (Nat × String))
    (hR : records s ty = some R) (hkey : ∀ r ∈ R, r.1 ≤ key) :
    ∃ s2, vlog_print s ty key text true = some (s2, 0) ∧
      records s2 ty = some (R ++ [(key, text)]) ∧ Inv s2 ∧
      (∀ ty2, ty2 ≠ ty → getHead s2.log_file ty2 = getHead s.log_file ty2) ∧
      is_vlog_file_open s2 ≠ 0 ∧ s2.obu_count = s.obu_count := by
  obtain ⟨l0, hl0⟩ := inv.buckets ty
  rw [records_of_binv hl0] at hR
  simp only [Option.some.injEq] at hR
  subst hR
  have hvalid := isSeg_valid hl0.seg
  have hk : ∀ a ∈ l0, keyAt s.heap a ≤ key := by
    intro a ha
    obtain ⟨n, hn⟩ := hvalid a ha
    rw [keyAt_eq hn]
    exact hkey (record n) (List.mem_map_of_mem record (mem_cells ha hn))
  obtain ⟨s2, l2, h1, post, inv2⟩ := vlog_print_open inv hopen hl0 key text
  refine ⟨s2, h1, ?_, inv2, ?_, ?_, ?_⟩
  · obtain ⟨hb2, _, ⟨m, hm, hmst⟩, hframe, _, _, _, _, _, hstep⟩ := post
    rw [new_logdata_key] at hstep
    have hl2 : l2 = l0 ++ [s.heap.length] := by
      rcases hstep with ⟨c, rest, hl, hlt, _⟩ | ⟨_, c, rest, hl, _, u, hu, hlt⟩ |
        ⟨A, B, hl, hl2, _, hB⟩
      · have := hk c (by rw [hl]; exact List.mem_cons_self c rest)
        omega
      · have := hk u (by rw [hl]; exact List.mem_cons_of_mem c hu)
        omega
      · cases B with
        | nil =>
          rw [hl2, hl]
          simp
        | cons b B =>
          have h1 := hB b (List.mem_cons_self b B)
          have h2 := hk b (by rw [hl]; exact List.mem_append_right _ (List.mem_cons_self b B))
          omega
    subst hl2
    rw [records_of_binv hb2, cells_append, List.map_append, records_frame hframe hvalid,
      cells_cons [] hm]
    simp [cells, record_of_static hmst, record_new_logdata]
  · exact post.2.2.2.2.1
  · obtain ⟨_, _, _, _, _, hf, _, ho, _, _⟩ := post
    intro hc
    apply hopen
    rw [closed_iff] at hc ⊢
    rw [← hf, ← ho]
    exact hc
  · exact post.2.2.2.2.2.2.2.2.1

theorem keyed_blocks_key_le (n : Nat) (os : List (OBU × Nat × Nat)) :
    ∀ r ∈ keyed_blocks n os, n ≤ r.1 := by
  induction os generalizing n with
  | nil => intro r hr; cases hr
  | cons o os ih =>
    intro r hr
    rcases List.mem_cons.mp hr with rfl | hr
    · exact Nat.le_refl _
    · have := ih (n + 1) r hr
      omega

/-- A run of `vlog_obu` calls of recognised kinds on an open session whose
container and decoder-operation buckets are empty and whose record bucket
holds keys not above the counter: every call returns, and the record bucket
grows by the rendered blocks under consecutive keys. -/
theorem obu_run (os : List (OBU × Nat × Nat)) :
    ∀ (s : State), Inv s → is_vlog_file_open s ≠ 0 →
      getHead s.log_file LOG_TYPE.LOG_MP4BOX = Ptr.null →
      getHead s.log_file LOG_TYPE.LOG_DECOP = Ptr.null →
      ∀ R, records s LOG_TYPE.LOG_OBU = some R → (∀ r ∈ R, r.1 ≤ s.obu_count) →
      (∀ o ∈ os, recognised o.1 = true) →
      (∀ b ∈ blocks s.obu_count os, b.length + 1 ≤ LOG_BUFFER_SIZE) →
      (∀ b ∈ blocks s.obu_count os, '%' ∉ b.data) →
      s.obu_count + os.length < 2 ^ 64 →
      ∃ s1, run s (obu_calls os) = some s1 ∧ Inv s1 ∧ is_vlog_file_open s1 ≠ 0 ∧
        getHead s1.log_file LOG_TYPE.LOG_MP4BOX = Ptr.null ∧
        getHead s1.log_file LOG_TYPE.LOG_DECOP = Ptr.null ∧
        records s1 LOG_TYPE.LOG_OBU = some (R ++ keyed_blocks s.obu_count os) ∧
        s1.obu_count = s.obu_count + os.length := by
  induction os with
  | nil =>
    intro s inv hopen hm hd R hR _ _ _ _ _
    exact ⟨s, rfl, inv, hopen, hm, hd, by simpa [keyed_blocks] using hR, rfl⟩
  | cons o os ih =>
    intro s inv hopen hm hd R hR hkeys hrec hfit hpct hwrap
    have hlen : s.obu_count + 1 + os.length < 2 ^ 64 := by
      simp only [List.length_cons] at hwrap
      omega
    have hb : (render_obu s.obu_count o.1 o.2.1 o.2.2).1 ∈ blocks s.obu_count (o :: os) := by
      simp [blocks, keyed_blocks]
    have hnext : (render_obu s.obu_count o.1 o.2.1 o.2.2).2 = s.obu_count + 1 := by
      rw [(render_obu_shape s.obu_count o.1 (hrec o (List.mem_cons_self o os)) _ _).2.2]
      exact Nat.mod_eq_of_lt (by omega)
    have heq := vlog_obu_open hopen o.1 o.2.1 o.2.2 true (hfit _ hb)
      (format_no_args_id _ (hpct _ hb))
    rw [hnext] at heq
    obtain ⟨s2, h2, hR2, inv2, hheads, hopen2, hc2⟩ :=
      print_tail (inv_obu_count inv (s.obu_count + 1)) hopen LOG_TYPE.LOG_OBU s.obu_count
        (String.mk (render_obu s.obu_count o.1 o.2.1 o.2.2).1.data) R hR hkeys
    have hc2b : s2.obu_count = s.obu_count + 1 := hc2
    have hstep : step s (Call.obu o.1 o.2.1 o.2.2 true) = some s2 := by
      simp only [step, heq, h2, Option.map_some']
    have hkeys2 : ∀ r ∈ R ++ [(s.obu_count, (render_obu s.obu_count o.1 o.2.1 o.2.2).1)],
        r.1 ≤ s2.obu_count := by
      intro r hr
      rw [hc2b]
      rcases List.mem_append.mp hr with hr | hr
      · have := hkeys r hr
        omega
      · rw [List.mem_singleton.mp hr]
        exact Nat.le_succ _
    have hblocks : ∀ b ∈ blocks s2.obu_count os, b ∈ blocks s.obu_count (o :: os) := by
      intro b hb2
      rw [hc2b] at hb2
      simp only [blocks, keyed_blocks, List.map_cons, List.mem_cons]
      exact Or.inr hb2
    obtain ⟨s1, h1, inv1, hopen1, hm1, hd1, hR1, hc1⟩ :=
      ih s2 inv2 hopen2 (by rw [hheads _ (by decide)]; exact hm)
        (by rw [hheads _ (by decide)]; exact hd) _ hR2 hkeys2
        (fun o2 ho2 => hrec o2 (List.mem_cons_of_mem o ho2))
        (fun b hb2 => hfit b (hblocks b hb2)) (fun b hb2 => hpct b (hblocks b hb2))
        (by rw [hc2b]; exact hlen)
    refine ⟨s1, ?_, inv1, hopen1, hm1, hd1, ?_, ?_⟩
    · simp only [obu_calls, List.map_cons, run, hstep]
      exact h1
    · rw [hR1, hc2b]
      simp [keyed_blocks]
    · rw [hc1, hc2b]
      simp only [List.length_cons]
      omega

theorem payload_of_records {l : List VLOG_DATA} {R : List (Nat × String)}
    (h : l.map record = R) : l.map payload = R.map Prod.snd := by
  rw [← h, List.map_map]
  rfl

/-- The bytes `vlog_file_close` writes when only the record bucket holds cells. -/
theorem vlog_file_close_obu_only {s : State} (inv : Inv s) (hopen : is_vlog_file_open s ≠ 0)
    (hm : getHead s.log_file LOG_TYPE.LOG_MP4BOX = Ptr.null)
    (hd : getHead s.log_file LOG_TYPE.LOG_DECOP = Ptr.null)
    {R : List (Nat × String)} (hR : records s LOG_TYPE.LOG_OBU = some R) :
    ∃ s2, vlog_file_close s = some (s2, 0, String.join (R.map Prod.snd)) := by
  obtain ⟨lo, ho⟩ := inv.buckets LOG_TYPE.LOG_OBU
  have hbm : BInv s.heap (getHead s.log_file LOG_TYPE.LOG_MP4BOX) LOG_TYPE.LOG_MP4BOX [] := by
    rw [hm]; exact binv_nil _ _
  have hbd : BInv s.heap (getHead s.log_file LOG_TYPE.LOG_DECOP) LOG_TYPE.LOG_DECOP [] := by
    rw [hd]; exact binv_nil _ _
  rw [records_of_binv ho] at hR
  simp only [Option.some.injEq] at hR
  have h := vlog_file_close_open inv hopen hbm ho hbd
  have hout : String.join ((cells s.heap [] ++ cells s.heap lo ++ cells s.heap []).map payload) =
      String.join (R.map Prod.snd) := by
    rw [← payload_of_records hR]
    simp [cells]
  rw [hout] at h
  exact ⟨_, h⟩

theorem blocks_shape (n : Nat) (os : List (OBU × Nat × Nat))
    (hrec : ∀ o ∈ os, recognised o.1 = true) :
    ∀ b ∈ blocks n os, StartsWith "#0\n" b ∧ EndsWith "##\n" b := by
  induction os generalizing n with
  | nil => intro b hb; cases hb
  | cons o os ih =>
    intro b hb
    simp only [blocks, keyed_blocks, List.map_cons, List.mem_cons] at hb
    rcases hb with rfl | hb
    · obtain ⟨h1, h2, _⟩ :=
        render_obu_shape n o.1 (hrec o (List.mem_cons_self o os)) o.2.1 o.2.2
      exact ⟨sw_trans ⟨header_line o.1 n ++ "\n", by rw [String.append_assoc]⟩ h1, h2⟩
    · exact ih (n + 1) (fun o2 ho2 => hrec o2 (List.mem_cons_of_mem o ho2)) b hb

/-- C18: on a reachable open session whose buckets are empty (as a successful open
leaves them), for every sequence of `vlog_obu` calls of recognised kinds whose
cells are allocated, whose rendered texts fit the buffer and hold no `%`, and
which does not exhaust the 64-bit counter: every call returns, the record
bucket holds the rendered blocks under consecutive keys in call order, and
`vlog_file_close` returns 0 and writes exactly these blocks in that order, each
of which begins with the start marker and ends with the end marker. -/
theorem obu_session_output (s0 : State) (hs : Reachable s0)
    (hopen : is_vlog_file_open s0 ≠ 0) (hempty : ∀ ty, getHead s0.log_file ty = Ptr.null)
    (os : List (OBU × Nat × Nat)) (hrec : ∀ o ∈ os, recognised o.1 = true)
    (hfit : ∀ b ∈ blocks s0.obu_count os, b.length + 1 ≤ LOG_BUFFER_SIZE)
    (hpct : ∀ b ∈ blocks s0.obu_count os, '%' ∉ b.data)
    (hwrap : s0.obu_count + os.length < 2 ^ 64) :
    ∃ s1 s2, run s0 (obu_calls os) = some s1 ∧
      records s1 LOG_TYPE.LOG_OBU = some (keyed_blocks s0.obu_count os) ∧
      vlog_file_close s1 = some (s2, 0, String.join (blocks s0.obu_count os)) ∧
      ∀ b ∈ blocks s0.obu_count os, StartsWith "#0\n" b ∧ EndsWith "##\n" b := by
  have inv := inv_reachable hs
  have hR0 : records s0 LOG_TYPE.LOG_OBU = some [] := by
    unfold records bucket
    rw [hempty]
    rfl
  obtain ⟨s1, h1, inv1, hopen1, hm1, hd1, hR1, _⟩ :=
    obu_run os s0 inv hopen (hempty _) (hempty _) [] hR0 (fun r hr => by cases hr) hrec hfit
      hpct hwrap
  rw [List.nil_append] at hR1
  obtain ⟨s2, h2⟩ := vlog_file_close_obu_only inv1 hopen1 hm1 hd1 hR1
  exact ⟨s1, s2, h1, hR1, h2, blocks_shape _ os hrec⟩

/-- Witness of C18: a temporal delimiter and then a codec configuration, on a
session that has just been opened. -/
theorem obu_session_output_witness :
    ∃ s1 s2,
      run opened (obu_calls [(OBU.temporal_delimiter, 0, 0), (OBU.codec_config opus_conf, 0, 0)]) =
        some s1 ∧
      records s1 LOG_TYPE.LOG_OBU = some (keyed_blocks opened.obu_count
        [(OBU.temporal_delimiter, 0, 0), (OBU.codec_config opus_conf, 0, 0)]) ∧
      vlog_file_close s1 = some (s2, 0, String.join (blocks opened.obu_count
        [(OBU.temporal_delimiter, 0, 0), (OBU.codec_config opus_conf, 0, 0)])) ∧
      ∀ b ∈ blocks opened.obu_count
          [(OBU.temporal_delimiter, 0, 0), (OBU.codec_config opus_conf, 0, 0)],
        StartsWith "#0\n" b ∧ EndsWith "##\n" b :=
  obu_session_output opened ⟨[open_ok], rfl⟩ (by decide) (fun ty => by cases ty <;> rfl)
    [(OBU.temporal_delimiter, 0, 0), (OBU.codec_config opus_conf, 0, 0)] (by decide)
    (by decide) (by decide) (by decide)

/-! ## The codec configuration block -/

/-- C19 as stated fails: `swapByteOrder` of the code "Opus" is 1332770163
(0x4F707573, the four characters in big-endian order), not 1633837135, and
the block of a codec configuration with that code and roll distance -4 has
the line `codec_id: 1332770163`. -/
theorem opus_codec_id_is_not_1633837135 :
    swapByteOrder opus_id = 1332770163 ∧ swapByteOrder opus_id ≠ 1633837135 ∧
      write_codec_config_log 1 opus_conf =
        "#0\nCodecConfigOBU_1:\n- codec_config_id: 0\n  codec_config:\n" ++
        "    codec_id: 1332770163\n    num_samples_per_frame: 960\n" ++
        "    roll_distance: -4\n    decoder_config_opus:\n      version: 0\n" ++
        "      output_channel_count: 0\n      pre_skip: 0\n      input_sample_rate: 0\n" ++
        "      output_gain: 0\n      mapping_family: 0\n##\n" := by
  decide

theorem opus_branch :
    ¬ (opus_id = get_4cc_codec_id 'm'.toNat 'p'.toNat '4'.toNat 'a'.toNat ∨
        opus_id = get_4cc_codec_id 'e'.toNat 's'.toNat 'd'.toNat 's'.toNat) ∧
      (opus_id = get_4cc_codec_id 'O'.toNat 'p'.toNat 'u'.toNat 's'.toNat ∨
        opus_id = get_4cc_codec_id 'd'.toNat 'O'.toNat 'p'.toNat 's'.toNat) := by
  decide

theorem opus_codec_id_text :
    indent_text (2 % 256) ++ ("codec_id: " ++ toString (swapByteOrder opus_id)) ++ "\n" =
      "    codec_id: 1332770163\n" := by
  decide

theorem roll_distance_text :
    indent_text (2 % 256) ++ ("roll_distance: " ++ toString (-4 : Int)) ++ "\n" =
      "    roll_distance: -4\n" := by
  decide

/-- C19, amended: for every index and every codec configuration whose `codec_id`
is the code "Opus" and whose `roll_distance` is -4, `swapByteOrder` of the
`codec_id` is 1332770163 and the block has, each on a line of its own, the
line `codec_id: 1332770163` and, after one line between them, the line
`roll_distance: -4`. -/
theorem codec_config_opus_lines (idx : Nat) (cc : IAMF_CodecConf)
    (hid : cc.codec_id = opus_id) (hroll : cc.roll_distance = -4) :
    swapByteOrder cc.codec_id = 1332770163 ∧
      ∃ pre mid post, EndsWith "\n" pre ∧ EndsWith "\n" mid ∧
        write_codec_config_log idx cc =
          pre ++ "    codec_id: 1332770163\n" ++ mid ++ "    roll_distance: -4\n" ++ post := by
  refine ⟨by rw [hid]; decide, ?_⟩
  refine ⟨start ++
      (indent_text (0 % 256) ++ ("CodecConfigOBU_" ++ toString idx ++ ":") ++ "\n") ++
      (indent_text (0 % 256) ++ ("- codec_config_id: " ++ toString cc.codec_conf_id) ++ "\n") ++
      (indent_text (1 % 256) ++ "codec_config:" ++ "\n"),
    indent_text (2 % 256) ++ ("num_samples_per_frame: " ++ toString cc.nb_samples_per_frame) ++
      "\n", ?_⟩
  have hsw : StartsWith (start ++
      (indent_text (0 % 256) ++ ("CodecConfigOBU_" ++ toString idx ++ ":") ++ "\n") ++
      (indent_text (0 % 256) ++ ("- codec_config_id: " ++ toString cc.codec_conf_id) ++ "\n") ++
      (indent_text (1 % 256) ++ "codec_config:" ++ "\n") ++ "    codec_id: 1332770163\n" ++
      (indent_text (2 % 256) ++ ("num_samples_per_frame: " ++ toString cc.nb_samples_per_frame) ++
        "\n") ++ "    roll_distance: -4\n") (write_codec_config_log idx cc) := by
    unfold write_codec_config_log
    dsimp only
    rw [hid, hroll, if_neg opus_branch.1, if_pos opus_branch.2]
    simp only [yaml_eq, finish_eq]
    rw [opus_codec_id_text, roll_distance_text]
    repeat (first | with_reducible exact sw_refl _ | with_reducible apply sw_append)
  obtain ⟨post, hpost⟩ := hsw
  exact ⟨post, ⟨_, (String.append_assoc _ _ _).symm⟩, ⟨_, rfl⟩, hpost⟩

/-- Witness of C19, amended: the configuration `opus_conf` at index 1. -/
theorem codec_config_opus_lines_witness :
    swapByteOrder opus_conf.codec_id = 1332770163 ∧
      ∃ pre mid post, EndsWith "\n" pre ∧ EndsWith "\n" mid ∧
        write_codec_config_log 1 opus_conf =
          pre ++ "    codec_id: 1332770163\n" ++ mid ++ "    roll_distance: -4\n" ++ post :=
  codec_config_opus_lines 1 opus_conf rfl rfl

/-! ## The text of a record depends on the counter -/

/-- C20 as stated fails: two `vlog_obu` calls in a row on an open session with the
same record (a temporal delimiter) and the same trim arguments insert two texts
that differ, the second carrying the index 1 in its header line. -/
theorem same_record_twice_differs :
    records (after [open_ok, Call.obu OBU.temporal_delimiter 0 0 true,
        Call.obu OBU.temporal_delimiter 0 0 true]) LOG_TYPE.LOG_OBU =
        some [(0, "#0\nTemporalDelimiterOBU_0:\n##\n"),
          (1, "#0\nTemporalDelimiterOBU_1:\n##\n")] ∧
      (render_obu 0 OBU.temporal_delimiter 0 0).1 ≠
        (render_obu 1 OBU.temporal_delimiter 0 0).1 := by
  decide

/-- C20, amended: two `vlog_obu` calls with the same record and the same trim
arguments, made on two open sessions (or at two moments of one) at which the
counter has the same value, either both have no defined outcome or hand the
same text under the same key to `vlog_print`, whatever else differs between the
two states. -/
theorem vlog_obu_text_determined (s1 s2 : State) (hopen1 : is_vlog_file_open s1 ≠ 0)
    (hopen2 : is_vlog_file_open s2 ≠ 0) (hcount : s1.obu_count = s2.obu_count)
    (o : OBU) (t0 t1 : Nat) (a1 a2 : Bool) :
    (vlog_obu s1 o t0 t1 a1 = none ∧ vlog_obu s2 o t0 t1 a2 = none) ∨
      ∃ key text c,
        vlog_obu s1 o t0 t1 a1 =
            vlog_print { s1 with obu_count := c } LOG_TYPE.LOG_OBU key text a1 ∧
          vlog_obu s2 o t0 t1 a2 =
            vlog_print { s2 with obu_count := c } LOG_TYPE.LOG_OBU key text a2 := by
  by_cases hfit : (render_obu s1.obu_count o t0 t1).1.length + 1 ≤ LOG_BUFFER_SIZE
  · cases hfmt : format_no_args (render_obu s1.obu_count o t0 t1).1.data with
    | none =>
      left
      constructor
      · unfold vlog_obu
        rw [if_neg hopen1]
        simp only
        rw [if_neg (by omega), hfmt]
      · unfold vlog_obu
        rw [if_neg hopen2, ← hcount]
        simp only
        rw [if_neg (by omega), hfmt]
    | some text =>
      right
      refine ⟨s1.obu_count, String.mk text, (render_obu s1.obu_count o t0 t1).2,
        vlog_obu_open hopen1 o t0 t1 a1 hfit hfmt, ?_⟩
      have h2 := vlog_obu_open hopen2 o t0 t1 a2 (by rw [← hcount]; exact hfit)
        (by rw [← hcount]; exact hfmt)
      rw [← hcount] at h2
      exact h2
  · left
    constructor
    · unfold vlog_obu
      rw [if_neg hopen1]
      simp only
      rw [if_pos (by omega)]
    · unfold vlog_obu
      rw [if_neg hopen2, ← hcount]
      simp only
      rw [if_pos (by omega)]

/-- Witness of C20, amended: a session just opened and a session that holds a
record of `vlog_print`, both at the counter value 0. -/
theorem vlog_obu_text_determined_witness :
    (vlog_obu opened (OBU.codec_config opus_conf) 0 0 true = none ∧
        vlog_obu (after [open_ok, Call.print LOG_TYPE.LOG_OBU 9 "x" true])
          (OBU.codec_config opus_conf) 0 0 true = none) ∨
      ∃ key text c,
        vlog_obu opened (OBU.codec_config opus_conf) 0 0 true =
            vlog_print { opened with obu_count := c } LOG_TYPE.LOG_OBU key text true ∧
          vlog_obu (after [open_ok, Call.print LOG_TYPE.LOG_OBU 9 "x" true])
              (OBU.codec_config opus_conf) 0 0 true =
            vlog_print { after [open_ok, Call.print LOG_TYPE.LOG_OBU 9 "x" true] with
                obu_count := c } LOG_TYPE.LOG_OBU key text true :=
  vlog_obu_text_determined opened (after [open_ok, Call.print LOG_TYPE.LOG_OBU 9 "x" true])
    (by decide) (by decide) rfl (OBU.codec_config opus_conf) 0 0 true true

/-! ## The four-character codes -/

theorem and_byte_mask (y k : Nat) : y &&& (2 ^ k * (2 ^ 8 - 1)) = 2 ^ k * (y / 2 ^ k % 2 ^ 8) := by
  apply Nat.eq_of_testBit_eq
  intro i
  rw [Nat.testBit_and, Nat.testBit_mul_pow_two, Nat.testBit_mul_pow_two, Nat.testBit_mod_two_pow,
    Nat.testBit_two_pow_sub_one, ← Nat.shiftRight_eq_div_pow, Nat.testBit_shiftRight]
  by_cases h : i ≥ k
  · have : k + (i - k) = i := by omega
    rw [this]
    cases Nat.testBit y i <;> simp
  · simp [h]

theorem or_add_shift (lo hi k : Nat) (h : lo < 2 ^ k) : lo ||| 2 ^ k * hi = lo + 2 ^ k * hi := by
  rw [Nat.or_comm, ← Nat.mul_add_lt_is_or h, Nat.add_comm]

/-- The function `swapByteOrder` reverses the four bytes of a 32-bit value. -/
theorem swapByteOrder_bytes (x : Nat) (hx : x < 2 ^ 32) :
    swapByteOrder x =
      x / 2 ^ 24 + 2 ^ 8 * (x / 2 ^ 16 % 2 ^ 8) + 2 ^ 16 * (x / 2 ^ 8 % 2 ^ 8) +
        2 ^ 24 * (x % 2 ^ 8) := by
  unfold swapByteOrder
  have c1 : (0x0000FF00 : Nat) = 2 ^ 8 * (2 ^ 8 - 1) := by norm_num
  have c2 : (0x00FF0000 : Nat) = 2 ^ 16 * (2 ^ 8 - 1) := by norm_num
  have e4 : (x <<< 24) % 2 ^ 32 = 2 ^ 24 * (x % 2 ^ 8) := by omega
  have e2 : (x >>> 8) / 2 ^ 8 % 2 ^ 8 = x / 2 ^ 16 % 2 ^ 8 := by omega
  have e3 : (x <<< 8) / 2 ^ 16 % 2 ^ 8 = x / 2 ^ 8 % 2 ^ 8 := by omega
  have e1 : x >>> 24 = x / 2 ^ 24 := by omega
  rw [c1, c2, and_byte_mask, and_byte_mask, e1, e2, e3, e4,
    or_add_shift _ _ 8 (by omega), or_add_shift _ _ 16 (by omega),
    or_add_shift _ _ 24 (by omega)]
  omega

theorem get_4cc_codec_id_bytes (a b c d : Nat) (ha : a < 256) (hb : b < 256) (hc : c < 256)
    (hd : d < 256) :
    get_4cc_codec_id a b c d = a + 2 ^ 8 * b + 2 ^ 16 * c + 2 ^ 24 * d := by
  unfold get_4cc_codec_id
  rw [Nat.shiftLeft_eq, Nat.shiftLeft_eq, Nat.shiftLeft_eq, Nat.mul_comm b, Nat.mul_comm c,
    Nat.mul_comm d, or_add_shift a b 8 (by omega), or_add_shift _ c 16 (by omega),
    or_add_shift _ d 24 (by omega)]
  omega

theorem swapByteOrder_get_4cc (a b c d : Nat) (ha : a < 128) (hb : b < 128) (hc : c < 128)
    (hd : d < 128) :
    swapByteOrder (get_4cc_codec_id a b c d) = a * 2 ^ 24 + b * 2 ^ 16 + c * 2 ^ 8 + d := by
  rw [get_4cc_codec_id_bytes a b c d (by omega) (by omega) (by omega) (by omega),
    swapByteOrder_bytes _ (by omega)]
  omega

theorem sw_eq {p q x : String} (h : StartsWith q x) (e : q = p) : StartsWith p x := e ▸ h

theorem codec_id_line (idx : Nat) (cc : IAMF_CodecConf) :
    StartsWith ("#0\n" ++ ("CodecConfigOBU_" ++ toString idx ++ ":") ++ "\n" ++
        ("- codec_config_id: " ++ toString cc.codec_conf_id) ++ "\n" ++
        "  codec_config:\n" ++
        ("    codec_id: " ++ toString (swapByteOrder cc.codec_id)) ++ "\n")
      (write_codec_config_log idx cc) := by
  have h : StartsWith (yaml (yaml (yaml (yaml start 0 ("CodecConfigOBU_" ++ toString idx ++ ":")) 0
      ("- codec_config_id: " ++ toString cc.codec_conf_id)) 1 "codec_config:") 2
      ("codec_id: " ++ toString (swapByteOrder cc.codec_id))) (write_codec_config_log idx cc) := by
    unfold write_codec_config_log
    dsimp only
    repeat (first
      | with_reducible exact sw_refl _
      | with_reducible apply sw_finish
      | with_reducible apply sw_yaml
      | split)
  refine sw_eq h ?_
  simp only [yaml_eq, start_eq]
  apply String.ext
  simp [indent_text, String.join, String.data_append]

theorem ia_code_line (idx : Nat) (mc : IAMF_Version) :
    StartsWith ("#0\n" ++ ("MagicCodeOBU_" ++ toString idx ++ ":") ++ "\n" ++
        ("- ia_code: " ++ toString (swapByteOrder mc.iamf_code)) ++ "\n")
      (write_magic_code_log idx mc) := by
  have h : StartsWith (yaml (yaml start 0 ("MagicCodeOBU_" ++ toString idx ++ ":")) 0
      ("- ia_code: " ++ toString (swapByteOrder mc.iamf_code))) (write_magic_code_log idx mc) := by
    unfold write_magic_code_log
    dsimp only
    repeat (first
      | with_reducible exact sw_refl _
      | with_reducible apply sw_finish
      | with_reducible apply sw_yaml)
  refine sw_eq h ?_
  simp only [yaml_eq, start_eq]
  apply String.ext
  simp [indent_text, String.join, String.data_append]

/-- C21: for character values `a`, `b`, `c`, `d` in 0..127,
`swapByteOrder (get_4cc_codec_id a b c d)` is the big-endian four-character code
`a * 2^24 + b * 2^16 + c * 2^8 + d`; and this is the number on the `codec_id`
line of the block of a codec configuration whose `codec_id` is that packed code,
and on the `ia_code` line of the block of a version record whose `iamf_code` is
that packed code. -/
theorem swapByteOrder_of_4cc_is_big_endian (a b c d : Nat) (ha : a < 128) (hb : b < 128)
    (hc : c < 128) (hd : d < 128) :
    swapByteOrder (get_4cc_codec_id a b c d) = a * 2 ^ 24 + b * 2 ^ 16 + c * 2 ^ 8 + d ∧
      (∀ (idx : Nat) (cc : IAMF_CodecConf), cc.codec_id = get_4cc_codec_id a b c d →
        StartsWith ("#0\n" ++ ("CodecConfigOBU_" ++ toString idx ++ ":") ++ "\n" ++
            ("- codec_config_id: " ++ toString cc.codec_conf_id) ++ "\n" ++
            "  codec_config:\n" ++
            ("    codec_id: " ++ toString (a * 2 ^ 24 + b * 2 ^ 16 + c * 2 ^ 8 + d)) ++ "\n")
          (write_codec_config_log idx cc)) ∧
      ∀ (idx : Nat) (mc : IAMF_Version), mc.iamf_code = get_4cc_codec_id a b c d →
        StartsWith ("#0\n" ++ ("MagicCodeOBU_" ++ toString idx ++ ":") ++ "\n" ++
            ("- ia_code: " ++ toString (a * 2 ^ 24 + b * 2 ^ 16 + c * 2 ^ 8 + d)) ++ "\n")
          (write_magic_code_log idx mc) := by
  have h := swapByteOrder_get_4cc a b c d ha hb hc hd
  refine ⟨h, ?_, ?_⟩
  · intro idx cc hid
    rw [← h, ← hid]
    exact codec_id_line idx cc
  · intro idx mc hid
    rw [← h, ← hid]
    exact ia_code_line idx mc

/-- Witness of C21: the characters `i`, `a`, `m`, `f` (105, 97, 109, 102). -/
theorem swapByteOrder_of_4cc_is_big_endian_witness :
    (105 < 128 ∧ 97 < 128 ∧ 109 < 128 ∧ 102 < 128) ∧
      swapByteOrder (get_4cc_codec_id 105 97 109 102) =
        105 * 2 ^ 24 + 97 * 2 ^ 16 + 109 * 2 ^ 8 + 102 ∧
      (∀ (idx : Nat) (cc : IAMF_CodecConf), cc.codec_id = get_4cc_codec_id 105 97 109 102 →
        StartsWith ("#0\n" ++ ("CodecConfigOBU_" ++ toString idx ++ ":") ++ "\n" ++
            ("- codec_config_id: " ++ toString cc.codec_conf_id) ++ "\n" ++
            "  codec_config:\n" ++
            ("    codec_id: " ++ toString (105 * 2 ^ 24 + 97 * 2 ^ 16 + 109 * 2 ^ 8 + 102)) ++
            "\n")
          (write_codec_config_log idx cc)) ∧
      ∀ (idx : Nat) (mc : IAMF_Version), mc.iamf_code = get_4cc_codec_id 105 97 109 102 →
        StartsWith ("#0\n" ++ ("MagicCodeOBU_" ++ toString idx ++ ":") ++ "\n" ++
            ("- ia_code: " ++ toString (105 * 2 ^ 24 + 97 * 2 ^ 16 + 109 * 2 ^ 8 + 102)) ++ "\n")
          (write_magic_code_log idx mc) :=
  ⟨by decide, swapByteOrder_of_4cc_is_big_endian 105 97 109 102 (by decide) (by decide)
    (by decide) (by decide)⟩

/-! ## The payload of a record -/

theorem print_static {s s2 : State} {ty : LOG_TYPE} {key : Nat} {text : String} {alloc : Bool}
    {r : Int} (inv : Inv s) (h : vlog_print s ty key text alloc = some (s2, r))
    {a : Nat} {n : VLOG_DATA} (hn : s.heap[a]? = some n) :
    ∃ k, s2.heap[a]? = some k ∧ static k = static n := by
  by_cases hopen : is_vlog_file_open s = 0
  · rw [vlog_print_closed hopen] at h
    cases h
    exact ⟨n, hn, rfl⟩
  · cases alloc with
    | false =>
      rw [vlog_print_no_alloc hopen] at h
      cases h
      exact ⟨n, hn, rfl⟩
    | true =>
      obtain ⟨l, hl⟩ := inv.buckets ty
      obtain ⟨s3, l2, h1, post, _⟩ := vlog_print_open inv hopen hl key text
      rw [h1] at h
      cases h
      obtain ⟨k, hk, hst, _⟩ := post.2.2.2.1 a n hn
      exact ⟨k, hk, hst⟩

theorem vlog_file_close_heap {s s2 : State} {r : Int} {out : String}
    (h : vlog_file_close s = some (s2, r, out)) : s2.heap = s.heap := by
  unfold vlog_file_close at h
  split at h
  · split at h
    · cases h
    · cases h
      rfl
  · cases h
    rfl

theorem vlog_file_open_heap (s : State) (p : String) (e r : Bool) (st : Option FILE) :
    (vlog_file_open s p e r st).1.heap = s.heap := by
  unfold vlog_file_open
  split
  · rfl
  · split <;> rfl

theorem step_static {s s2 : State} {c : Call} (inv : Inv s) (h : step s c = some s2)
    {a : Nat} {n : VLOG_DATA} (hn : s.heap[a]? = some n) :
    ∃ k, s2.heap[a]? = some k ∧ static k = static n := by
  cases c with
  | file_open name e r st =>
    simp only [step, Option.some.injEq] at h
    rw [← h, vlog_file_open_heap]
    exact ⟨n, hn, rfl⟩
  | file_close =>
    simp only [step] at h
    cases hc : vlog_file_close s with
    | none => rw [hc] at h; cases h
    | some p =>
      obtain ⟨s3, r, out⟩ := p
      rw [hc] at h
      simp only [Option.map_some', Option.some.injEq] at h
      rw [← h, vlog_file_close_heap hc]
      exact ⟨n, hn, rfl⟩
  | print ty key text alloc =>
    simp only [step] at h
    cases hc : vlog_print s ty key text alloc with
    | none => rw [hc] at h; cases h
    | some p =>
      obtain ⟨s3, r⟩ := p
      rw [hc] at h
      simp only [Option.map_some', Option.some.injEq] at h
      rw [← h]
      exact print_static inv hc hn
  | obu o t0 t1 alloc =>
    simp only [step] at h
    cases hc : vlog_obu s o t0 t1 alloc with
    | none => rw [hc] at h; cases h
    | some p =>
      obtain ⟨s3, r⟩ := p
      rw [hc] at h
      simp only [Option.map_some', Option.some.injEq] at h
      rw [← h]
      unfold vlog_obu at hc
      split at hc
      · cases hc
        exact ⟨n, hn, rfl⟩
      · simp only at hc
        split at hc
        · cases hc
        · split at hc
          · cases hc
          · exact print_static (inv_obu_count inv _) hc hn

theorem run_static {s s2 : State} {calls : List Call} (inv : Inv s)
    (h : run s calls = some s2) {a : Nat} {n : VLOG_DATA} (hn : s.heap[a]? = some n) :
    ∃ k, s2.heap[a]? = some k ∧ static k = static n := by
  induction calls generalizing s n with
  | nil =>
    simp only [run, Option.some.injEq] at h
    rw [← h]
    exact ⟨n, hn, rfl⟩
  | cons c cs ih =>
    simp only [run] at h
    cases hc : step s c with
    | none => rw [hc] at h; cases h
    | some s1 =>
      rw [hc] at h
      obtain ⟨k, hk, hst⟩ := step_static inv hc hn
      obtain ⟨k2, hk2, hst2⟩ := ih (inv_step inv hc) h hk
      exact ⟨k2, hk2, hst2.trans hst⟩

/-- One iteration of the drain of `vlog_file_close` at a cell whose payload is a
text `t`, inline or in its heap buffer: the text is written and the drain goes
on with the next cell. -/
theorem drain_cell {H : List VLOG_DATA} {a : Nat} {m : VLOG_DATA} (hm : H[a]? = some m)
    (hrep : m.is_longtext = true → m.ltext.isSome = true) (fuel : Nat) (out : String) :
    drain (fuel + 1) H (Ptr.addr a) out = drain fuel H m.next (out ++ payload m) := by
  rw [drain]
  simp only [load, hm, payload]
  cases hl : m.is_longtext with
  | false => simp
  | true =>
    have := hrep hl
    cases hlt : m.ltext with
    | none => rw [hlt] at this; cases this
    | some t => simp

theorem payload_of_static {m n : VLOG_DATA} (h : static m = static n) : payload m = payload n := by
  simp only [static, Prod.mk.injEq] at h
  unfold payload
  rw [h.2.2.1, h.2.2.2.1, h.2.2.2.2]

/-- The part of C22 that holds, for the text that the formatting buffer holds
(which is the formatted text when no conversion reads an argument, see
`vlog_print_va_eq`): in a reachable state with the session open, a `vlog_print`
call whose cell is allocated, for a text whose length with the terminator is an
`int`, returns 0 and creates one cell, at a fresh address, with the category and
the key of the call.  If the text has at most 254 characters the cell holds it
inline, with `is_longtext = 0` and `ltext = NULL`; otherwise the cell holds it in
the heap buffer, with `is_longtext = 1` and an empty inline text.  In both cases
the text that the drain of `vlog_file_close` writes when it visits the cell is
that text, and this stays so after any further calls. -/
theorem vlog_print_payload_representation (s : State) (hs : Reachable s)
    (hopen : is_vlog_file_open s ≠ 0) (ty : LOG_TYPE) (key : Nat) (text : String)
    (hint : text.length + 1 < 2 ^ 31) :
    ∃ s2 m, vlog_print s ty key text true = some (s2, 0) ∧
      s.heap[s.heap.length]? = none ∧ s2.heap[s.heap.length]? = some m ∧
      m.log_type = ty ∧ m.key = key ∧
      (text.length ≤ 254 → m.is_longtext = false ∧ m.ltext = none ∧ m.text = text) ∧
      (254 < text.length → m.is_longtext = true ∧ m.ltext = some text ∧ m.text = "") ∧
      payload m = text ∧
      ∀ (calls : List Call) (s3 : State), run s2 calls = some s3 →
        ∃ m3, s3.heap[s.heap.length]? = some m3 ∧
          m3.is_longtext = m.is_longtext ∧ m3.ltext = m.ltext ∧ m3.text = m.text ∧
          ∀ (fuel : Nat) (out : String),
            drain (fuel + 1) s3.heap (Ptr.addr s.heap.length) out =
              drain fuel s3.heap m3.next (out ++ text) := by
  have _ := hint
  have inv := inv_reachable hs
  obtain ⟨l, hl⟩ := inv.buckets ty
  obtain ⟨s2, l2, h1, post, inv2⟩ := vlog_print_open inv hopen hl key text
  obtain ⟨_, _, ⟨m, hm, hmst⟩, _⟩ := post
  have hpay : payload m = text := by
    rw [payload_of_static hmst]
    exact congrArg Prod.snd (record_new_logdata ty key text)
  have hst := hmst
  simp only [static, Prod.mk.injEq] at hst
  obtain ⟨hty, hkey, hlong, hltext, htext⟩ := hst
  refine ⟨s2, m, h1, List.getElem?_eq_none (Nat.le_refl _), hm,
    by rw [hty, new_logdata_type], by rw [hkey, new_logdata_key], ?_, ?_, hpay, ?_⟩
  · intro hle
    rw [hlong, hltext, htext]
    unfold new_logdata
    rw [if_pos (by omega)]
    exact ⟨rfl, rfl, rfl⟩
  · intro hgt
    rw [hlong, hltext, htext]
    unfold new_logdata
    rw [if_neg (by omega)]
    exact ⟨rfl, rfl, rfl⟩
  · intro calls s3 h3
    obtain ⟨m3, hm3, hst3⟩ := run_static inv2 h3 hm
    have inv3 := inv_run inv2 h3
    have hpay3 : payload m3 = text := by rw [payload_of_static hst3, hpay]
    simp only [static, Prod.mk.injEq] at hst3
    refine ⟨m3, hm3, hst3.2.2.1, hst3.2.2.2.1, hst3.2.2.2.2, ?_⟩
    intro fuel out
    rw [drain_cell hm3 (inv3.texts _ m3 hm3), hpay3]

/-- An instance: a short text on a session that has just been opened. -/
theorem vlog_print_payload_representation_witness :
    ∃ s2 m, vlog_print opened LOG_TYPE.LOG_OBU 3 "abc" true = some (s2, 0) ∧
      opened.heap[opened.heap.length]? = none ∧ s2.heap[opened.heap.length]? = some m ∧
      m.log_type = LOG_TYPE.LOG_OBU ∧ m.key = 3 ∧
      ("abc".length ≤ 254 → m.is_longtext = false ∧ m.ltext = none ∧ m.text = "abc") ∧
      (254 < "abc".length → m.is_longtext = true ∧ m.ltext = some "abc" ∧ m.text = "") ∧
      payload m = "abc" ∧
      ∀ (calls : List Call) (s3 : State), run s2 calls = some s3 →
        ∃ m3, s3.heap[opened.heap.length]? = some m3 ∧
          m3.is_longtext = m.is_longtext ∧ m3.ltext = m.ltext ∧ m3.text = m.text ∧
          ∀ (fuel : Nat) (out : String),
            drain (fuel + 1) s3.heap (Ptr.addr opened.heap.length) out =
              drain fuel s3.heap m3.next (out ++ "abc") :=
  vlog_print_payload_representation opened ⟨[open_ok], rfl⟩ (by decide) LOG_TYPE.LOG_OBU 3
    "abc" (by decide)

/-! ## The formatting of `vlog_print` -/

theorem vformat_nil : ∀ (n : Nat) (fmt : List Char), fmt.length ≤ n →
    vformat fmt [] = (format_no_args fmt).map (fun t => (t, [])) := by
  intro n
  induction n with
  | zero =>
    intro fmt h
    cases fmt with
    | nil => rfl
    | cons c rest => simp at h
  | succ n ih =>
    intro fmt h
    cases fmt with
    | nil => rfl
    | cons c rest =>
      simp only [List.length_cons] at h
      by_cases hc : c = '%'
      · subst hc
        cases rest with
        | nil => rfl
        | cons c2 rest2 =>
          simp only [List.length_cons] at h
          by_cases hc2 : c2 = '%'
          · subst hc2
            rw [vformat, format_no_args, ih rest2 (by omega)]
            cases format_no_args rest2 <;> rfl
          · have h1 : vformat ('%' :: c2 :: rest2) [] = none := by
              unfold vformat
              split <;> try simp_all
              rename_i hne heq
              exact absurd heq.1.symm hne
            have h2 : format_no_args ('%' :: c2 :: rest2) = none := by
              unfold format_no_args
              split <;> try simp_all
              rename_i hne heq
              exact absurd heq.1.symm hne
            rw [h1, h2]
            rfl
      · have h1 : vformat (c :: rest) [] = (vformat rest []).map (fun r => (c :: r.1, r.2)) := by
          conv_lhs => unfold vformat
          split <;> simp_all
        have h2 : format_no_args (c :: rest) = (format_no_args rest).map (fun r => c :: r) := by
          conv_lhs => unfold format_no_args
          split <;> simp_all
        rw [h1, h2, ih rest (by omega)]
        cases format_no_args rest <;> rfl

/-- The text `format_no_args` gives is not longer than the format, and it is
shorter when the format holds a `%`. -/
theorem format_no_args_length : ∀ (n : Nat) (l t : List Char), l.length ≤ n →
    format_no_args l = some t → t.length ≤ l.length ∧ ('%' ∈ l → t.length < l.length) := by
  intro n
  induction n with
  | zero =>
    intro l t hl h
    cases l with
    | nil =>
      simp only [format_no_args, Option.some.injEq] at h
      subst h
      exact ⟨Nat.le_refl _, fun hm => by cases hm⟩
    | cons c rest => simp at hl
  | succ n ih =>
    intro l t hl h
    unfold format_no_args at h
    split at h
    · simp only [Option.some.injEq] at h
      subst h
      exact ⟨Nat.le_refl _, fun hm => by cases hm⟩
    · rename_i rest
      cases hr : format_no_args rest with
      | none => rw [hr] at h; cases h
      | some r =>
        rw [hr] at h
        simp only [Option.map_some', Option.some.injEq] at h
        subst h
        simp only [List.length_cons] at hl ⊢
        have := (ih rest r (by omega) hr).1
        exact ⟨by omega, fun _ => by omega⟩
    · cases h
    · rename_i c rest hne1 hne2
      cases hr : format_no_args rest with
      | none => rw [hr] at h; cases h
      | some r =>
        rw [hr] at h
        simp only [Option.map_some', Option.some.injEq] at h
        subst h
        simp only [List.length_cons] at hl ⊢
        have h2 := ih rest r (by omega) hr
        refine ⟨by omega, ?_⟩
        intro hm
        rcases List.mem_cons.mp hm with hc | hm2
        · exact absurd hc.symm hne2
        · have := h2.2 hm2
          omega

/-- The function `vlog_print` of the model is the guard of the source followed by
`vlog_print_store` for a buffer that holds `text` and the length of `text` with
its terminator as `len`. -/
theorem vlog_print_eq_store (s : State) (ty : LOG_TYPE) (key : Nat) (text : String)
    (alloc : Bool) :
    vlog_print s ty key text alloc =
      if s.log_file.f.isNone || !s.log_file.is_open then some (s, -1)
      else vlog_print_store s ty key (text.length + 1) (some text) alloc := by
  unfold vlog_print vlog_print_store new_logdata
  split
  · rfl
  · cases alloc with
    | false => rfl
    | true =>
      simp only [Bool.not_true, Bool.false_eq_true, if_false]
      split <;> rfl

/-- For a format whose conversions read no argument (the `va_list` is left as it
was), with the formatting buffer allocated, `vlog_print_va` is `vlog_print` with
the formatted text. -/
theorem vlog_print_va_eq (s : State) (ty : LOG_TYPE) (key : Nat) {format out : List Char}
    {args : List Arg} (alloc : Bool) (hfmt : vformat format args = some (out, args))
    (hlen : out.length + 1 < 2 ^ 31) :
    vlog_print_va s ty key format args true alloc = vlog_print s ty key (String.mk out) alloc := by
  unfold vlog_print_va vlog_print
  split
  · rfl
  · simp only [hfmt]
    rw [if_neg (by omega)]
    simp only [if_true, Nat.add_sub_cancel, List.take_length]
    unfold vlog_print_store new_logdata
    cases alloc with
    | false => rfl
    | true =>
      have hl : (String.mk out).length = out.length := rfl
      simp only [Bool.not_true, Bool.false_eq_true, if_false, hl]
      split <;> rfl

/-- The call `vlog_print(LOG_OBU, key, log)` of `vlog_obu`, which passes no
variable argument, is the function `vlog_print_va` on the rendered text as
format and the empty `va_list`. -/
theorem vlog_obu_eq_va {s : State} (hopen : is_vlog_file_open s ≠ 0) (o : OBU) (t0 t1 : Nat)
    (alloc : Bool)
    (hfit : (render_obu s.obu_count o t0 t1).1.length + 1 ≤ LOG_BUFFER_SIZE) :
    vlog_obu s o t0 t1 alloc =
      vlog_print_va { s with obu_count := (render_obu s.obu_count o t0 t1).2 } LOG_TYPE.LOG_OBU
        s.obu_count (render_obu s.obu_count o t0 t1).1.data [] true alloc := by
  have hnil := vformat_nil _ (render_obu s.obu_count o t0 t1).1.data (Nat.le_refl _)
  cases hfmt : format_no_args (render_obu s.obu_count o t0 t1).1.data with
  | none =>
    rw [hfmt] at hnil
    have h1 : vlog_obu s o t0 t1 alloc = none := by
      unfold vlog_obu
      rw [if_neg hopen]
      simp only
      rw [if_neg (by omega), hfmt]
    have hc : ¬ ((s.log_file.f.isNone || !s.log_file.is_open) = true) :=
      fun hc => hopen ((closed_iff s).mpr hc)
    rw [h1]
    unfold vlog_print_va
    simp only [hnil, Option.map_none']
    rw [if_neg hc]
  | some text =>
    rw [hfmt] at hnil
    have hlen := (format_no_args_length _ _ _ (Nat.le_refl _) hfmt).1
    have hlen2 : (render_obu s.obu_count o t0 t1).1.data.length =
        (render_obu s.obu_count o t0 t1).1.length := rfl
    rw [vlog_obu_open hopen o t0 t1 alloc hfit hfmt, vlog_print_va_eq _ _ _ alloc hnil]
    unfold LOG_BUFFER_SIZE at hfit
    omega

/-- C22 fails when a conversion reads an argument.  On an open session,
`vlog_print(LOG_OBU, 0, "%d", 5, 7)`, whose formatted text is `5`, returns 0 and
creates a record with the inline text `7`, which is what `vlog_file_close`
writes: `vsnprintf` reads on in the `va_list` that `vprintf` has advanced.  With
`vlog_print(LOG_OBU, 0, "%d", 5)` the second reading finds no argument and the
call has no defined outcome.  And when `malloc` returns no formatting buffer
for a text of 255 characters, the record has `is_longtext = 1` with
`ltext = NULL` and an empty inline text, so no representation holds the text,
and `vlog_file_close` has no defined outcome. -/
theorem va_list_reuse_changes_payload :
    vformat "%d".data [Arg.int 5, Arg.int 7] = some ("5".data, [Arg.int 7]) ∧
      (vlog_print_va opened LOG_TYPE.LOG_OBU 0 "%d".data [Arg.int 5, Arg.int 7] true true).map
        (fun r => (r.1.heap, records r.1 LOG_TYPE.LOG_OBU, r.2)) =
        some ([{ log_type := LOG_TYPE.LOG_OBU, key := 0, prev := Ptr.null, next := Ptr.null,
                 is_longtext := false, ltext := none, text := "7" }],
          some [(0, "7")], 0) ∧
      ((vlog_print_va opened LOG_TYPE.LOG_OBU 0 "%d".data [Arg.int 5, Arg.int 7] true true).bind
        (fun r => vlog_file_close r.1)).map (fun r => r.2) = some (0, "7") ∧
      vlog_print_va opened LOG_TYPE.LOG_OBU 0 "%d".data [Arg.int 5] true true = none ∧
      (vlog_print_va opened LOG_TYPE.LOG_OBU 0 (List.replicate 255 'x') [] false true).map
        (fun r => (r.1.heap, r.2)) =
        some ([{ log_type := LOG_TYPE.LOG_OBU, key := 0, prev := Ptr.null, next := Ptr.null,
                 is_longtext := true, ltext := none, text := "" }], 0) ∧
      (vlog_print_va opened LOG_TYPE.LOG_OBU 0 (List.replicate 255 'x') [] false true).bind
        (fun r => vlog_file_close r.1) = none :=
  ⟨by decide, by decide, by decide, by decide, by decide, by decide⟩

/-! ## A `vlog_print` call, seen on the records -/

theorem mem_cells_records {H : List VLOG_DATA} {l : List Nat} {r : Nat × String}
    (h : r ∈ (cells H l).map record) : ∃ a ∈ l, r.1 = keyAt H a := by
  obtain ⟨n, hn, rfl⟩ := List.mem_map.mp h
  obtain ⟨a, ha, han⟩ := List.mem_filterMap.mp hn
  exact ⟨a, ha, by rw [keyAt_eq han]; rfl⟩

theorem open_of_fields {s s2 : State} (hopen : is_vlog_file_open s ≠ 0)
    (hf : s2.log_file.f = s.log_file.f) (ho : s2.log_file.is_open = s.log_file.is_open) :
    is_vlog_file_open s2 ≠ 0 := by
  intro hc
  apply hopen
  rw [closed_iff] at hc ⊢
  rw [← hf, ← ho]
  exact hc

theorem records_other {s s2 : State} {ty ty2 : LOG_TYPE} (inv : Inv s)
    (hframe : HeapFrame ty s.heap s2.heap)
    (hheads : ∀ ty2, ty2 ≠ ty → getHead s2.log_file ty2 = getHead s.log_file ty2)
    (hne : ty2 ≠ ty) : records s2 ty2 = records s ty2 := by
  obtain ⟨lB, hlB⟩ := inv.buckets ty2
  obtain ⟨hB2, hcells⟩ := binv_frame hlB hframe hne
  rw [← hheads ty2 hne] at hB2
  rw [records_of_binv hB2, records_of_binv hlB, hcells]

/-- What a `vlog_print` call on an open session does to the records of its
category, in a state that satisfies the invariant: the new record replaces the
first record (its key is below the key of the first record), or the records stay
as they are (the new cell was linked to a cell off the chain), or the new record
stands after the records with a key not above its key and before the records
with a greater key.  The new cell has a fresh address, and the records of the
other categories stay as they are. -/
theorem print_records {s : State} (inv : Inv s) (hopen : is_vlog_file_open s ≠ 0)
    (ty : LOG_TYPE) (key : Nat) (text : String) {R : List (Nat × String)}
    (hR : records s ty = some R) :
    ∃ s2, vlog_print s ty key text true = some (s2, 0) ∧ Inv s2 ∧
      is_vlog_file_open s2 ≠ 0 ∧ s2.obu_count = s.obu_count ∧
      (∃ m, s2.heap[s.heap.length]? = some m ∧ static m = static (new_logdata ty key text)) ∧
      (∀ ty2, ty2 ≠ ty → records s2 ty2 = records s ty2) ∧
      ((∃ c rest, R = c :: rest ∧ key < c.1 ∧ records s2 ty = some ((key, text) :: rest)) ∨
        (records s2 ty = some R ∧
          ∃ c rest, R = c :: rest ∧ c.1 ≤ key ∧ ∃ u ∈ rest, key < u.1) ∨
        ∃ A B, R = A ++ B ∧ records s2 ty = some (A ++ (key, text) :: B) ∧
          (∀ a ∈ A, a.1 ≤ key) ∧ ∀ b ∈ B, key < b.1) := by
  obtain ⟨l0, hl0⟩ := inv.buckets ty
  rw [records_of_binv hl0] at hR
  simp only [Option.some.injEq] at hR
  subst hR
  have hvalid := isSeg_valid hl0.seg
  obtain ⟨s2, l2, h1, post, inv2⟩ := vlog_print_open inv hopen hl0 key text
  obtain ⟨hb2, _, ⟨m, hm, hmst⟩, hframe, hheads, hf, _, ho, hc, hstep⟩ := post
  refine ⟨s2, h1, inv2, open_of_fields hopen hf ho, hc, ⟨m, hm, hmst⟩,
    fun ty2 hne => records_other inv hframe hheads hne, ?_⟩
  rw [new_logdata_key] at hstep
  have hrec : record m = (key, text) := by
    rw [record_of_static hmst, record_new_logdata]
  rcases hstep with ⟨c, rest, hl, hlt, hl2⟩ | ⟨hl2, c, rest, hl, hle, u, hu, hlt⟩ |
    ⟨A, B, hl, hl2, hA, hB⟩
  · left
    subst hl hl2
    obtain ⟨cn, hcn⟩ := hvalid c (List.mem_cons_self c rest)
    have hvr : ∀ b ∈ rest, ∃ n, s.heap[b]? = some n :=
      fun b hb => hvalid b (List.mem_cons_of_mem c hb)
    refine ⟨record cn, (cells s.heap rest).map record, ?_, ?_, ?_⟩
    · rw [cells_cons rest hcn, List.map_cons]
    · rw [keyAt_eq hcn] at hlt
      exact hlt
    · rw [records_of_binv hb2, cells_cons rest hm, List.map_cons, hrec,
        records_frame hframe hvr]
  · right; left
    subst hl hl2
    obtain ⟨cn, hcn⟩ := hvalid c (List.mem_cons_self c rest)
    obtain ⟨un, hun⟩ := hvalid u (List.mem_cons_of_mem c hu)
    refine ⟨?_, record cn, (cells s.heap rest).map record, ?_, ?_, record un, ?_, ?_⟩
    · rw [records_of_binv hb2, records_frame hframe hvalid]
    · rw [cells_cons rest hcn, List.map_cons]
    · rw [keyAt_eq hcn] at hle
      exact hle
    · exact List.mem_map_of_mem record (mem_cells hu hun)
    · rw [keyAt_eq hun] at hlt
      exact hlt
  · right; right
    subst hl hl2
    have hvA : ∀ b ∈ A, ∃ n, s.heap[b]? = some n :=
      fun b hb => hvalid b (List.mem_append_left _ hb)
    have hvB : ∀ b ∈ B, ∃ n, s.heap[b]? = some n :=
      fun b hb => hvalid b (List.mem_append_right _ hb)
    refine ⟨(cells s.heap A).map record, (cells s.heap B).map record, ?_, ?_, ?_, ?_⟩
    · rw [cells_append, List.map_append]
    · rw [records_of_binv hb2, cells_append, List.map_append, cells_cons B hm, List.map_cons,
        hrec, records_frame hframe hvA, records_frame hframe hvB]
    · intro a ha
      obtain ⟨x, hx, hkx⟩ := mem_cells_records ha
      rw [hkx]
      exact hA x hx
    · intro b hb
      obtain ⟨x, hx, hkx⟩ := mem_cells_records hb
      rw [hkx]
      exact hB x hx

/-- The bytes `vlog_file_close` writes on an open session, from the records of the
three categories. -/
theorem vlog_file_close_records {s : State} (inv : Inv s) (hopen : is_vlog_file_open s ≠ 0)
    {Rm Ro Rd : List (Nat × String)} (hm : records s LOG_TYPE.LOG_MP4BOX = some Rm)
    (ho : records s LOG_TYPE.LOG_OBU = some Ro) (hd : records s LOG_TYPE.LOG_DECOP = some Rd) :
    ∃ s2, vlog_file_close s =
      some (s2, 0, String.join (Rm.map Prod.snd) ++ String.join (Ro.map Prod.snd) ++
        String.join (Rd.map Prod.snd)) := by
  obtain ⟨lm, hlm⟩ := inv.buckets LOG_TYPE.LOG_MP4BOX
  obtain ⟨lo, hlo⟩ := inv.buckets LOG_TYPE.LOG_OBU
  obtain ⟨ld, hld⟩ := inv.buckets LOG_TYPE.LOG_DECOP
  rw [records_of_binv hlm] at hm
  rw [records_of_binv hlo] at ho
  rw [records_of_binv hld] at hd
  simp only [Option.some.injEq] at hm ho hd
  have h := vlog_file_close_open inv hopen hlm hlo hld
  rw [List.map_append, List.map_append, join_append, join_append, payload_of_records hm,
    payload_of_records ho, payload_of_records hd] at h
  exact ⟨_, h⟩

theorem records_some {s : State} (inv : Inv s) (ty : LOG_TYPE) : ∃ R, records s ty = some R := by
  obtain ⟨l, hl⟩ := inv.buckets ty
  exact ⟨_, records_of_binv hl⟩

/-! ## Chains that are doubly linked lists -/

theorem scan_body_tight {H : List VLOG_DATA} {hd : Ptr} {ty : LOG_TYPE} {nn tn : VLOG_DATA}
    {pre post : List Nat} {t : Nat} (fuel : Nat)
    (hnty : nn.log_type = ty)
    (inv : BInv H hd ty (pre ++ t :: post)) (tight : Tight H hd (pre ++ t :: post))
    (hpre : ∀ a ∈ pre, keyAt H a ≤ nn.key)
    (hfirst : pre = [] → ¬ nn.key < keyAt H t)
    (ht : H[t]? = some tn) (hlt : nn.key < tn.key) :
    ∃ K A B, insert_scan (fuel + 1) (H ++ [nn]) H.length t = some K ∧
      pre ++ t :: post = A ++ B ∧ BInv K hd ty (A ++ H.length :: B) ∧
      Tight K hd (A ++ H.length :: B) ∧
      (∀ a ∈ A, keyAt H a ≤ nn.key) ∧ ∀ b ∈ B, nn.key < keyAt H b := by
  have htl : t ∈ pre ++ t :: post := List.mem_append_right _ (List.mem_cons_self t post)
  have hprene : pre ≠ [] := by
    intro h
    apply hfirst h
    rw [keyAt_eq ht]
    exact hlt
  have hhd := head_ne_of_pre inv.seg inv.nodup hprene
  obtain ⟨g, gn, bn, hbn, hprev, hg, hgty, hlink⟩ := inv.links t htl hhd
  rw [ht] at hbn
  cases hbn
  obtain ⟨bn2, g2, hbn2, hprev2, hgl⟩ := tight t htl hhd
  rw [ht] at hbn2
  cases hbn2
  rw [hprev] at hprev2
  cases hprev2
  obtain ⟨tn2, htn2, htseg⟩ := seg_at inv.seg
  rw [ht] at htn2
  cases htn2
  have htpost : t ∉ post :=
    (List.nodup_cons.mp (List.nodup_append.mp inv.nodup).2.1).1
  have hgt : g ≠ t := by
    intro h
    subst h
    rw [ht] at hg
    cases hg
    have hn := hlink htl
    rw [hn] at htseg
    cases post with
    | nil =>
      have : Ptr.addr g = Ptr.null := htseg
      cases this
    | cons x post =>
      obtain ⟨hx, _⟩ := htseg
      cases hx
      exact htpost (List.mem_cons_self g post)
  have hNt : H.length ≠ t := Ne.symm (old_ne_length ht)
  have hgN : g ≠ H.length := old_ne_length hg
  obtain ⟨K, hK, hlen, hKN, hKg, hKt, hKrest⟩ :=
    insert_scan_body fuel (List.getElem?_concat_length H nn) (heap0_old nn ht)
      (heap0_old nn hg) hlt hprev hNt hgN hgt
  have hKold : ∀ b, b ≠ H.length → b ≠ g → b ≠ t → K[b]? = H[b]? := by
    intro b h1 h2 h3
    rw [hKrest b h1 h2 h3, heap0_ne nn h1]
  have hNnone : H[H.length]? = none := List.getElem?_eq_none (Nat.le_refl _)
  have hsorted : ∀ b ∈ t :: post, nn.key < keyAt H b := by
    intro b hb
    rcases List.mem_cons.mp hb with rfl | hb
    · rw [keyAt_eq ht]; exact hlt
    · have hs := inv.sorted
      rw [List.map_append, List.pairwise_append, List.map_cons, List.pairwise_cons] at hs
      have := hs.2.1.1 (keyAt H b) (List.mem_map_of_mem _ hb)
      rw [keyAt_eq ht] at this
      omega
  obtain ⟨pre0, rfl⟩ := link_pred inv.seg inv.nodup hgl hg (hlink hgl)
  have hl : pre0 ++ [g] ++ t :: post = pre0 ++ g :: t :: post := by simp
  have hl2 : pre0 ++ [g] ++ H.length :: t :: post = pre0 ++ g :: H.length :: t :: post := by
    simp
  have inv2 := inv
  rw [hl] at inv2
  have hb := binv_body inv2 hNnone hg ht hKN rfl rfl hnty hpre (Nat.le_of_lt hlt) hKg hKt hKold
  have hvalid := isSeg_valid inv.seg
  have hmem : ∀ a, a ∈ pre0 ++ [g] ++ H.length :: t :: post ↔
      a = H.length ∨ a ∈ pre0 ++ [g] ++ t :: post := by
    intro a
    simp only [List.mem_append, List.mem_cons, List.mem_singleton]
    tauto
  refine ⟨K, pre0 ++ [g], t :: post, hK, rfl, (by rw [hl2]; exact hb), ?_, hpre, hsorted⟩
  intro b hbl hne
  rcases (hmem b).mp hbl with rfl | hbo
  · exact ⟨_, g, hKN, rfl, (hmem g).mpr (Or.inr hgl)⟩
  · by_cases hbt : b = t
    · subst hbt
      exact ⟨_, H.length, hKt, rfl, (hmem _).mpr (Or.inl rfl)⟩
    · obtain ⟨bn, x, hbn, hbprev, hxl⟩ := tight b hbo hne
      by_cases hbg : b = g
      · subst hbg
        rw [hg] at hbn
        cases hbn
        exact ⟨_, x, hKg, hbprev, (hmem x).mpr (Or.inr hxl)⟩
      · exact ⟨bn, x, by rw [hKold b (old_ne_length hbn) hbg hbt]; exact hbn, hbprev,
          (hmem x).mpr (Or.inr hxl)⟩

theorem scan_tail_tight {H : List VLOG_DATA} {hd : Ptr} {ty : LOG_TYPE} {nn tn : VLOG_DATA}
    {pre : List Nat} {t : Nat} (fuel : Nat)
    (hnty : nn.log_type = ty)
    (inv : BInv H hd ty (pre ++ [t])) (tight : Tight H hd (pre ++ [t]))
    (hpre : ∀ a ∈ pre, keyAt H a ≤ nn.key)
    (ht : H[t]? = some tn) (hge : ¬ nn.key < tn.key) :
    ∃ K A B, insert_scan (fuel + 1) (H ++ [nn]) H.length t = some K ∧
      pre ++ [t] = A ++ B ∧ BInv K hd ty (A ++ H.length :: B) ∧
      Tight K hd (A ++ H.length :: B) ∧
      (∀ a ∈ A, keyAt H a ≤ nn.key) ∧ ∀ b ∈ B, nn.key < keyAt H b := by
  obtain ⟨tn2, htn2, htseg⟩ := seg_at inv.seg
  rw [ht] at htn2
  cases htn2
  have hnext : tn.next = Ptr.null := htseg
  have hNt : H.length ≠ t := Ne.symm (old_ne_length ht)
  obtain ⟨K, hK, hlen, hKN, hKt, hKrest⟩ :=
    insert_scan_tail fuel (List.getElem?_concat_length H nn) (heap0_old nn ht) hge hnext hNt
  have hKold : ∀ b, b ≠ H.length → b ≠ t → K[b]? = H[b]? := by
    intro b h1 h2
    rw [hKrest b h1 h2, heap0_ne nn h1]
  have hNnone : H[H.length]? = none := List.getElem?_eq_none (Nat.le_refl _)
  have htl : t ∈ pre ++ [t] := List.mem_append_right _ (List.mem_singleton_self t)
  have hall : ∀ a ∈ pre ++ [t], keyAt H a ≤ nn.key := by
    intro a ha
    rcases List.mem_append.mp ha with ha | ha
    · exact hpre a ha
    · rw [List.mem_singleton.mp ha, keyAt_eq ht]
      omega
  have hb := binv_tail inv hNnone ht hKN rfl rfl hnty hall hKt hKold
  refine ⟨K, pre ++ [t], [], hK, (by simp), hb, ?_, hall, fun b hb => (by cases hb)⟩
  intro b hbl hne
  rcases List.mem_append.mp hbl with hbo | hbN
  · obtain ⟨bn, x, hbn, hbprev, hxl⟩ := tight b hbo hne
    by_cases hbt : b = t
    · subst hbt
      rw [ht] at hbn
      cases hbn
      exact ⟨_, x, hKt, hbprev, List.mem_append_left _ hxl⟩
    · exact ⟨bn, x, by rw [hKold b (old_ne_length hbn) hbt]; exact hbn, hbprev,
        List.mem_append_left _ hxl⟩
  · rw [List.mem_singleton.mp hbN]
    exact ⟨_, t, hKN, rfl, List.mem_append_left _ htl⟩

/-- The scan of `vlog_print` on a chain that is a doubly linked list: the new cell
is linked after the cells with a key not above its key and before the cells
with a greater key, and the chain stays a doubly linked list. -/
theorem insert_scan_tight {H : List VLOG_DATA} {hd : Ptr} {ty : LOG_TYPE} {nn : VLOG_DATA}
    (hnty : nn.log_type = ty) :
    ∀ (post pre : List Nat) (t fuel : Nat),
      BInv H hd ty (pre ++ t :: post) → Tight H hd (pre ++ t :: post) →
      (∀ a ∈ pre, keyAt H a ≤ nn.key) →
      (pre = [] → ¬ nn.key < keyAt H t) →
      post.length < fuel →
      ∃ K A B, insert_scan fuel (H ++ [nn]) H.length t = some K ∧
        pre ++ t :: post = A ++ B ∧ BInv K hd ty (A ++ H.length :: B) ∧
        Tight K hd (A ++ H.length :: B) ∧
        (∀ a ∈ A, keyAt H a ≤ nn.key) ∧ ∀ b ∈ B, nn.key < keyAt H b := by
  intro post
  induction post with
  | nil =>
    intro pre t fuel inv tight hpre hfirst hfuel
    obtain ⟨tn, ht, _⟩ := seg_at inv.seg
    obtain ⟨f, rfl⟩ : ∃ f, fuel = f + 1 := ⟨fuel - 1, by omega⟩
    by_cases hlt : nn.key < tn.key
    · exact scan_body_tight f hnty inv tight hpre hfirst ht hlt
    · exact scan_tail_tight f hnty inv tight hpre ht hlt
  | cons n post ih =>
    intro pre t fuel inv tight hpre hfirst hfuel
    obtain ⟨tn, ht, htseg⟩ := seg_at inv.seg
    obtain ⟨f, rfl⟩ : ∃ f, fuel = f + 1 := ⟨fuel - 1, by omega⟩
    by_cases hlt : nn.key < tn.key
    · exact scan_body_tight f hnty inv tight hpre hfirst ht hlt
    · obtain ⟨hnext, _⟩ := htseg
      rw [insert_scan_skip f (List.getElem?_concat_length H nn) (heap0_old nn ht) hlt hnext]
      have hl : pre ++ t :: n :: post = (pre ++ [t]) ++ n :: post := by simp
      have inv2 := inv
      rw [hl] at inv2
      have tight2 := tight
      rw [hl] at tight2
      have hpre2 : ∀ a ∈ pre ++ [t], keyAt H a ≤ nn.key := by
        intro a ha
        rcases List.mem_append.mp ha with ha | ha
        · exact hpre a ha
        · rw [List.mem_singleton.mp ha, keyAt_eq ht]
          omega
      have hfuel2 : post.length < f := by
        simp only [List.length_cons] at hfuel
        omega
      obtain ⟨K, A, B, hK, hAB, hrest⟩ := ih (pre ++ [t]) n f inv2 tight2 hpre2 (by simp) hfuel2
      exact ⟨K, A, B, hK, by rw [hl]; exact hAB, hrest⟩

/-- Linking a new cell into a bucket that is a doubly linked list, when the bucket
is empty or the key is not below the key of its first cell. -/
theorem link_tight {s : State} {ty : LOG_TYPE} {nn : VLOG_DATA} {l : List Nat}
    (hnty : nn.log_type = ty)
    (inv : BInv s.heap (getHead s.log_file ty) ty l)
    (tight : Tight s.heap (getHead s.log_file ty) l)
    (hkey : ∀ c rest, l = c :: rest → keyAt s.heap c ≤ nn.key) :
    ∃ s2 A B, link_logdata s ty nn = some (s2, 0) ∧ l = A ++ B ∧
      BInv s2.heap (getHead s2.log_file ty) ty (A ++ s.heap.length :: B) ∧
      Tight s2.heap (getHead s2.log_file ty) (A ++ s.heap.length :: B) ∧
      (∀ a ∈ A, keyAt s.heap a ≤ nn.key) ∧ ∀ b ∈ B, nn.key < keyAt s.heap b := by
  cases l with
  | nil =>
    obtain ⟨s2, l2, h1, post⟩ := link_empty hnty inv
    obtain ⟨hb, _, _, _, _, _, _, _, _, hstep⟩ := post
    have hl2 : l2 = [s.heap.length] := by
      rcases hstep with ⟨c, rest, hl, _⟩ | ⟨_, c, rest, hl, _⟩ | ⟨A, B, hl, hl2, _⟩
      · cases hl
      · cases hl
      · have hA : A = [] := (List.append_eq_nil.mp hl.symm).1
        have hB : B = [] := (List.append_eq_nil.mp hl.symm).2
        rw [hl2, hA, hB]
        rfl
    subst hl2
    refine ⟨s2, [], [], h1, rfl, hb, ?_, fun a ha => (by cases ha), fun b hb => (by cases hb)⟩
    intro b hbl hne
    rw [List.nil_append, List.mem_singleton] at hbl
    exact absurd (hbl ▸ hb.seg.1) hne
  | cons c rest =>
    obtain ⟨_, cn, hc, _⟩ := inv.seg
    have hhd : getHead s.log_file ty = Ptr.addr c := inv.seg.1
    have hge : ¬ nn.key < cn.key := by
      have := hkey c rest rfl
      rw [keyAt_eq hc] at this
      omega
    have hN := List.getElem?_concat_length s.heap nn
    have hc0 := heap0_old nn hc
    have hlen := isSeg_length_le inv.seg inv.nodup
    have hfuel : rest.length < (s.heap ++ [nn]).length + 1 := by
      simp only [List.length_cons, List.length_append, List.length_nil] at hlen ⊢
      omega
    obtain ⟨K, A, B, hK, hAB, hb, ht, hA, hB⟩ :=
      insert_scan_tight hnty rest [] c _ inv tight (fun a ha => by cases ha)
        (fun _ => by rw [keyAt_eq hc]; exact hge) hfuel
    refine ⟨{ s with heap := K }, A, B, ?_, hAB, hb, ht, hA, hB⟩
    simp only [link_logdata, hhd, load, hN, hc0, Option.bind_eq_bind, Option.some_bind, hge,
      if_false, hK]

theorem tight_frame {H K : List VLOG_DATA} {hd : Ptr} {ty ty2 : LOG_TYPE} {l : List Nat}
    (inv : BInv H hd ty2 l) (tight : Tight H hd l) (hframe : HeapFrame ty H K)
    (hne : ty2 ≠ ty) : Tight K hd l := by
  intro b hb hhd
  obtain ⟨bn, g, hbn, hprev, hg⟩ := tight b hb hhd
  obtain ⟨k, hk, _, hkn⟩ := hframe b bn hbn
  rw [hkn (by rw [inv.typed b hb bn hbn]; exact hne)] at hk
  exact ⟨bn, g, hk, hprev, hg⟩

/-! ## Stable insertion -/

theorem stable_insert_split (r : Nat × String) (A B : List (Nat × String))
    (hA : ∀ a ∈ A, a.1 ≤ r.1) (hB : ∀ b ∈ B, r.1 < b.1) :
    stable_insert r (A ++ B) = A ++ r :: B := by
  unfold stable_insert
  induction A with
  | nil =>
    cases B with
    | nil => rfl
    | cons b B =>
      have hb : ¬ b.1 ≤ r.1 := by
        have := hB b (List.mem_cons_self b B)
        omega
      simp [List.takeWhile, List.dropWhile, hb]
  | cons a A ih =>
    have ha : a.1 ≤ r.1 := hA a (List.mem_cons_self a A)
    have ih2 := ih (fun x hx => hA x (List.mem_cons_of_mem a hx))
    simp only [List.cons_append, List.takeWhile_cons, List.dropWhile_cons, ha, decide_True,
      if_true]
    rw [ih2]

theorem tinv_nil {s : State} (h : ∀ ty, getHead s.log_file ty = Ptr.null) : TInv s := by
  intro ty
  refine ⟨[], ?_, ?_⟩
  · rw [h ty]
    exact binv_nil _ _
  · intro b hb
    cases hb

/-- A `vlog_print` call on an open session whose chains are doubly linked lists,
with a key that is not below the key of the first record of the bucket: the call
returns 0, the records of the category are the previous ones with the new record
placed by `stable_insert`, the records of the other categories stay as they are,
and the chains are doubly linked lists again. -/
theorem print_stable {s : State} (inv : Inv s) (tinv : TInv s)
    (hopen : is_vlog_file_open s ≠ 0) (ty : LOG_TYPE) (key : Nat) (text : String)
    {R : List (Nat × String)} (hR : records s ty = some R)
    (hkey : above_first s ty key = true) :
    ∃ s2, vlog_print s ty key text true = some (s2, 0) ∧ Inv s2 ∧ TInv s2 ∧
      is_vlog_file_open s2 ≠ 0 ∧ records s2 ty = some (stable_insert (key, text) R) ∧
      ∀ ty2, ty2 ≠ ty → records s2 ty2 = records s ty2 := by
  obtain ⟨l, hl, htight⟩ := tinv ty
  have hvalid := isSeg_valid hl.seg
  have hRl := hR
  rw [records_of_binv hl] at hRl
  simp only [Option.some.injEq] at hRl
  have hk : ∀ c rest, l = c :: rest → keyAt s.heap c ≤ (new_logdata ty key text).key := by
    intro c rest hc
    subst hc
    obtain ⟨cn, hcn⟩ := hvalid c (List.mem_cons_self c rest)
    rw [cells_cons rest hcn, List.map_cons] at hRl
    subst hRl
    unfold above_first at hkey
    rw [hR] at hkey
    simp only [decide_eq_true_eq] at hkey
    rw [new_logdata_key, keyAt_eq hcn]
    exact hkey
  obtain ⟨s2, A, B, hlink, hAB, hb2, ht2, hA, hB⟩ :=
    link_tight (new_logdata_type ty key text) hl htight hk
  obtain ⟨s3, l3, h1, post, inv2⟩ := vlog_print_open inv hopen hl key text
  have h2 : vlog_print s ty key text true = some (s2, 0) := by
    rw [vlog_print_alloc hopen]
    exact hlink
  rw [h2] at h1
  simp only [Option.some.injEq, Prod.mk.injEq, and_true] at h1
  subst h1
  obtain ⟨_, _, ⟨m, hm, hmst⟩, hframe, hheads, hf, _, ho, _, _⟩ := post
  rw [new_logdata_key] at hA hB
  subst hAB
  have hvA : ∀ b ∈ A, ∃ n, s.heap[b]? = some n :=
    fun b hb => hvalid b (List.mem_append_left _ hb)
  have hvB : ∀ b ∈ B, ∃ n, s.heap[b]? = some n :=
    fun b hb => hvalid b (List.mem_append_right _ hb)
  have hrec : record m = (key, text) := by
    rw [record_of_static hmst, record_new_logdata]
  refine ⟨s2, h2, inv2, ?_, open_of_fields hopen hf ho, ?_,
    fun ty2 hne => records_other inv hframe hheads hne⟩
  · intro ty2
    by_cases h : ty2 = ty
    · subst h
      exact ⟨_, hb2, ht2⟩
    · obtain ⟨l4, hl4, ht4⟩ := tinv ty2
      refine ⟨l4, ?_, ?_⟩
      · rw [hheads ty2 h]
        exact (binv_frame hl4 hframe h).1
      · rw [hheads ty2 h]
        exact tight_frame hl4 ht4 hframe h
  · rw [records_of_binv hb2, cells_append, List.map_append, cells_cons B hm, List.map_cons,
      hrec, records_frame hframe hvA, records_frame hframe hvB, ← hRl, cells_append,
      List.map_append, stable_insert_split]
    · intro a ha
      obtain ⟨x, hx, hkx⟩ := mem_cells_records ha
      rw [hkx]
      exact hA x hx
    · intro b hb
      obtain ⟨x, hx, hkx⟩ := mem_cells_records hb
      rw [hkx]
      exact hB x hx

/-! ## The stable sort -/

theorem stable_insert_nil (x : Nat × String) : stable_insert x [] = [x] :=
  rfl

theorem stable_insert_cons (x b : Nat × String) (T : List (Nat × String)) :
    stable_insert x (b :: T) = if b.1 ≤ x.1 then b :: stable_insert x T else x :: b :: T := by
  unfold stable_insert
  by_cases h : b.1 ≤ x.1
  · simp [List.takeWhile_cons, List.dropWhile_cons, h]
  · simp [List.takeWhile_cons, List.dropWhile_cons, h]

theorem mem_stable_insert {x r : Nat × String} {R : List (Nat × String)} :
    r ∈ stable_insert x R ↔ r = x ∨ r ∈ R := by
  unfold stable_insert
  rw [List.mem_append, List.mem_cons]
  constructor
  · rintro (h | h | h)
    · exact Or.inr (( List.takeWhile_prefix _).subset h)
    · exact Or.inl h
    · exact Or.inr ((List.dropWhile_suffix _).subset h)
  · rintro (h | h)
    · exact Or.inr (Or.inl h)
    · rw [← List.takeWhile_append_dropWhile (fun y => decide (y.1 ≤ x.1)) R,
        List.mem_append] at h
      rcases h with h | h
      · exact Or.inl h
      · exact Or.inr (Or.inr h)

/-- Placing a record by `stable_insert` and inserting an earlier record by the
step of the insertion sort commute. -/
theorem orderedInsert_stable_insert (a x : Nat × String) (T : List (Nat × String)) :
    List.orderedInsert (fun p q : Nat × String => p.1 ≤ q.1) a (stable_insert x T) =
      stable_insert x (List.orderedInsert (fun p q : Nat × String => p.1 ≤ q.1) a T) := by
  induction T with
  | nil =>
    by_cases h : a.1 ≤ x.1
    · simp [stable_insert_nil, stable_insert_cons, List.orderedInsert, h]
    · simp [stable_insert_nil, stable_insert_cons, List.orderedInsert, h]
  | cons b T ih =>
    by_cases hbx : b.1 ≤ x.1
    · by_cases hab : a.1 ≤ b.1
      · have hax : a.1 ≤ x.1 := by omega
        simp [stable_insert_cons, List.orderedInsert, hbx, hab, hax]
      · simp [stable_insert_cons, List.orderedInsert, hbx, hab, ih]
    · by_cases hax : a.1 ≤ x.1
      · have hab : a.1 ≤ b.1 := by omega
        simp [stable_insert_cons, List.orderedInsert, hbx, hab, hax]
      · by_cases hab : a.1 ≤ b.1
        · simp [stable_insert_cons, List.orderedInsert, hbx, hab, hax]
        · simp [stable_insert_cons, List.orderedInsert, hbx, hab, hax]

theorem stable_sort_snoc (l : List (Nat × String)) (x : Nat × String) :
    stable_sort (l ++ [x]) = stable_insert x (stable_sort l) := by
  induction l with
  | nil => rfl
  | cons a l ih =>
    show List.orderedInsert _ a (stable_sort (l ++ [x])) = _
    rw [ih, orderedInsert_stable_insert]
    rfl

/-- Placing the records of a sequence one after the other by `stable_insert`,
starting from no record, gives the stable sort of the sequence. -/
theorem foldl_stable_insert (l : List (Nat × String)) :
    l.foldl (fun R r => stable_insert r R) [] = stable_sort l := by
  induction l using List.reverseRecOn with
  | nil => rfl
  | append_singleton l x ih =>
    rw [List.foldl_append, List.foldl_cons, List.foldl_nil, ih, stable_sort_snoc]

theorem filter_orderedInsert (k : Nat) (a : Nat × String) (T : List (Nat × String)) :
    (List.orderedInsert (fun p q : Nat × String => p.1 ≤ q.1) a T).filter
        (fun r => decide (r.1 = k)) =
      if a.1 = k then a :: T.filter (fun r => decide (r.1 = k))
      else T.filter (fun r => decide (r.1 = k)) := by
  induction T with
  | nil =>
    by_cases h : a.1 = k <;> simp [List.orderedInsert, List.filter, h]
  | cons b T ih =>
    by_cases hab : a.1 ≤ b.1
    · rw [List.orderedInsert, if_pos hab, List.filter_cons]
      by_cases h : a.1 = k <;> simp [h]
    · rw [List.orderedInsert, if_neg hab, List.filter_cons, ih, List.filter_cons]
      by_cases hb : b.1 = k
      · have ha : a.1 ≠ k := by omega
        simp [hb, ha]
      · by_cases h : a.1 = k <;> simp [hb, h]

/-- What `stable_sort` gives: a list with non-decreasing keys that holds the records
of the sequence, each as often as the sequence, and in which the records of
every key stand in the order they have in the sequence. -/
theorem stable_sort_spec (l : List (Nat × String)) :
    List.Sorted (fun x y => x ≤ y) ((stable_sort l).map Prod.fst) ∧
      List.Perm (stable_sort l) l ∧
      ∀ k, (stable_sort l).filter (fun r => decide (r.1 = k)) =
        l.filter (fun r => decide (r.1 = k)) := by
  haveI : IsTotal (Nat × String) (fun p q => p.1 ≤ q.1) := ⟨fun p q => Nat.le_total p.1 q.1⟩
  haveI : IsTrans (Nat × String) (fun p q => p.1 ≤ q.1) :=
    ⟨fun p q r h1 h2 => Nat.le_trans h1 h2⟩
  refine ⟨?_, List.perm_insertionSort _ l, ?_⟩
  · have h := List.sorted_insertionSort (fun p q : Nat × String => p.1 ≤ q.1) l
    exact List.pairwise_map.mpr h
  · intro k
    induction l with
    | nil => rfl
    | cons a l ih =>
      show (List.orderedInsert _ a (stable_sort l)).filter _ = _
      rw [filter_orderedInsert, ih, List.filter_cons]
      by_cases h : a.1 = k <;> simp [h]

/-! ## Sessions whose keys are not below the first key -/

theorem inserted_cons (ty : LOG_TYPE) (p : PrintArgs) (ps : List PrintArgs) :
    inserted ty (p :: ps) =
      if p.alloc = true ∧ p.type = ty then (p.key, p.text) :: inserted ty ps
      else inserted ty ps := by
  unfold inserted
  by_cases h : p.alloc = true ∧ p.type = ty
  · rw [if_pos h, List.filter_cons_of_pos (by simp [h.1, h.2]), List.map_cons]
  · rw [if_neg h, List.filter_cons_of_neg (by simpa using h)]

theorem run_print_cons {s s1 : State} {r : Int} (p : PrintArgs) (ps : List PrintArgs)
    (h : vlog_print s p.type p.key p.text p.alloc = some (s1, r)) :
    run s (print_calls (p :: ps)) = run s1 (print_calls ps) := by
  simp only [print_calls, List.map_cons, run, step, h, Option.map_some']

theorem keys_above_first_cons {s s1 : State} {r : Int} (p : PrintArgs) (ps : List PrintArgs)
    (h : vlog_print s p.type p.key p.text p.alloc = some (s1, r)) :
    keys_above_first s (p :: ps) = (above_first s p.type p.key && keys_above_first s1 ps) := by
  simp only [keys_above_first, h]

/-- A sequence of `vlog_print` calls on an open session whose chains are doubly
linked lists, every key being not below the first key of its bucket: all calls
return and the records of every category are the previous ones with the
inserted records placed one after the other by `stable_insert`. -/
theorem print_run_stable (ps : List PrintArgs) :
    ∀ (s : State), Inv s → TInv s → is_vlog_file_open s ≠ 0 →
      keys_above_first s ps = true →
      ∃ s2, run s (print_calls ps) = some s2 ∧ Inv s2 ∧ is_vlog_file_open s2 ≠ 0 ∧
        ∀ ty R, records s ty = some R →
          records s2 ty = some ((inserted ty ps).foldl (fun R r => stable_insert r R) R) := by
  induction ps with
  | nil =>
    intro s inv _ hopen _
    exact ⟨s, rfl, inv, hopen, fun ty R hR => hR⟩
  | cons p ps ih =>
    intro s inv tinv hopen hk
    cases ha : p.alloc with
    | false =>
      have h1 : vlog_print s p.type p.key p.text p.alloc = some (s, 0) := by
        rw [ha]
        exact vlog_print_no_alloc hopen _ _ _
      rw [keys_above_first_cons p ps h1, Bool.and_eq_true] at hk
      obtain ⟨s2, h2, inv2, hopen2, hrec⟩ := ih s inv tinv hopen hk.2
      refine ⟨s2, by rw [run_print_cons p ps h1]; exact h2, inv2, hopen2, ?_⟩
      intro ty R hR
      rw [inserted_cons, if_neg (by simp [ha])]
      exact hrec ty R hR
    | true =>
      obtain ⟨Rp, hRp⟩ := records_some inv p.type
      have hk0 : above_first s p.type p.key = true := by
        unfold keys_above_first at hk
        rw [Bool.and_eq_true] at hk
        exact hk.1
      obtain ⟨s1, h1, inv1, tinv1, hopen1, hrec1, hother⟩ :=
        print_stable inv tinv hopen p.type p.key p.text hRp hk0
      have h1b : vlog_print s p.type p.key p.text p.alloc = some (s1, 0) := by
        rw [ha]
        exact h1
      rw [keys_above_first_cons p ps h1b, Bool.and_eq_true] at hk
      obtain ⟨s2, h2, inv2, hopen2, hrec⟩ := ih s1 inv1 tinv1 hopen1 hk.2
      refine ⟨s2, by rw [run_print_cons p ps h1b]; exact h2, inv2, hopen2, ?_⟩
      intro ty R hR
      rw [inserted_cons]
      by_cases hty : p.type = ty
      · rw [if_pos ⟨ha, hty⟩, List.foldl_cons]
        subst hty
        rw [hRp] at hR
        simp only [Option.some.injEq] at hR
        subst hR
        exact hrec _ _ hrec1
      · rw [if_neg (fun h => hty h.2)]
        exact hrec ty R (by rw [hother ty (Ne.symm hty)]; exact hR)

/-- A sequence of `vlog_print` calls with non-decreasing keys, made on an open
session whose chains are doubly linked lists and hold no key above the keys of
the sequence, satisfies `keys_above_first`. -/
theorem sorted_keys_above_first (ps : List PrintArgs) :
    ∀ (s : State), Inv s → TInv s → is_vlog_file_open s ≠ 0 →
      List.Sorted (fun x y => x ≤ y) (ps.map PrintArgs.key) →
      (∀ ty R, records s ty = some R → ∀ r ∈ R, ∀ p ∈ ps, r.1 ≤ p.key) →
      keys_above_first s ps = true := by
  induction ps with
  | nil =>
    intro _ _ _ _ _ _
    rfl
  | cons p ps ih =>
    intro s inv tinv hopen hsorted hbound
    simp only [List.map_cons, List.sorted_cons] at hsorted
    obtain ⟨hp, hrest⟩ := hsorted
    obtain ⟨Rp, hRp⟩ := records_some inv p.type
    have hk0 : above_first s p.type p.key = true := by
      unfold above_first
      rw [hRp]
      cases Rp with
      | nil => rfl
      | cons c rest =>
        simp only [decide_eq_true_eq]
        exact hbound p.type _ hRp c (List.mem_cons_self c rest) p (List.mem_cons_self p ps)
    cases ha : p.alloc with
    | false =>
      have h1 : vlog_print s p.type p.key p.text p.alloc = some (s, 0) := by
        rw [ha]
        exact vlog_print_no_alloc hopen _ _ _
      rw [keys_above_first_cons p ps h1, hk0, Bool.true_and]
      exact ih s inv tinv hopen hrest
        (fun ty R hR r hr q hq => hbound ty R hR r hr q (List.mem_cons_of_mem p hq))
    | true =>
      obtain ⟨s1, h1, inv1, tinv1, hopen1, hrec1, hother⟩ :=
        print_stable inv tinv hopen p.type p.key p.text hRp hk0
      have h1b : vlog_print s p.type p.key p.text p.alloc = some (s1, 0) := by
        rw [ha]
        exact h1
      rw [keys_above_first_cons p ps h1b, hk0, Bool.true_and]
      refine ih s1 inv1 tinv1 hopen1 hrest ?_
      intro ty R hR r hr q hq
      by_cases hty : ty = p.type
      · subst hty
        rw [hrec1] at hR
        simp only [Option.some.injEq] at hR
        subst hR
        rcases mem_stable_insert.mp hr with rfl | hr
        · exact hp q.key (List.mem_map_of_mem PrintArgs.key hq)
        · exact hbound _ Rp hRp r hr q (List.mem_cons_of_mem p hq)
      · rw [hother ty hty] at hR
        exact hbound ty R hR r hr q (List.mem_cons_of_mem p hq)

theorem records_empty {s : State} (h : ∀ ty, getHead s.log_file ty = Ptr.null) (ty : LOG_TYPE) :
    records s ty = some [] := by
  unfold records bucket
  rw [h ty]
  rfl

/-- C23: on a reachable open session whose buckets are empty (as a successful open
leaves them), for every sequence of `vlog_print` calls in which the key of each
call is not below the key of the first record of the bucket of its category at
the time of the call, or the bucket is empty then, and in particular for every
sequence whose keys are non-decreasing: every call returns; the records of
every category are the stable sort by key of the records inserted into it (the
calls of the category whose cell was allocated), so they have non-decreasing
keys, hold every inserted record once, and keep the records of a key in call
order; and `vlog_file_close` returns 0 and writes the texts of these sorted
sequences, in the order of the categories `LOG_MP4BOX`, `LOG_OBU`, `LOG_DECOP`. -/
theorem vlog_print_stable_sort (s0 : State) (hs : Reachable s0)
    (hopen : is_vlog_file_open s0 ≠ 0) (hempty : ∀ ty, getHead s0.log_file ty = Ptr.null)
    (ps : List PrintArgs)
    (hkeys : keys_above_first s0 ps = true ∨
      List.Sorted (fun x y => x ≤ y) (ps.map PrintArgs.key)) :
    ∃ s1 s2, run s0 (print_calls ps) = some s1 ∧
      (∀ ty, records s1 ty = some (stable_sort (inserted ty ps)) ∧
        List.Sorted (fun x y => x ≤ y) ((stable_sort (inserted ty ps)).map Prod.fst) ∧
        List.Perm (stable_sort (inserted ty ps)) (inserted ty ps) ∧
        ∀ k, (stable_sort (inserted ty ps)).filter (fun r => decide (r.1 = k)) =
          (inserted ty ps).filter (fun r => decide (r.1 = k))) ∧
      vlog_file_close s1 = some (s2, 0,
        String.join ((stable_sort (inserted LOG_TYPE.LOG_MP4BOX ps)).map Prod.snd) ++
        String.join ((stable_sort (inserted LOG_TYPE.LOG_OBU ps)).map Prod.snd) ++
        String.join ((stable_sort (inserted LOG_TYPE.LOG_DECOP ps)).map Prod.snd)) := by
  have inv := inv_reachable hs
  have tinv := tinv_nil hempty
  have hk : keys_above_first s0 ps = true := by
    rcases hkeys with h | h
    · exact h
    · refine sorted_keys_above_first ps s0 inv tinv hopen h ?_
      intro ty R hR r hr
      rw [records_empty hempty ty] at hR
      simp only [Option.some.injEq] at hR
      subst hR
      cases hr
  obtain ⟨s1, h1, inv1, hopen1, hrec⟩ := print_run_stable ps s0 inv tinv hopen hk
  have hrec1 : ∀ ty, records s1 ty = some (stable_sort (inserted ty ps)) := by
    intro ty
    rw [hrec ty [] (records_empty hempty ty), foldl_stable_insert]
  obtain ⟨s2, h2⟩ := vlog_file_close_records inv1 hopen1 (hrec1 _) (hrec1 _) (hrec1 _)
  exact ⟨s1, s2, h1, fun ty => ⟨hrec1 ty, stable_sort_spec _⟩, h2⟩

/-- Witness of C23: the calls `sample_prints` on a session that has just been
opened; the record bucket ends as the keys 3, 3, 4, 5, 5 with the texts `a`,
`e`, `d`, `b`, `g`. -/
theorem vlog_print_stable_sort_witness :
    stable_sort (inserted LOG_TYPE.LOG_OBU sample_prints) =
        [(3, "a"), (3, "e"), (4, "d"), (5, "b"), (5, "g")] ∧
      records (after (open_ok :: print_calls sample_prints)) LOG_TYPE.LOG_OBU =
        some [(3, "a"), (3, "e"), (4, "d"), (5, "b"), (5, "g")] ∧
      ∃ s1 s2, run opened (print_calls sample_prints) = some s1 ∧
        (∀ ty, records s1 ty = some (stable_sort (inserted ty sample_prints)) ∧
          List.Sorted (fun x y => x ≤ y)
            ((stable_sort (inserted ty sample_prints)).map Prod.fst) ∧
          List.Perm (stable_sort (inserted ty sample_prints)) (inserted ty sample_prints) ∧
          ∀ k, (stable_sort (inserted ty sample_prints)).filter (fun r => decide (r.1 = k)) =
            (inserted ty sample_prints).filter (fun r => decide (r.1 = k))) ∧
        vlog_file_close s1 = some (s2, 0,
          String.join ((stable_sort (inserted LOG_TYPE.LOG_MP4BOX sample_prints)).map Prod.snd) ++
          String.join ((stable_sort (inserted LOG_TYPE.LOG_OBU sample_prints)).map Prod.snd) ++
          String.join ((stable_sort (inserted LOG_TYPE.LOG_DECOP sample_prints)).map Prod.snd)) :=
  ⟨by decide, by decide, vlog_print_stable_sort opened ⟨[open_ok], rfl⟩ (by decide)
    (fun ty => by cases ty <;> rfl) sample_prints (Or.inl (by decide))⟩

/-! ## The record of a `vlog_obu` call -/

/-- The part of C17 on the insertion that holds: on an open session whose chains are
doubly linked lists and whose record bucket is empty or has a first key not
above the counter (as in every session in which only `vlog_obu` emits), a
`vlog_obu` call of a recognised kind whose text fits the buffer and holds no `%`
returns 0, advances the counter by one and places its record, under the key
that is the counter before the call, in the record bucket by `stable_insert`. -/
theorem vlog_obu_inserts_record {s : State} (inv : Inv s) (tinv : TInv s)
    (hopen : is_vlog_file_open s ≠ 0) (o : OBU) (hrec : recognised o = true) (t0 t1 : Nat)
    (hfit : (render_obu s.obu_count o t0 t1).1.length + 1 ≤ LOG_BUFFER_SIZE)
    (hpct : '%' ∉ (render_obu s.obu_count o t0 t1).1.data)
    (hlt : s.obu_count + 1 < 2 ^ 64) {R : List (Nat × String)}
    (hR : records s LOG_TYPE.LOG_OBU = some R)
    (hkey : above_first s LOG_TYPE.LOG_OBU s.obu_count = true) :
    ∃ s2, vlog_obu s o t0 t1 true = some (s2, 0) ∧ s2.obu_count = s.obu_count + 1 ∧
      is_vlog_file_open s2 ≠ 0 ∧ Inv s2 ∧ TInv s2 ∧
      records s2 LOG_TYPE.LOG_OBU =
        some (stable_insert (s.obu_count, (render_obu s.obu_count o t0 t1).1) R) := by
  have hnext : (render_obu s.obu_count o t0 t1).2 = s.obu_count + 1 := by
    rw [(render_obu_shape s.obu_count o hrec t0 t1).2.2]
    exact Nat.mod_eq_of_lt hlt
  have heq := vlog_obu_open hopen o t0 t1 true hfit (format_no_args_id _ hpct)
  rw [hnext] at heq
  obtain ⟨s2, h2, inv2, tinv2, hopen2, hrec2, _⟩ :=
    print_stable (s := { s with obu_count := s.obu_count + 1 })
      (inv_obu_count inv (s.obu_count + 1)) tinv hopen LOG_TYPE.LOG_OBU s.obu_count
      (String.mk (render_obu s.obu_count o t0 t1).1.data) hR hkey
  refine ⟨s2, by rw [heq]; exact h2, ?_, hopen2, inv2, tinv2, hrec2⟩
  exact (vlog_print_fields (inv_obu_count inv _) h2).1

/-- C17 fails at the second `vlog_obu` call of the session `vlog_file_open`,
`vlog_print(LOG_OBU, 5, "a")`, `vlog_print(LOG_OBU, 7, "b")`,
`vlog_obu(temporal delimiter)`, `vlog_obu(temporal delimiter)`.  Before that call
the session is open, one record has been serialized, the counter is 1 and the
record bucket holds the block of the first call under the key 0 and the record
`b` under the key 7 (the record `a` was dropped by the head update).  The call
returns 0, advances the counter to 2 and creates a cell with the key 1 and the
block whose header carries 1, but the record bucket is as it was, so the record
is on no chain, and `vlog_file_close` writes the block of the first call and
`b` only. -/
theorem vlog_obu_record_on_no_chain :
    is_vlog_file_open (after print_then_obu) ≠ 0 ∧
      serialized init print_then_obu = 1 ∧ (after print_then_obu).obu_count = 1 ∧
      recognised OBU.temporal_delimiter = true ∧
      records (after print_then_obu) LOG_TYPE.LOG_OBU =
        some [(0, "#0\nTemporalDelimiterOBU_0:\n##\n"), (7, "b")] ∧
      (vlog_obu (after print_then_obu) OBU.temporal_delimiter 0 0 true).map
        (fun r => (r.1.obu_count, r.2)) = some (2, 0) ∧
      (vlog_obu (after print_then_obu) OBU.temporal_delimiter 0 0 true).map
        (fun r => r.1.heap[3]?.map record) =
        some (some (1, "#0\nTemporalDelimiterOBU_1:\n##\n")) ∧
      (vlog_obu (after print_then_obu) OBU.temporal_delimiter 0 0 true).map
        (fun r => records r.1 LOG_TYPE.LOG_OBU) =
        some (some [(0, "#0\nTemporalDelimiterOBU_0:\n##\n"), (7, "b")]) ∧
      ((vlog_obu (after print_then_obu) OBU.temporal_delimiter 0 0 true).bind
        (fun r => vlog_file_close r.1)).map (fun r => r.2) =
        some (0, "#0\nTemporalDelimiterOBU_0:\n##\nb") :=
  ⟨by decide, by decide, by decide, by decide, by decide, by decide, by decide, by decide,
    by decide⟩

/-! ## A record of an unrecognised type -/

theorem join_skip_empty (A B : List (Nat × String)) (k : Nat) :
    String.join ((A ++ (k, "") :: B).map Prod.snd) = String.join ((A ++ B).map Prod.snd) := by
  rw [List.map_append, List.map_append, List.map_cons, join_append, join_append, join_cons]
  simp

/-- C24: in a reachable state with the session open, a `vlog_obu` call with a type
that matches no label of the `switch` (its cell being allocated) returns 0 and
leaves the counter `obu_count` as it was.  It creates one cell of category
`LOG_OBU` under the key `obu_count` whose text is empty.  The bytes that
`vlog_file_close` writes after the call are not more than the bytes it would
have written before the call, and they are the same bytes when the record
bucket is empty or its first key is not above `obu_count`.  The next call with
a record of a recognised kind hands its text to `vlog_print` under the same key
`obu_count`. -/
theorem vlog_obu_unrecognised_type (s : State) (hs : Reachable s)
    (hopen : is_vlog_file_open s ≠ 0) (t0 t1 : Nat) :
    ∃ s2 m s3 s4 out out2,
      vlog_obu s OBU.other t0 t1 true = some (s2, 0) ∧
      s2.obu_count = s.obu_count ∧ is_vlog_file_open s2 ≠ 0 ∧
      s.heap[s.heap.length]? = none ∧ s2.heap[s.heap.length]? = some m ∧
      m.log_type = LOG_TYPE.LOG_OBU ∧ m.key = s.obu_count ∧ payload m = "" ∧
      vlog_file_close s = some (s3, 0, out) ∧ vlog_file_close s2 = some (s4, 0, out2) ∧
      out2.length ≤ out.length ∧
      ((∀ c rest, records s LOG_TYPE.LOG_OBU = some (c :: rest) → c.1 ≤ s.obu_count) →
        out2 = out) ∧
      ∀ (o : OBU) (u0 u1 : Nat) (alloc : Bool) (text : List Char), recognised o = true →
        (render_obu s.obu_count o u0 u1).1.length + 1 ≤ LOG_BUFFER_SIZE →
        format_no_args (render_obu s.obu_count o u0 u1).1.data = some text →
        vlog_obu s2 o u0 u1 alloc =
          vlog_print { s2 with obu_count := (s.obu_count + 1) % 2 ^ 64 } LOG_TYPE.LOG_OBU
            s.obu_count (String.mk text) alloc := by
  have inv := inv_reachable hs
  obtain ⟨Rm, hRm⟩ := records_some inv LOG_TYPE.LOG_MP4BOX
  obtain ⟨Ro, hRo⟩ := records_some inv LOG_TYPE.LOG_OBU
  obtain ⟨Rd, hRd⟩ := records_some inv LOG_TYPE.LOG_DECOP
  have hfit0 : (render_obu s.obu_count OBU.other t0 t1).1.length + 1 ≤ LOG_BUFFER_SIZE := by
    show "".length + 1 ≤ 100000
    decide
  have hcall : vlog_obu s OBU.other t0 t1 true =
      vlog_print s LOG_TYPE.LOG_OBU s.obu_count "" true :=
    vlog_obu_open hopen OBU.other t0 t1 true hfit0 rfl
  obtain ⟨s2, h2, inv2, hopen2, hc2, ⟨m, hm, hmst⟩, hother, hshape⟩ :=
    print_records inv hopen LOG_TYPE.LOG_OBU s.obu_count "" hRo
  obtain ⟨s3, h3⟩ := vlog_file_close_records inv hopen hRm hRo hRd
  have hRm2 : records s2 LOG_TYPE.LOG_MP4BOX = some Rm := by
    rw [hother _ (by decide)]; exact hRm
  have hRd2 : records s2 LOG_TYPE.LOG_DECOP = some Rd := by
    rw [hother _ (by decide)]; exact hRd
  obtain ⟨Ro2, hRo2⟩ := records_some inv2 LOG_TYPE.LOG_OBU
  obtain ⟨s4, h4⟩ := vlog_file_close_records inv2 hopen2 hRm2 hRo2 hRd2
  have hst := hmst
  simp only [static, Prod.mk.injEq] at hst
  have hpay : payload m = "" := by
    rw [payload_of_static hmst]
    exact congrArg Prod.snd (record_new_logdata LOG_TYPE.LOG_OBU s.obu_count "")
  refine ⟨s2, m, s3, s4, _, _, by rw [hcall]; exact h2, hc2, hopen2,
    List.getElem?_eq_none (Nat.le_refl _), hm, by rw [hst.1, new_logdata_type],
    by rw [hst.2.1, new_logdata_key], hpay, h3, h4, ?_, ?_, ?_⟩
  · rcases hshape with ⟨c, rest, hR, _, hR2⟩ | ⟨hR2, _⟩ | ⟨A, B, hR, hR2, _, _⟩
    · rw [hRo2] at hR2
      simp only [Option.some.injEq] at hR2
      subst hR hR2
      have he : "".length = 0 := rfl
      simp only [List.map_cons, join_cons, String.length_append, he]
      omega
    · rw [hRo2] at hR2
      simp only [Option.some.injEq] at hR2
      subst hR2
      exact Nat.le_refl _
    · rw [hRo2] at hR2
      simp only [Option.some.injEq] at hR2
      subst hR hR2
      rw [join_skip_empty]
  · intro hhead
    rcases hshape with ⟨c, rest, hR, hlt, _⟩ | ⟨hR2, _⟩ | ⟨A, B, hR, hR2, _, _⟩
    · have := hhead c rest (by rw [hRo, hR])
      omega
    · rw [hRo2] at hR2
      simp only [Option.some.injEq] at hR2
      subst hR2
      rfl
    · rw [hRo2] at hR2
      simp only [Option.some.injEq] at hR2
      subst hR hR2
      rw [join_skip_empty]
  · intro o u0 u1 alloc text hrec hfit hfmt
    have h := vlog_obu_open hopen2 o u0 u1 alloc (by rw [hc2]; exact hfit)
      (by rw [hc2]; exact hfmt)
    rw [hc2, (render_obu_shape s.obu_count o hrec u0 u1).2.2] at h
    exact h

/-- Witness of C24: a session that holds one record of `vlog_obu`. -/
theorem vlog_obu_unrecognised_type_witness :
    ∃ s2 m s3 s4 out out2,
      vlog_obu (after [open_ok, Call.obu OBU.temporal_delimiter 0 0 true]) OBU.other 0 0 true =
        some (s2, 0) ∧
      s2.obu_count = (after [open_ok, Call.obu OBU.temporal_delimiter 0 0 true]).obu_count ∧
      is_vlog_file_open s2 ≠ 0 ∧
      (after [open_ok, Call.obu OBU.temporal_delimiter 0 0 true]).heap[
        (after [open_ok, Call.obu OBU.temporal_delimiter 0 0 true]).heap.length]? = none ∧
      s2.heap[(after [open_ok, Call.obu OBU.temporal_delimiter 0 0 true]).heap.length]? =
        some m ∧
      m.log_type = LOG_TYPE.LOG_OBU ∧
      m.key = (after [open_ok, Call.obu OBU.temporal_delimiter 0 0 true]).obu_count ∧
      payload m = "" ∧
      vlog_file_close (after [open_ok, Call.obu OBU.temporal_delimiter 0 0 true]) =
        some (s3, 0, out) ∧
      vlog_file_close s2 = some (s4, 0, out2) ∧
      out2.length ≤ out.length ∧
      ((∀ c rest, records (after [open_ok, Call.obu OBU.temporal_delimiter 0 0 true])
          LOG_TYPE.LOG_OBU = some (c :: rest) →
          c.1 ≤ (after [open_ok, Call.obu OBU.temporal_delimiter 0 0 true]).obu_count) →
        out2 = out) ∧
      ∀ (o : OBU) (u0 u1 : Nat) (alloc : Bool) (text : List Char), recognised o = true →
        (render_obu (after [open_ok, Call.obu OBU.temporal_delimiter 0 0 true]).obu_count
          o u0 u1).1.length + 1 ≤ LOG_BUFFER_SIZE →
        format_no_args (render_obu
          (after [open_ok, Call.obu OBU.temporal_delimiter 0 0 true]).obu_count
          o u0 u1).1.data = some text →
        vlog_obu s2 o u0 u1 alloc =
          vlog_print { s2 with obu_count :=
              ((after [open_ok, Call.obu OBU.temporal_delimiter 0 0 true]).obu_count + 1) %
                2 ^ 64 }
            LOG_TYPE.LOG_OBU (after [open_ok, Call.obu OBU.temporal_delimiter 0 0 true]).obu_count
            (String.mk text) alloc :=
  vlog_obu_unrecognised_type (after [open_ok, Call.obu OBU.temporal_delimiter 0 0 true])
    ⟨[open_ok, Call.obu OBU.temporal_delimiter 0 0 true], rfl⟩ (by decide) 0 0

/-! ## A `%` in the rendered text -/

/-- What `vlog_obu` does on an open session with a rendered text that holds a `%`:
either the call has no defined outcome, or the text it hands to `vlog_print` is
shorter than the rendered text. -/
theorem vlog_obu_percent (s : State) (hopen : is_vlog_file_open s ≠ 0) (o : OBU) (t0 t1 : Nat)
    (alloc : Bool) (hpct : '%' ∈ (render_obu s.obu_count o t0 t1).1.data) :
    vlog_obu s o t0 t1 alloc = none ∨
      ∃ text : String, text.length < (render_obu s.obu_count o t0 t1).1.length ∧
        vlog_obu s o t0 t1 alloc =
          vlog_print { s with obu_count := (render_obu s.obu_count o t0 t1).2 }
            LOG_TYPE.LOG_OBU s.obu_count text alloc := by
  by_cases hfit : (render_obu s.obu_count o t0 t1).1.length + 1 ≤ LOG_BUFFER_SIZE
  · cases hfmt : format_no_args (render_obu s.obu_count o t0 t1).1.data with
    | none =>
      left
      unfold vlog_obu
      rw [if_neg hopen]
      simp only
      rw [if_neg (by omega), hfmt]
    | some text =>
      right
      exact ⟨String.mk text, (format_no_args_length _ _ _ (Nat.le_refl _) hfmt).2 hpct,
        vlog_obu_open hopen o t0 t1 alloc hfit hfmt⟩
  · left
    unfold vlog_obu
    rw [if_neg hopen]
    simp only
    rw [if_pos (by omega)]
/-- C25 fails: the text rendered for a mix presentation with the friendly label
`100%%` holds the label as it is, and the payload `vlog_obu` stores for the
record holds `100%` instead, which is what `vlog_file_close` then writes; with
the friendly label `%s` the text is a format that reads an argument and
`vlog_obu` has no defined outcome. -/
theorem percent_in_label_changes_payload :
    (render_obu 0 (OBU.mix_presentation (labelled_mix "100%%")) 0 0).1 =
        "#0\nMixPresentationOBU_0:\n- mix_presentation_id: 1\n" ++
        "  mix_presentation_annotations:\n    mix_presentation_friendly_label: \"100%%\"\n" ++
        "  num_sub_mixes: 0\n  sub_mixes:\n##\n" ∧
      records (after [open_ok, Call.obu (OBU.mix_presentation (labelled_mix "100%%")) 0 0 true])
        LOG_TYPE.LOG_OBU =
        some [(0, "#0\nMixPresentationOBU_0:\n- mix_presentation_id: 1\n" ++
          "  mix_presentation_annotations:\n    mix_presentation_friendly_label: \"100%\"\n" ++
          "  num_sub_mixes: 0\n  sub_mixes:\n##\n")] ∧
      (vlog_file_close (after [open_ok,
        Call.obu (OBU.mix_presentation (labelled_mix "100%%")) 0 0 true])).map (fun r => r.2) =
        some (0, "#0\nMixPresentationOBU_0:\n- mix_presentation_id: 1\n" ++
          "  mix_presentation_annotations:\n    mix_presentation_friendly_label: \"100%\"\n" ++
          "  num_sub_mixes: 0\n  sub_mixes:\n##\n") ∧
      (render_obu 0 (OBU.mix_presentation (labelled_mix "%s")) 0 0).1 =
        "#0\nMixPresentationOBU_0:\n- mix_presentation_id: 1\n" ++
        "  mix_presentation_annotations:\n    mix_presentation_friendly_label: \"%s\"\n" ++
        "  num_sub_mixes: 0\n  sub_mixes:\n##\n" ∧
      vlog_obu opened (OBU.mix_presentation (labelled_mix "%s")) 0 0 true = none := by
  decide

end Vlog
